import Mathlib

/-!
URL shortener: short-code allocation and click analytics

A shallow embedding of the logic of `src/pages/Shortener.jsx`,
`src/pages/Statistics.jsx` and `src/utils/logger.js`.

Conventions of the embedding.

* A JavaScript string is a Lean `String`; its `length` counts UTF-16 code
  units (`JS.length`).
* Numbers are binary64 values: a finite number is a whole number of units of
  `2 ^ (-1074)` (`JS.Number`), a random draw is `sig * 2 ^ (-exp)`
  (`JS.Draw`); every product and sum is rounded to nearest, ties to even, and
  a decimal literal converts to the nearest value.
* An ISO-8601 time stamp is kept as the millisecond instant it denotes.
* `Math.random()` and the clock are streams read through a cursor (`Tick`),
  so every function is deterministic in its environment (`Env`).
* `new URL(url)` is browser code; whether it throws is the parameter
  `Env.validUrl`.
* React state and `localStorage` are explicit fields of a page state; the
  JSON round trip through `localStorage` is taken to be lossless and
  `setItem` not to fail.
* The `do ... while` loop of `shortenUrl` takes fuel; `none` means the fuel
  ran out before a unique code was drawn.
* Calls of `Log` change no state of the pages and are left out of the page
  functions; `Log` itself is `Logger.Log`, with the built-in `toLowerCase`
  and the network as parameters (`Logger.Platform`).
* `Array.prototype.sort` is stable (ECMAScript 2019).
* The application (`App`) shows one page at a time; a page is mounted from
  `localStorage`, and the in-place sorting a render performs on the state is
  the action `App.Action.render`.
-/

namespace JS

/-- White space and line terminators: the characters stripped by `trim`,
`parseInt` and the string-to-number conversion. -/
def isWhiteSpace (c : Char) : Bool :=
  [0x09, 0x0A, 0x0B, 0x0C, 0x0D, 0x20, 0xA0, 0x1680, 0x2028, 0x2029, 0x202F, 0x205F,
    0x3000, 0xFEFF].contains c.toNat
    || (0x2000 ≤ c.toNat && c.toNat ≤ 0x200A)

/-- The characters of `s.trim()`. -/
def trimChars (s : List Char) : List Char :=
  ((s.dropWhile isWhiteSpace).reverse.dropWhile isWhiteSpace).reverse

/-- `s.trim()`. -/
def trim (s : String) : String := ⟨trimChars s.toList⟩

/-- `s.length`: the number of UTF-16 code units of `s`. -/
def length (s : String) : Nat :=
  (s.toList.map (fun c => if c.toNat < 0x10000 then 1 else 2)).sum

/-- `s.charAt(i)` for a natural index: the one-character string at `i`, or
the empty string when `i` is out of range (the strings indexed here are
ASCII). -/
def charAt (s : String) (i : Nat) : String :=
  match s.toList.get? i with
  | some c => c.toString
  | none => ""

/-- Value of a character as a digit of a radix up to 36. -/
def digitValue (c : Char) : Option Nat :=
  if 48 ≤ c.toNat ∧ c.toNat ≤ 57 then some (c.toNat - 48)
  else if 97 ≤ c.toNat ∧ c.toNat ≤ 122 then some (c.toNat - 87)
  else if 65 ≤ c.toNat ∧ c.toNat ≤ 90 then some (c.toNat - 55)
  else none

/-- Whether `c` is a digit of the given radix. -/
def isRadixDigit (radix : Nat) (c : Char) : Bool :=
  match digitValue c with
  | some d => decide (d < radix)
  | none => false

/-- Value of a digit sequence in the given radix, most significant first. -/
def digitsValue (radix : Nat) (ds : List Char) : Nat :=
  ds.foldl (fun acc c => radix * acc + (digitValue c).getD 0) 0

/-- Split an optional sign off: `(negative, rest)`. -/
def splitSign : List Char → Bool × List Char
  | '-' :: t => (true, t)
  | '+' :: t => (false, t)
  | s => (false, s)

/-- Split an optional `0x` / `0X` off: `(radix, rest)`. -/
def splitHex : List Char → Nat × List Char
  | '0' :: 'x' :: t => (16, t)
  | '0' :: 'X' :: t => (16, t)
  | s => (10, s)

/-- The one-argument `parseInt(string)`: leading white space is skipped, an
optional sign and an optional `0x` are read, then the longest run of digits
of the radix; `none` is `NaN` (no digit).  The result is the exact integer:
the comparisons made on it by the callers are not changed by rounding to
binary64. -/
def parseInt (s : String) : Option Int :=
  let s1 := s.toList.dropWhile isWhiteSpace
  let (neg, s2) := splitSign s1
  let (radix, s3) := splitHex s2
  let ds := s3.takeWhile (isRadixDigit radix)
  if ds.isEmpty then none
  else if neg then some (-(digitsValue radix ds : Int))
  else some (digitsValue radix ds : Int)

/-- The number 1 counted in units of `2 ^ (-1074)`, the least positive
binary64 value: every finite binary64 value is a whole number of units. -/
def one : Nat := 1 <<< 1074

/-- The number of binary digits of `n` (`0` for `0`), by halving at most
`fuel` times, 64 digits at a time while `n` has more than 64; `fuel = n` is
enough. -/
def bitLength : Nat → Nat → Nat
  | 0, _ => 0
  | fuel + 1, n =>
    if n = 0 then 0
    else if n < 2 ^ 64 then bitLength fuel (n / 2) + 1
    else bitLength fuel (n / 2 ^ 64) + 64

/-- Rounding to nearest, ties to even, of the fraction `num / den` of units
(`den > 0`): the result, in units, keeps the 53 leading binary digits of the
quotient; below `2 ^ 53` units (subnormal values and the first binade) it is
a whole number of units. -/
def roundNearest (num den : Nat) : Nat :=
  let j := bitLength (num / den) (num / den) - 53
  let d := den <<< j
  let q := num / d
  let r := num % d
  if 2 * r < d ∨ (2 * r = d ∧ q % 2 = 0) then q <<< j else (q + 1) <<< j

/-- A number value (binary64): `NaN`, an infinity, or the finite value of `k`
units, `k * 2 ^ (-1074)`.  The two zeros are not told apart: no operation
used here gives them different results. -/
inductive Number where
  | nan
  | posInf
  | negInf
  | fin (k : Int)
deriving DecidableEq, Repr

/-- The number value nearest to the fraction `num / den` of units, taken
negative when `neg` holds: an infinity from `2 ^ 1024` on. -/
def Number.round (neg : Bool) (num den : Nat) : Number :=
  let k := roundNearest num den
  if k < 1 <<< 2098 then .fin (if neg then -(k : Int) else k)
  else if neg then .negInf else .posInf

/-- Product `x * k` with a positive integer constant `k` (60 and 1000 in the
code), rounded as `*` rounds. -/
def Number.scale (k : Nat) : Number → Number
  | .fin u => Number.round (decide (u < 0)) (u.natAbs * k) 1
  | x => x

/-- Sum `n + x` with a non-negative integer `n`, rounded as `+` rounds; `n`
is a clock reading, a whole number of milliseconds below `2 ^ 53` and so a
number value itself. -/
def Number.addNat (n : Nat) : Number → Number
  | .fin u => Number.round (decide (((n * one : Nat) : Int) + u < 0))
      (((n * one : Nat) : Int) + u).natAbs 1
  | x => x

/-- Sign flip. -/
def Number.neg : Number → Number
  | .nan => .nan
  | .posInf => .negInf
  | .negInf => .posInf
  | .fin k => .fin (-k)

/-- The number value of the decimal `m * 10 ^ e`: the binary64 value nearest
to it, ties to even (what the engines compute; the language fixes no more
than the first 20 significant digits of a literal). -/
def Number.ofDecimal (m : Nat) (e : Int) : Number :=
  if 0 ≤ e then Number.round false (m * 10 ^ e.toNat * one) 1
  else Number.round false (m * one) (10 ^ (-e).toNat)

/-- Whether `c` is a decimal digit. -/
def isDecDigit (c : Char) : Bool := isRadixDigit 10 c

/-- Optional exponent part at the end of a decimal literal: `some e` for the
empty rest (`e = 0`) or for `e` / `E`, an optional sign and at least one
digit up to the end; `none` otherwise. -/
def exponentPart : List Char → Option Int
  | [] => some 0
  | c :: t =>
    if c = 'e' ∨ c = 'E' then
      let (neg, ds) := splitSign t
      if ds.isEmpty || !ds.all isDecDigit then none
      else if neg then some (-(digitsValue 10 ds : Int))
      else some (digitsValue 10 ds : Int)
    else none

/-- An unsigned decimal literal of the string-to-number grammar: `Infinity`,
or digits with an optional fraction (at least one digit in all) and an
optional exponent. -/
def unsignedDecimal (s : List Char) : Number :=
  if s = "Infinity".toList then .posInf
  else
    let ip := s.takeWhile isDecDigit
    let r1 := s.dropWhile isDecDigit
    let fp := match r1 with
      | '.' :: t => t.takeWhile isDecDigit
      | _ => []
    let r2 := match r1 with
      | '.' :: t => t.dropWhile isDecDigit
      | _ => r1
    if ip.isEmpty && fp.isEmpty then .nan
    else
      match exponentPart r2 with
      | none => .nan
      | some e => Number.ofDecimal (digitsValue 10 (ip ++ fp)) (e - fp.length)

/-- A non-decimal integer literal `0x..`, `0o..`, `0b..` (either case), with
at least one digit and nothing after the digits. -/
def nonDecimal (s : List Char) : Option Number :=
  let go (radix : Nat) (ds : List Char) : Option Number :=
    if ds.isEmpty || !ds.all (isRadixDigit radix) then some .nan
    else some (Number.ofDecimal (digitsValue radix ds) 0)
  match s with
  | '0' :: 'x' :: t => go 16 t
  | '0' :: 'X' :: t => go 16 t
  | '0' :: 'o' :: t => go 8 t
  | '0' :: 'O' :: t => go 8 t
  | '0' :: 'b' :: t => go 2 t
  | '0' :: 'B' :: t => go 2 t
  | _ => none

/-- The conversion of a string to a number, as applied by `*`: white space is
trimmed on both sides, the empty string is `0`, the whole rest must be a
numeric literal, anything else is `NaN`. -/
def toNumber (s : String) : Number :=
  let t := trimChars s.toList
  if t.isEmpty then .fin 0
  else
    match nonDecimal t with
    | some n => n
    | none =>
      match t with
      | '-' :: u => (unsignedDecimal u).neg
      | '+' :: u => unsignedDecimal u
      | _ => unsignedDecimal t

/-- The time value of `new Date(x)`: `none` is the invalid date (`x` not
finite or beyond 8.64e15 ms in magnitude), otherwise `x` truncated toward
zero. -/
def timeClip : Number → Option Int
  | .fin k => if k.natAbs ≤ 8640000000000000 * one then some (k.tdiv one) else none
  | _ => none

/-- A result of `Math.random()`: the binary64 value `sig * 2 ^ (-exp)`. -/
structure Draw where
  sig : Nat
  exp : Nat
deriving DecidableEq, Repr

/-- Whether the draw is a binary64 value of `[0, 1)`: at most 53 significant
digits, a whole number of units, and below 1. -/
def Draw.inRange (r : Draw) : Bool :=
  decide (r.sig < 2 ^ 53) && decide (r.exp ≤ 1074) && decide (r.sig < 2 ^ r.exp)

/-- `Math.floor(r * n)` for a draw `r` and a natural number `n`: the product
is rounded as `*` rounds, then floored. -/
def Draw.floorMul (r : Draw) (n : Nat) : Nat :=
  roundNearest ((r.sig * n) <<< (1074 - r.exp)) 1 / one

/-- `xs[i]` for a natural index: `none` is `undefined`. -/
def index (xs : List String) (i : Nat) : Option String := xs.get? i

end JS

/-- A row of the entry form (`urls` state of the shortener page).  `validity`
is the text the value converts to: the number `30` of a fresh row is `"30"`,
an edited row holds the text of its number field. -/
structure UrlInput where
  id : Nat
  url : String
  validity : String
  customCode : String
  loading : Bool
  error : String
deriving DecidableEq, Repr

/-- A shortened link (an element of `shortenedUrls`). -/
structure UrlRecord where
  id : String
  originalUrl : String
  shortenedUrl : String
  shortCode : String
  validity : String
  createdAt : Int
  expiresAt : Int
  clicks : Nat
  isActive : Bool
deriving DecidableEq, Repr

/-- A click event (an element of `urlClickData`).  `location` is `none` for
`undefined`; `originalUrl` is present on the events written by the shortener
page only. -/
structure ClickEvent where
  id : String
  urlId : String
  timestamp : Int
  location : Option String
  ip : String
  userAgent : String
  originalUrl : Option String
deriving DecidableEq, Repr

/-- The two collections kept in `localStorage`; `none` is an absent key. -/
structure Storage where
  shortenedUrls : Option (List UrlRecord)
  urlClickData : Option (List ClickEvent)
deriving DecidableEq, Repr

/-- What the pages take from the browser. -/
structure Env where
  /-- Whether `new URL(url)` returns (rather than throws). -/
  validUrl : String → Bool
  /-- Successive results of `Math.random()`. -/
  rand : Nat → JS.Draw
  /-- Successive readings of the clock (`Date.now()`, `new Date()`), in ms. -/
  clock : Nat → Nat
  /-- The text `r.toString(36).substr(2, 9)` of a draw `r`. -/
  base36 : JS.Draw → String
  /-- The text of `navigator.userAgent`. -/
  userAgent : String
  /-- The message of the `RangeError` of `toISOString` on an invalid date. -/
  invalidTime : String

/-- Cursor into the streams of the environment: how many random draws and how
many clock readings have been consumed. -/
structure Tick where
  r : Nat
  c : Nat
deriving DecidableEq, Repr

/-- The value a call of `shortenUrl` returns. -/
inductive Result where
  | success (data : UrlRecord)
  | failure (error : String)
deriving DecidableEq, Repr

/-- The record of a success (`result.data` where `result.success` holds). -/
def Result.data? : Result → Option UrlRecord
  | .success data => some data
  | .failure _ => none

/-- How a call completes: it returns a value or throws an error. -/
inductive Completion where
  | returned (result : Result)
  | threw (message : String)
deriving DecidableEq, Repr

namespace Shortener

/-- Page state of the shortener. -/
structure State where
  urls : List UrlInput
  shortenedUrls : List UrlRecord
  successMessage : String
  storage : Storage
deriving DecidableEq, Repr

/-- `validateValidity`: `!isNaN(num) && num > 0 && num <= 525600` on
`num = parseInt(validity)`. -/
def validateValidity (validity : String) : Bool :=
  match JS.parseInt validity with
  | none => false
  | some num => decide (num > 0) && decide (num ≤ 525600)

/-- Character class `[a-zA-Z0-9-_]`. -/
def isCodeChar (c : Char) : Bool :=
  (97 ≤ c.toNat && c.toNat ≤ 122) || (65 ≤ c.toNat && c.toNat ≤ 90)
    || (48 ≤ c.toNat && c.toNat ≤ 57) || c = '-' || c = '_'

/-- The test of `/^[a-zA-Z0-9-_]+$/`: one or more characters, all of the
class. -/
def codeRegexTest (code : String) : Bool :=
  !code.toList.isEmpty && code.toList.all isCodeChar

/-- `validateCustomCode`: the empty code is accepted (optional field), any
other must match the expression and have 3 to 20 code units. -/
def validateCustomCode (code : String) : Bool :=
  if code = "" then true
  else codeRegexTest code && decide (JS.length code ≥ 3) && decide (JS.length code ≤ 20)

/-- The alphabet of generated codes. -/
def chars : String := "ABCDEFGHIJKLMNOPQRSTUVWXYZabcdefghijklmnopqrstuvwxyz0123456789"

/-- `generateShortCode`, reading six draws from position `r` of the stream. -/
def generateShortCode (rand : Nat → JS.Draw) (r : Nat) : String :=
  (List.range 6).foldl
    (fun result i => result ++ JS.charAt chars ((rand (r + i)).floorMul (JS.length chars)))
    ""

/-- `isShortCodeUnique`: no record of `shortenedUrls` has this short code. -/
def isShortCodeUnique (shortenedUrls : List UrlRecord) (code : String) : Bool :=
  !shortenedUrls.any (fun url => url.shortCode == code)

/-- The loop `do shortCode = generateShortCode() while (!isShortCodeUnique(shortCode))`
with at most `fuel` rounds: the code it exits on and the draw cursor after it. -/
def generateUnique (rand : Nat → JS.Draw) (shortenedUrls : List UrlRecord) :
    Nat → Nat → Option (String × Nat)
  | 0, _ => none
  | fuel + 1, r =>
    let shortCode := generateShortCode rand r
    if isShortCodeUnique shortenedUrls shortCode then some (shortCode, r + 6)
    else generateUnique rand shortenedUrls fuel (r + 6)

/-- The time value of `new Date(Date.now() + validity * 60 * 1000)`. -/
def expiryDate (now : Nat) (validity : String) : Option Int :=
  JS.timeClip ((((JS.toNumber validity).scale 60).scale 1000).addNat now)

/-- Lines 119-135 of `shortenUrl`: build the record for a chosen short code.
The clock is read for the expiry date, for the id and for `createdAt`, one
draw is taken for the id, and `toISOString` throws on an invalid expiry
date. -/
def buildRecord (env : Env) (t : Tick) (urlData : UrlInput) (shortCode : String) :
    Completion × Tick :=
  let shortenedUrl := "http://localhost:5174/s/" ++ shortCode
  let expiry := expiryDate (env.clock t.c) urlData.validity
  let id := toString (env.clock (t.c + 1)) ++ env.base36 (env.rand t.r)
  let createdAt : Int := env.clock (t.c + 2)
  let t1 : Tick := ⟨t.r + 1, t.c + 3⟩
  match expiry with
  | none => (.threw env.invalidTime, t1)
  | some expiresAt =>
    (.returned (.success
      { id := id
        originalUrl := urlData.url
        shortenedUrl := shortenedUrl
        shortCode := shortCode
        validity := urlData.validity
        createdAt := createdAt
        expiresAt := expiresAt
        clicks := 0
        isActive := true }), t1)

/-- `shortenUrl` against the registry `shortenedUrls` of the current render. -/
def shortenUrl (env : Env) (shortenedUrls : List UrlRecord) (fuel : Nat) (t : Tick)
    (urlData : UrlInput) : Option (Completion × Tick) :=
  if !env.validUrl urlData.url then
    some (.returned (.failure "Invalid URL format"), t)
  else if !validateValidity urlData.validity then
    some (.returned (.failure "Validity must be between 1 and 525,600 minutes"), t)
  else if urlData.customCode ≠ "" && !validateCustomCode urlData.customCode then
    some (.returned (.failure
      "Custom code must be 3-20 characters (alphanumeric, hyphens, underscores only)"), t)
  else if urlData.customCode ≠ "" then
    if !isShortCodeUnique shortenedUrls urlData.customCode then
      some (.returned (.failure "Custom code is already in use"), t)
    else some (buildRecord env t urlData urlData.customCode)
  else
    match generateUnique env.rand shortenedUrls fuel t.r with
    | none => none
    | some (shortCode, r) => some (buildRecord env ⟨r, t.c⟩ urlData shortCode)

/-- The outcome `handleShortenAll` records for a completed call: the returned
value, or a failure with the message of the thrown error. -/
def outcome : Completion → Result
  | .returned result => result
  | .threw message => .failure message

/-- The outcomes of `Promise.all(validUrls.map(...))`, each paired with the id
of its row.  `shortenUrl` has no `await`, so the calls run one after the
other in the order of the rows, and all of them read the registry of the
render in which `handleShortenAll` was called; an error thrown by
`shortenUrl` becomes a failure carrying its message. -/
def shortenEach (env : Env) (shortenedUrls : List UrlRecord) (fuel : Nat) :
    Tick → List UrlInput → Option (List (Nat × Result) × Tick)
  | t, [] => some ([], t)
  | t, url :: rest =>
    match shortenUrl env shortenedUrls fuel t url with
    | none => none
    | some (completion, t1) =>
      match shortenEach env shortenedUrls fuel t1 rest with
      | none => none
      | some (results, t2) => some ((url.id, outcome completion) :: results, t2)

/-- Lines 174-191 of `handleShortenAll`: the rows after the batch, the success
count and the records pushed to `newShortenedUrls`, each row taking the first
outcome that carries its id. -/
def updateRows (results : List (Nat × Result)) :
    List UrlInput → List UrlInput × Nat × List UrlRecord
  | [] => ([], 0, [])
  | url :: rest =>
    let (rows, successCount, newShortenedUrls) := updateRows results rest
    match results.find? (fun r => r.1 == url.id) with
    | some (_, .success data) =>
      ({ url with loading := false, url := "", customCode := "", error := "" } :: rows,
        successCount + 1, data :: newShortenedUrls)
    | some (_, .failure error) =>
      ({ url with loading := false, error := error } :: rows, successCount, newShortenedUrls)
    | none => (url :: rows, successCount, newShortenedUrls)

/-- The effect of lines 19-23: a non-empty registry is written to
`localStorage` whenever it changes. -/
def persist (shortenedUrls : List UrlRecord) (storage : Storage) : Storage :=
  if shortenedUrls.length > 0 then { storage with shortenedUrls := some shortenedUrls }
  else storage

/-- `handleShortenAll`, run to completion from the state `s` of the current
render (the clearing of the success message after five seconds is left
out). -/
def handleShortenAll (env : Env) (fuel : Nat) (t : Tick) (s : State) : Option (State × Tick) :=
  let validUrls := s.urls.filter (fun url => JS.trim url.url ≠ "")
  if validUrls.length = 0 then some ({ s with successMessage := "" }, t)
  else
    match shortenEach env s.shortenedUrls fuel t validUrls with
    | none => none
    | some (results, t1) =>
      let (rows, successCount, newShortenedUrls) := updateRows results s.urls
      if newShortenedUrls.length > 0 then
        some ({ urls := rows
                shortenedUrls := s.shortenedUrls ++ newShortenedUrls
                successMessage := "Successfully shortened " ++ toString successCount ++ " URL(s)"
                storage := persist (s.shortenedUrls ++ newShortenedUrls) s.storage }, t1)
      else some ({ s with urls := rows }, t1)

/-- `deleteUrl` of the shortener page. -/
def deleteUrl (s : State) (urlId : String) : State :=
  let updatedUrls := s.shortenedUrls.filter (fun url => url.id ≠ urlId)
  { s with
    shortenedUrls := updatedUrls
    storage := { s.storage with shortenedUrls := some updatedUrls } }

/-- `isExpired`: `new Date() > new Date(expiresAt)`. -/
def isExpired (now : Nat) (expiresAt : Int) : Bool := decide ((now : Int) > expiresAt)

/-- The simulated locations of `handleRedirect`. -/
def locations : List String :=
  ["New York, USA", "London, UK", "Tokyo, Japan", "Sydney, Australia", "Toronto, Canada",
    "Berlin, Germany", "Mumbai, India", "São Paulo, Brazil"]

/-- `handleRedirect` up to the opening of the target: an expired link changes
nothing; otherwise one event is appended to the stored click collection and
the records of the registry with the id of `url` get one more click. -/
def handleRedirect (env : Env) (t : Tick) (s : State) (url : UrlRecord) : State × Tick :=
  if isExpired (env.clock t.c) url.expiresAt then (s, ⟨t.r, t.c + 1⟩)
  else
    let randomLocation := JS.index locations ((env.rand t.r).floorMul locations.length)
    let clickData : ClickEvent :=
      { id := toString (env.clock (t.c + 1)) ++ env.base36 (env.rand (t.r + 1))
        urlId := url.id
        timestamp := env.clock (t.c + 2)
        location := randomLocation
        ip := "192.168." ++ toString ((env.rand (t.r + 2)).floorMul 255) ++ "."
          ++ toString ((env.rand (t.r + 3)).floorMul 255)
        userAgent := String.mk (env.userAgent.toList.take 50) ++ "..."
        originalUrl := some url.originalUrl }
    let existingClickData := s.storage.urlClickData.getD []
    let updatedClickData := existingClickData ++ [clickData]
    let updatedUrls := s.shortenedUrls.map
      (fun u => if u.id = url.id then { u with clicks := u.clicks + 1 } else u)
    ({ s with
       shortenedUrls := updatedUrls
       storage := { shortenedUrls := some updatedUrls, urlClickData := some updatedClickData } },
      ⟨t.r + 4, t.c + 3⟩)

end Shortener

namespace Statistics

/-- Page state of the statistics page. -/
structure State where
  shortenedUrls : List UrlRecord
  selectedUrl : Option UrlRecord
  clickData : List ClickEvent
  storage : Storage
deriving DecidableEq, Repr

/-- The simulated locations of `simulateClick`. -/
def locations : List String :=
  ["Pune, India", "Mumbai, India", "Jhansi, India", "Bengaluru, India"]

/-- The event `newClick` that `simulateClick` builds. -/
def newClick (env : Env) (t : Tick) (urlId : String) : ClickEvent :=
  { id := toString (env.clock t.c) ++ env.base36 (env.rand (t.r + 1))
    urlId := urlId
    timestamp := env.clock (t.c + 1)
    location := JS.index locations ((env.rand t.r).floorMul locations.length)
    ip := "192.168." ++ toString ((env.rand (t.r + 2)).floorMul 255) ++ "."
      ++ toString ((env.rand (t.r + 3)).floorMul 255)
    userAgent := String.mk (env.userAgent.toList.take 50) ++ "..."
    originalUrl := none }

/-- `simulateClick`: the new event is appended to the click data, the records
with the clicked id get one more click, and both collections are stored. -/
def simulateClick (env : Env) (t : Tick) (s : State) (urlId : String) : State × Tick :=
  let updatedClickData := s.clickData ++ [newClick env t urlId]
  let updatedUrls := s.shortenedUrls.map
    (fun url => if url.id = urlId then { url with clicks := url.clicks + 1 } else url)
  ({ s with
     shortenedUrls := updatedUrls
     clickData := updatedClickData
     storage := { shortenedUrls := some updatedUrls, urlClickData := some updatedClickData } },
    ⟨t.r + 4, t.c + 2⟩)

/-- `getClicksForUrl`. -/
def getClicksForUrl (s : State) (urlId : String) : List ClickEvent :=
  s.clickData.filter (fun click => click.urlId = urlId)

/-- `deleteUrl` of the statistics page: the records and the events of the id
are filtered out, both collections are stored and a selection of the deleted
id is cleared. -/
def deleteUrl (s : State) (urlId : String) : State :=
  let updatedUrls := s.shortenedUrls.filter (fun url => url.id ≠ urlId)
  let updatedClickData := s.clickData.filter (fun click => click.urlId ≠ urlId)
  { shortenedUrls := updatedUrls
    selectedUrl :=
      match s.selectedUrl with
      | some selected => if selected.id = urlId then none else some selected
      | none => none
    clickData := updatedClickData
    storage := { shortenedUrls := some updatedUrls, urlClickData := some updatedClickData } }

end Statistics

namespace JS

/-- The property names every plain object inherits from `Object.prototype`. -/
def objectPrototypeNames : List String :=
  ["constructor", "hasOwnProperty", "isPrototypeOf", "propertyIsEnumerable", "toLocaleString",
    "toString", "valueOf", "__proto__", "__defineGetter__", "__defineSetter__",
    "__lookupGetter__", "__lookupSetter__"]

/-- Whether a property key is an array index: the canonical decimal numeral
(no leading zero) of an integer below `2 ^ 32 - 1`. -/
def isArrayIndex (key : String) : Bool :=
  !key.toList.isEmpty && key.toList.all isDecDigit
    && (key.toList.length == 1 || key.toList.head? != some '0')
    && decide (digitsValue 10 key.toList < 4294967295)

/-- The integer an array-index key denotes. -/
def arrayIndex (key : String) : Nat := digitsValue 10 key.toList

/-- The statement `obj[key] = (obj[key] || 0) + 1` on an object given by its
own properties in creation order, all of them counts, for a key that is not
inherited: an own count goes up by one in place, a new key is created last
with the count 1. -/
def increment : List (String × Nat) → String → List (String × Nat)
  | [], key => [(key, 1)]
  | (k, n) :: rest, key =>
    if k = key then (k, n + 1) :: rest else (k, n) :: increment rest key

/-- `Object.entries(obj)`: the array-index keys in ascending numeric order,
then the other keys in creation order. -/
def entries (obj : List (String × Nat)) : List (String × Nat) :=
  (obj.filter (fun p => isArrayIndex p.1)).insertionSort
      (fun a b => arrayIndex a.1 ≤ arrayIndex b.1)
    ++ obj.filter (fun p => !isArrayIndex p.1)

end JS

namespace Statistics

/-- `isExpired`: `new Date() > new Date(expiresAt)`. -/
def isExpired (now : Nat) (expiresAt : Int) : Bool := decide ((now : Int) > expiresAt)

/-- The records kept by `shortenedUrls.filter((url) => !isExpired(url.expiresAt))`:
every call of `isExpired` reads the clock anew, from the reading `c` on. -/
def activeUrls (clock : Nat → Nat) : Nat → List UrlRecord → List UrlRecord
  | _, [] => []
  | c, url :: rest =>
    if !isExpired (clock c) url.expiresAt then url :: activeUrls clock (c + 1) rest
    else activeUrls clock (c + 1) rest

/-- `getActiveUrls`, the number shown as `Active URLs`. -/
def getActiveUrls (env : Env) (t : Tick) (s : State) : Nat :=
  (activeUrls env.clock t.c s.shortenedUrls).length

/-- `getTotalClicks`. -/
def getTotalClicks (s : State) : Nat :=
  s.shortenedUrls.foldl (fun sum url => sum + url.clicks) 0

/-- `getMostClickedUrl`: `null` (`none`) on the empty registry, otherwise the
`reduce` without initial value, which starts from the first record. -/
def getMostClickedUrl (s : State) : Option UrlRecord :=
  match s.shortenedUrls with
  | [] => none
  | first :: rest =>
    some (rest.foldl (fun max url => if url.clicks > max.clicks then url else max) first)

/-- The property key a click is counted under: its location, `undefined`
giving the key `"undefined"`. -/
def locationKey (click : ClickEvent) : String := click.location.getD "undefined"

/-- `getLocationStats`.  The counts are collected in a plain object, its
entries are sorted by descending count with the stable `sort`, and the first
five are kept.  `none` when a location is a name inherited from
`Object.prototype`: the value found under such a key is no count, the sum is
a text, and the order `sort` gives is then left to the engine. -/
def getLocationStats (s : State) : Option (List (String × Nat)) :=
  if (s.clickData.map locationKey).any (fun k => JS.objectPrototypeNames.contains k) then none
  else
    let locationCounts := (s.clickData.map locationKey).foldl JS.increment []
    some (((JS.entries locationCounts).insertionSort (fun a b => a.2 ≥ b.2)).take 5)

end Statistics

namespace Logger

/-- The allowed values of `stack`. -/
def allowedStacks : List String := ["frontend", "backend"]

/-- The allowed values of `level`. -/
def allowedLevels : List String := ["debug", "info", "warn", "error", "fatal"]

/-- The allowed values of `package`. -/
def allowedPackages : List String :=
  ["api", "component", "hook", "page", "state", "style", "auth", "config", "middleware",
    "utils"]

/-- The body of a request to the log endpoint. -/
structure Payload where
  stack : String
  level : String
  message : String
  package : String
deriving DecidableEq, Repr

/-- The value `res.json()` resolves to, as far as `Log` reads it: `null`, or
a value whose `logID` and `message` are read (`none` for `undefined`). -/
inductive Json where
  | null
  | value (logID : Option String) (message : Option String)
deriving DecidableEq, Repr

/-- What becomes of a request: `fetch` rejects, or it resolves with a
response (`ok` or not) whose `json()` rejects or resolves. -/
inductive Fetch where
  | rejected (message : String)
  | unparsable (ok : Bool) (message : String)
  | response (ok : Bool) (data : Json)
deriving DecidableEq, Repr

/-- What `Log` takes from the platform. -/
structure Platform where
  /-- The built-in `String.prototype.toLowerCase`. -/
  toLowerCase : String → String
  /-- The fate of a request with the given payload. -/
  fetch : Payload → Fetch
  /-- The message of the `TypeError` of reading the named property of `null`. -/
  nullRead : String → String

/-- One run of `Log`: the requests sent, the lines written to the console, and
the error it raised (rejected with), if any. -/
structure Run where
  sent : List Payload
  console : List String
  raised : Option String
deriving DecidableEq, Repr

/-- The `try` block of `Log` once the request is sent: the line it writes, or
the message of the error thrown in it. -/
def request (p : Platform) (payload : Payload) : Except String String :=
  match p.fetch payload with
  | .rejected message => .error message
  | .unparsable _ message => .error message
  | .response true .null => .error (p.nullRead "logID")
  | .response false .null => .error (p.nullRead "message")
  | .response true (.value logID _) => .ok ("[Logger] Success: " ++ logID.getD "undefined")
  | .response false (.value _ message) =>
    .ok ("[Logger] Server Error: " ++ message.getD "undefined")

/-- `Log(stack, level, message, pkg)` on string arguments. -/
def Log (p : Platform) (stack level message pkg : String) : Run :=
  let formattedStack := p.toLowerCase stack
  let formattedLevel := p.toLowerCase level
  let formattedPackages := p.toLowerCase pkg
  let formattedMessage := JS.trim message
  if !allowedStacks.contains formattedStack then
    { sent := [], console := ["[Logger] Invalid stack: " ++ stack], raised := none }
  else if !allowedLevels.contains formattedLevel then
    { sent := [], console := ["[Logger] Invalid level: " ++ level], raised := none }
  else if !allowedPackages.contains formattedPackages then
    { sent := [], console := ["[Logger] Invalid package: " ++ pkg], raised := none }
  else
    let payload : Payload :=
      { stack := formattedStack, level := formattedLevel, message := formattedMessage,
        package := formattedPackages }
    match request p payload with
    | .ok line => { sent := [payload], console := [line], raised := none }
    | .error message =>
      { sent := [payload], console := ["[Logger] Request Failed: " ++ message], raised := none }

end Logger

namespace Shortener

/-- The row the form starts with. -/
def initialRow : UrlInput :=
  { id := 1, url := "", validity := "30", customCode := "", loading := false, error := "" }

/-- The shortener page as it is mounted: the registry is read from
`localStorage` (lines 11-17), the form has its one initial row. -/
def mount (storage : Storage) : State :=
  { urls := [initialRow], shortenedUrls := storage.shortenedUrls.getD [], successMessage := "",
    storage := storage }

/-- The effect of rendering on the state: `shortenedUrls.sort(...)` (line 417)
sorts the registry in place, newest `createdAt` first. -/
def render (s : State) : State :=
  { s with shortenedUrls := s.shortenedUrls.insertionSort (fun a b => a.createdAt ≥ b.createdAt) }

end Shortener

namespace Statistics

/-- The statistics page as it is mounted: `loadStatisticsData` reads both
collections from `localStorage`. -/
def mount (storage : Storage) : State :=
  { shortenedUrls := storage.shortenedUrls.getD [], selectedUrl := none,
    clickData := storage.urlClickData.getD [], storage := storage }

/-- The effect of rendering on the state: the registry is sorted in place,
newest `createdAt` first (line 205), and `getRecentClicks` sorts the click
data in place, newest `timestamp` first (line 145). -/
def render (s : State) : State :=
  { s with
    shortenedUrls := s.shortenedUrls.insertionSort (fun a b => a.createdAt ≥ b.createdAt)
    clickData := s.clickData.insertionSort (fun a b => a.timestamp ≥ b.timestamp) }

end Statistics

namespace App

/-- The application shows one page at a time (`App.jsx`); the page carries the
`localStorage` both pages share. -/
inductive State where
  | shortener (s : Shortener.State)
  | statistics (s : Statistics.State)
deriving DecidableEq, Repr

/-- What the user does: fill the form with the given rows and shorten them all,
follow a link, delete a link or simulate a click on the page that offers it,
switch to a page; `render` is the in-place sorting a render performs. -/
inductive Action where
  | shortenAll (urls : List UrlInput)
  | redirect (url : UrlRecord)
  | deleteOnShortener (urlId : String)
  | simulateClick (urlId : String)
  | deleteOnStatistics (urlId : String)
  | openShortener
  | openStatistics
  | render
deriving DecidableEq, Repr

/-- The application as it starts: the shortener page on an empty
`localStorage`. -/
def initial : State := .shortener (Shortener.mount { shortenedUrls := none, urlClickData := none })

/-- The registry of the page shown. -/
def registry : State → List UrlRecord
  | .shortener s => s.shortenedUrls
  | .statistics s => s.shortenedUrls

/-- The `localStorage`. -/
def storage : State → Storage
  | .shortener s => s.storage
  | .statistics s => s.storage

/-- The stored click collection (`urlClickData`). -/
def clicks (x : State) : List ClickEvent := (storage x).urlClickData.getD []

/-- One action; `none` when the page shown does not offer it (a link to follow
must be listed) or the generation loop runs out of fuel.  Opening the page
that is shown changes nothing; opening the other page mounts it. -/
def step (env : Env) (fuel : Nat) : Action → State × Tick → Option (State × Tick)
  | .shortenAll urls, (.shortener s, t) =>
    (Shortener.handleShortenAll env fuel t { s with urls := urls }).map
      (fun p => (.shortener p.1, p.2))
  | .redirect url, (.shortener s, t) =>
    if url ∈ s.shortenedUrls then
      some (.shortener (Shortener.handleRedirect env t s url).1,
        (Shortener.handleRedirect env t s url).2)
    else none
  | .deleteOnShortener urlId, (.shortener s, t) =>
    some (.shortener (Shortener.deleteUrl s urlId), t)
  | .simulateClick urlId, (.statistics s, t) =>
    some (.statistics (Statistics.simulateClick env t s urlId).1,
      (Statistics.simulateClick env t s urlId).2)
  | .deleteOnStatistics urlId, (.statistics s, t) =>
    some (.statistics (Statistics.deleteUrl s urlId), t)
  | .openShortener, (.shortener s, t) => some (.shortener s, t)
  | .openShortener, (.statistics s, t) => some (.shortener (Shortener.mount s.storage), t)
  | .openStatistics, (.statistics s, t) => some (.statistics s, t)
  | .openStatistics, (.shortener s, t) => some (.statistics (Statistics.mount s.storage), t)
  | .render, (.shortener s, t) => some (.shortener (Shortener.render s), t)
  | .render, (.statistics s, t) => some (.statistics (Statistics.render s), t)
  | _, _ => none

/-- A sequence of actions, from left to right. -/
def run (env : Env) (fuel : Nat) : List Action → State × Tick → Option (State × Tick)
  | [], x => some x
  | a :: rest, x =>
    match step env fuel a x with
    | none => none
    | some y => run env fuel rest y

/-- The records an action appends to the registry: those pushed to
`newShortenedUrls` by a batch, none for the other actions. -/
def created (env : Env) (fuel : Nat) : Action → State × Tick → List UrlRecord
  | .shortenAll urls, (.shortener s, t) =>
    match Shortener.shortenEach env s.shortenedUrls fuel t
        (urls.filter (fun url => JS.trim url.url ≠ "")) with
    | none => []
    | some (results, _) => (Shortener.updateRows results urls).2.2
  | _, _ => []

/-- Whether, along a sequence of actions, every record a batch appends has an
id that no click event stored at that moment carries. -/
def freshIds (env : Env) (fuel : Nat) : List Action → State × Tick → Bool
  | [], _ => true
  | a :: rest, x =>
    (created env fuel a x).all (fun r => (clicks x.1).all (fun e => e.urlId != r.id))
      && match step env fuel a x with
        | none => true
        | some y => freshIds env fuel rest y

/-- The click count of every listed record is the number of stored click
events that carry its id. -/
def consistent (x : State) : Prop :=
  ∀ r ∈ registry x, r.clicks = ((clicks x).filter (fun e => e.urlId = r.id)).length

/-- The click data the page shown works on: the state `clickData` of the
statistics page, the stored collection on the shortener page. -/
def pageClicks : State → List ClickEvent
  | .shortener s => s.storage.urlClickData.getD []
  | .statistics s => s.clickData

/-- The page shown and `localStorage` hold the same records and the same
click events, up to the order rendering gives them. -/
def synced (x : State) : Prop :=
  ((storage x).shortenedUrls.getD []).Perm (registry x) ∧ (clicks x).Perm (pageClicks x)

end App

/-! ## Concrete inputs of the examples -/

namespace Demo

/-- A browser for the examples: `new URL` accepts the three URLs used below
(and rejects the empty string), draws cycle through the seven multiples of
`2 ^ (-20)` next above `0/7 .. 6/7`, the clock advances one millisecond per
reading, and the base-36 digits of a draw are stood in for by the number of
the seventh it lies in. -/
def env : Env where
  validUrl := fun url => ["https://a.com", "https://b.com", "https://example.com"].contains url
  rand := fun i => ⟨(i % 7 * 2 ^ 20 + 6) / 7, 20⟩
  clock := fun i => 1700000000000 + i
  base36 := fun r => toString (r.floorMul 7)
  userAgent := "Mozilla/5.0"
  invalidTime := "Invalid time value"

/-- A form row with the given id, URL, validity and custom code. -/
def row (id : Nat) (url validity customCode : String) : UrlInput :=
  { id := id, url := url, validity := validity, customCode := customCode, loading := false,
    error := "" }

/-- A stored link with the given id, short code and click count. -/
def link (id shortCode : String) (clicks : Nat) : UrlRecord :=
  { id := id
    originalUrl := "https://example.com"
    shortenedUrl := "http://localhost:5174/s/" ++ shortCode
    shortCode := shortCode
    validity := "30"
    createdAt := 1700000000000
    expiresAt := 1700001800000
    clicks := clicks
    isActive := true }

/-- The empty `localStorage`. -/
def emptyStorage : Storage := { shortenedUrls := none, urlClickData := none }

/-- The shortener page with the given rows and registry. -/
def shortener (urls : List UrlInput) (shortenedUrls : List UrlRecord) : Shortener.State :=
  { urls := urls, shortenedUrls := shortenedUrls, successMessage := "",
    storage := { shortenedUrls := some shortenedUrls, urlClickData := none } }

/-- The statistics page with the given registry and no click yet. -/
def statistics (shortenedUrls : List UrlRecord) : Statistics.State :=
  { shortenedUrls := shortenedUrls, selectedUrl := none, clickData := [],
    storage := { shortenedUrls := some shortenedUrls, urlClickData := none } }

/-- The browser of `env` with a clock that stands still. -/
def frozen : Env := { env with clock := fun _ => 1700000000000 }

/-- A click event with the given id, link id and location. -/
def click (id urlId location : String) : ClickEvent :=
  { id := id, urlId := urlId, timestamp := 1700000000000, location := some location,
    ip := "192.168.1.1", userAgent := "Mozilla/5.0...", originalUrl := none }

/-- The statistics page with the given click events and an empty registry. -/
def ledger (clickData : List ClickEvent) : Statistics.State :=
  { shortenedUrls := [], selectedUrl := none, clickData := clickData,
    storage := { shortenedUrls := none, urlClickData := some clickData } }

/-- A platform for the logger: `toLowerCase` on ASCII text, and a sink that
answers every request with `ok` and the id `"id-1"`. -/
def platform : Logger.Platform where
  toLowerCase := fun s => String.mk (s.toList.map Char.toLower)
  fetch := fun _ => .response true (.value (some "id-1") none)
  nullRead := fun name => "Cannot read properties of null (reading " ++ name ++ ")"

/-- A session on `env` in which a click is simulated for an id that no record
carries and a link is created afterwards, each action followed by a render. -/
def orphanSession : List App.Action :=
  [.openStatistics, .render, .simulateClick "17000000000033", .render, .openShortener, .render,
    .shortenAll [row 1 "https://a.com" "30" ""], .render]

/-- A session on `frozen`: a link is created and followed, then one click is
simulated for it and one for an id that no record carries. -/
def session : List App.Action :=
  [.shortenAll [row 1 "https://example.com" "30" "my-link"], .render,
    .redirect (link "17000000000000" "my-link" 0), .render, .openStatistics, .render,
    .simulateClick "17000000000000", .render, .simulateClick "ghost", .render]

end Demo

set_option maxRecDepth 8000
set_option exponentiation.threshold 2200

/-! ## Click recording and deletion on the statistics page -/

/-- Filtering the events of one id after appending an event of that id. -/
theorem getClicksForUrl_simulateClick_same (env : Env) (t : Tick) (s : Statistics.State)
    (urlId : String) :
    Statistics.getClicksForUrl (Statistics.simulateClick env t s urlId).1 urlId
      = Statistics.getClicksForUrl s urlId ++ [Statistics.newClick env t urlId] := by
  simp [Statistics.getClicksForUrl, Statistics.simulateClick, Statistics.newClick,
    List.filter_append]

/-- Filtering the events of another id after appending an event. -/
theorem getClicksForUrl_simulateClick_other (env : Env) (t : Tick) (s : Statistics.State)
    (urlId other : String) (h : other ≠ urlId) :
    Statistics.getClicksForUrl (Statistics.simulateClick env t s urlId).1 other
      = Statistics.getClicksForUrl s other := by
  simp [Statistics.getClicksForUrl, Statistics.simulateClick, Statistics.newClick,
    List.filter_append, Ne.symm h]

/-- C2: `simulateClick` on the id of a listed record appends exactly one event
of that id at the end of the click list, gives every record of that id one
more click, leaves the records of other ids and the events of other ids as
they were, and stores both collections; so a link with no click and no event
has one click and exactly one event afterwards. -/
theorem simulateClick_records_one_click (env : Env) (t : Tick) (s : Statistics.State)
    (urlId : String) (r : UrlRecord) (hr : r ∈ s.shortenedUrls) (hid : r.id = urlId) :
    (∃ e : ClickEvent, e.urlId = urlId ∧
        (Statistics.simulateClick env t s urlId).1.clickData = s.clickData ++ [e]) ∧
      List.Forall₂
        (fun old new =>
          (old.id = urlId → new = { old with clicks := old.clicks + 1 }) ∧
            (old.id ≠ urlId → new = old))
        s.shortenedUrls (Statistics.simulateClick env t s urlId).1.shortenedUrls ∧
      { r with clicks := r.clicks + 1 } ∈ (Statistics.simulateClick env t s urlId).1.shortenedUrls ∧
      (Statistics.getClicksForUrl (Statistics.simulateClick env t s urlId).1 urlId).length
        = (Statistics.getClicksForUrl s urlId).length + 1 ∧
      (∀ other, other ≠ urlId →
        Statistics.getClicksForUrl (Statistics.simulateClick env t s urlId).1 other
          = Statistics.getClicksForUrl s other) ∧
      (Statistics.simulateClick env t s urlId).1.storage
        = { shortenedUrls := some (Statistics.simulateClick env t s urlId).1.shortenedUrls
            urlClickData := some (Statistics.simulateClick env t s urlId).1.clickData } ∧
      (r.clicks = 0 → Statistics.getClicksForUrl s urlId = [] →
        { r with clicks := 1 } ∈ (Statistics.simulateClick env t s urlId).1.shortenedUrls ∧
          (Statistics.getClicksForUrl (Statistics.simulateClick env t s urlId).1 urlId).length
            = 1) := by
  have hmem : { r with clicks := r.clicks + 1 }
      ∈ (Statistics.simulateClick env t s urlId).1.shortenedUrls := by
    simp only [Statistics.simulateClick, List.mem_map]
    exact ⟨r, hr, by simp [hid]⟩
  refine ⟨⟨Statistics.newClick env t urlId, rfl, rfl⟩, ?_, hmem, ?_, ?_, rfl, ?_⟩
  · simp only [Statistics.simulateClick]
    rw [List.forall₂_map_right_iff, List.forall₂_same]
    intro x _
    by_cases hx : x.id = urlId <;> simp [hx]
  · rw [getClicksForUrl_simulateClick_same]; simp
  · intro other h
    exact getClicksForUrl_simulateClick_other env t s urlId other h
  · intro h0 hnone
    refine ⟨?_, ?_⟩
    · have := hmem
      rw [h0] at this
      exact this
    · rw [getClicksForUrl_simulateClick_same, hnone]; rfl

/-- Witness of C2: one click on the link `"a"` of a one-link registry. -/
theorem simulateClick_records_one_click_witness :
    Demo.link "a" "abc123" 0 ∈ (Demo.statistics [Demo.link "a" "abc123" 0]).shortenedUrls ∧
      Demo.link "a" "abc123" 1
        ∈ (Statistics.simulateClick Demo.env ⟨0, 0⟩
            (Demo.statistics [Demo.link "a" "abc123" 0]) "a").1.shortenedUrls ∧
      (Statistics.getClicksForUrl
        (Statistics.simulateClick Demo.env ⟨0, 0⟩
          (Demo.statistics [Demo.link "a" "abc123" 0]) "a").1 "a").length = 1 :=
  ⟨by decide,
    (simulateClick_records_one_click Demo.env ⟨0, 0⟩ (Demo.statistics [Demo.link "a" "abc123" 0])
      "a" (Demo.link "a" "abc123" 0) (by decide) rfl).2.2.2.2.2.2 rfl rfl⟩

/-- C3, as stated, fails: a click simulated for an id that no record carries
(here on the empty registry) still appends an event to the click list. -/
theorem simulateClick_unknown_id_appends :
    (∀ r ∈ (Demo.statistics []).shortenedUrls, r.id ≠ "ghost") ∧
      (Statistics.simulateClick Demo.env ⟨0, 0⟩ (Demo.statistics []) "ghost").1.clickData
        ≠ (Demo.statistics []).clickData := by
  decide

/-- C3, amended: a click simulated for an id that no record carries leaves the
registry as it was (no count changes), and appends exactly one event of that
id to the click list. -/
theorem simulateClick_unknown_id (env : Env) (t : Tick) (s : Statistics.State) (urlId : String)
    (h : ∀ r ∈ s.shortenedUrls, r.id ≠ urlId) :
    (Statistics.simulateClick env t s urlId).1.shortenedUrls = s.shortenedUrls ∧
      (∃ e : ClickEvent, e.urlId = urlId ∧
        (Statistics.simulateClick env t s urlId).1.clickData = s.clickData ++ [e]) ∧
      (Statistics.simulateClick env t s urlId).1.clickData.length = s.clickData.length + 1 := by
  refine ⟨?_, ⟨Statistics.newClick env t urlId, rfl, rfl⟩, by simp [Statistics.simulateClick]⟩
  simp only [Statistics.simulateClick]
  conv_rhs => rw [← List.map_id s.shortenedUrls]
  apply List.map_congr_left
  intro x hx
  simp [h x hx]

/-- Witness of the amended C3: a click for `"ghost"` on a registry holding
only the link `"a"`. -/
theorem simulateClick_unknown_id_witness :
    (∀ r ∈ (Demo.statistics [Demo.link "a" "abc123" 0]).shortenedUrls, r.id ≠ "ghost") ∧
      (Statistics.simulateClick Demo.env ⟨0, 0⟩ (Demo.statistics [Demo.link "a" "abc123" 0])
        "ghost").1.shortenedUrls = [Demo.link "a" "abc123" 0] ∧
      (Statistics.simulateClick Demo.env ⟨0, 0⟩ (Demo.statistics [Demo.link "a" "abc123" 0])
        "ghost").1.clickData.length = 1 :=
  ⟨by decide,
    (simulateClick_unknown_id Demo.env ⟨0, 0⟩ (Demo.statistics [Demo.link "a" "abc123" 0])
      "ghost" (by decide)).1,
    (simulateClick_unknown_id Demo.env ⟨0, 0⟩ (Demo.statistics [Demo.link "a" "abc123" 0])
      "ghost" (by decide)).2.2⟩

/-- C4: `deleteUrl` of the statistics page yields exactly the registry without
the records of the id and exactly the click list without the events of the
id, in state and in storage, so the events of other ids are untouched and no
event of the deleted id is left, also after three clicks were recorded for
it. -/
theorem statistics_deleteUrl_cascades (env : Env) (t₁ t₂ t₃ : Tick) (s : Statistics.State)
    (urlId : String) :
    (Statistics.deleteUrl s urlId).shortenedUrls
        = s.shortenedUrls.filter (fun url => url.id ≠ urlId) ∧
      (Statistics.deleteUrl s urlId).clickData
        = s.clickData.filter (fun click => click.urlId ≠ urlId) ∧
      (Statistics.deleteUrl s urlId).storage
        = { shortenedUrls := some (s.shortenedUrls.filter (fun url => url.id ≠ urlId))
            urlClickData := some (s.clickData.filter (fun click => click.urlId ≠ urlId)) } ∧
      (∀ other, other ≠ urlId →
        Statistics.getClicksForUrl (Statistics.deleteUrl s urlId) other
          = Statistics.getClicksForUrl s other) ∧
      Statistics.getClicksForUrl (Statistics.deleteUrl s urlId) urlId = [] ∧
      (Statistics.getClicksForUrl
          (Statistics.simulateClick env t₃
            (Statistics.simulateClick env t₂
              (Statistics.simulateClick env t₁ s urlId).1 urlId).1 urlId).1 urlId).length
        = (Statistics.getClicksForUrl s urlId).length + 3 ∧
      Statistics.getClicksForUrl
        (Statistics.deleteUrl
          (Statistics.simulateClick env t₃
            (Statistics.simulateClick env t₂
              (Statistics.simulateClick env t₁ s urlId).1 urlId).1 urlId).1 urlId) urlId = [] := by
  have hempty : ∀ s' : Statistics.State,
      Statistics.getClicksForUrl (Statistics.deleteUrl s' urlId) urlId = [] := by
    intro s'
    simp [Statistics.getClicksForUrl, Statistics.deleteUrl, List.filter_filter]
  refine ⟨rfl, rfl, rfl, ?_, hempty s, ?_, hempty _⟩
  · intro other h
    simp only [Statistics.getClicksForUrl, Statistics.deleteUrl, List.filter_filter]
    apply List.filter_congr
    intro x _
    by_cases hx : x.urlId = other <;> simp [hx, h]
  · simp [getClicksForUrl_simulateClick_same]

/-! ## Deletion and batch allocation on the shortener page -/

/-- The `deleteUrl` of the shortener page leaves the stored click collection
as it is, whatever the state and the id. -/
theorem shortener_deleteUrl_urlClickData (s : Shortener.State) (urlId : String) :
    (Shortener.deleteUrl s urlId).storage.urlClickData = s.storage.urlClickData := rfl

/-- C5 on the code: after a redirect through the listed link `"a"` has stored
one click event, the `deleteUrl` of the shortener page removes the record but
the stored click collection still holds the event of `"a"`. -/
theorem shortener_deleteUrl_keeps_click_events :
    (∀ r ∈ (Shortener.deleteUrl
        (Shortener.handleRedirect Demo.env ⟨0, 0⟩
          (Demo.shortener [] [Demo.link "a" "abc123" 0]) (Demo.link "a" "abc123" 0)).1
        "a").shortenedUrls, r.id ≠ "a") ∧
      ((Shortener.deleteUrl
        (Shortener.handleRedirect Demo.env ⟨0, 0⟩
          (Demo.shortener [] [Demo.link "a" "abc123" 0]) (Demo.link "a" "abc123" 0)).1
        "a").storage.urlClickData.getD []).map (fun click => click.urlId) = ["a"] := by
  decide

/-- C1 on the code: on the empty registry, a batch of two rows that both ask
for the custom code `my-link` succeeds twice, and the registry then holds two
records with the short code `my-link`. -/
theorem handleShortenAll_same_batch_duplicate :
    (Shortener.handleShortenAll Demo.env 1 ⟨0, 0⟩
        (Demo.shortener
          [Demo.row 1 "https://a.com" "30" "my-link", Demo.row 2 "https://b.com" "30" "my-link"]
          [])).map
      (fun p => (p.1.shortenedUrls.map (fun r => r.shortCode), p.1.successMessage))
      = some (["my-link", "my-link"], "Successfully shortened 2 URL(s)") := by
  decide

/-! ## Decimal numerals and `parseInt` -/

/-- A decimal digit is a character from `0` to `9`. -/
theorem isRadixDigit_ten_iff (c : Char) :
    JS.isRadixDigit 10 c = true ↔ 48 ≤ c.toNat ∧ c.toNat ≤ 57 := by
  unfold JS.isRadixDigit JS.digitValue
  split_ifs with h1 h2 h3 <;> simp <;> omega

/-- The digit value of a decimal digit. -/
theorem digitValue_of_decimal (c : Char) (h : JS.isRadixDigit 10 c = true) :
    JS.digitValue c = some (c.toNat - 48) := by
  rw [isRadixDigit_ten_iff] at h
  simp [JS.digitValue, h]

/-- The characters printed for the digits `0 .. 9`. -/
theorem digitChar_toNat (k : Nat) (h : k < 10) : (Nat.digitChar k).toNat = 48 + k := by
  interval_cases k <;> rfl

/-- Appending a digit multiplies the value by the radix and adds the digit. -/
theorem digitsValue_append_singleton (radix : Nat) (ds : List Char) (c : Char) :
    JS.digitsValue radix (ds ++ [c])
      = radix * JS.digitsValue radix ds + (JS.digitValue c).getD 0 := by
  simp [JS.digitsValue, List.foldl_append]

/-- The digit printer puts its digits in front of the accumulator. -/
theorem toDigitsCore_acc (fuel : Nat) :
    ∀ (n : Nat) (acc : List Char),
      Nat.toDigitsCore 10 fuel n acc = Nat.toDigitsCore 10 fuel n [] ++ acc := by
  induction fuel with
  | zero => intro n acc; simp [Nat.toDigitsCore]
  | succ fuel ih =>
    intro n acc
    simp only [Nat.toDigitsCore]
    split_ifs with h
    · simp
    · rw [ih (n / 10) (Nat.digitChar (n % 10) :: acc), ih (n / 10) [Nat.digitChar (n % 10)]]
      simp

/-- The printed digits of a number are decimal digits, at least one, and
their value is the number. -/
theorem toDigitsCore_spec (fuel : Nat) :
    ∀ n : Nat, n < fuel →
      (∀ c ∈ Nat.toDigitsCore 10 fuel n [], JS.isRadixDigit 10 c = true) ∧
        Nat.toDigitsCore 10 fuel n [] ≠ [] ∧
        JS.digitsValue 10 (Nat.toDigitsCore 10 fuel n []) = n := by
  induction fuel with
  | zero => intro n h; omega
  | succ fuel ih =>
    intro n hn
    have hd : (Nat.digitChar (n % 10)).toNat = 48 + n % 10 :=
      digitChar_toNat _ (Nat.mod_lt _ (by norm_num))
    have hdig : JS.isRadixDigit 10 (Nat.digitChar (n % 10)) = true := by
      rw [isRadixDigit_ten_iff, hd]
      have := Nat.mod_lt n (show 10 > 0 by norm_num)
      omega
    have hval : (JS.digitValue (Nat.digitChar (n % 10))).getD 0 = n % 10 := by
      rw [digitValue_of_decimal _ hdig, hd]; simp
    simp only [Nat.toDigitsCore]
    split_ifs with h
    · refine ⟨by simpa using hdig, by simp, ?_⟩
      have := digitsValue_append_singleton 10 [] (Nat.digitChar (n % 10))
      simp only [List.nil_append] at this
      rw [this, hval]
      simp only [JS.digitsValue, List.foldl_nil]
      omega
    · have hlt : n / 10 < fuel := by omega
      obtain ⟨h1, h2, h3⟩ := ih (n / 10) hlt
      rw [toDigitsCore_acc]
      refine ⟨?_, by simp [h2], ?_⟩
      · intro c hc
        rcases List.mem_append.1 hc with hc | hc
        · exact h1 c hc
        · simp only [List.mem_singleton] at hc
          rw [hc]; exact hdig
      · rw [digitsValue_append_singleton, h3, hval]
        omega

/-- `parseInt` reads a non-empty run of decimal digits as its value, and as
the opposite value after a minus sign. -/
theorem parseInt_decimal (ds : List Char) (hne : ds ≠ [])
    (hall : ∀ c ∈ ds, JS.isRadixDigit 10 c = true) :
    JS.parseInt (String.mk ds) = some (JS.digitsValue 10 ds : Int) ∧
      JS.parseInt (String.mk ('-' :: ds)) = some (-(JS.digitsValue 10 ds : Int)) := by
  obtain ⟨c, t, rfl⟩ := List.exists_cons_of_ne_nil hne
  have hc := (isRadixDigit_ten_iff c).1 (hall c (by simp))
  have hws : JS.isWhiteSpace c = false := by
    have h1 : c.toNat = 48 ∨ c.toNat = 49 ∨ c.toNat = 50 ∨ c.toNat = 51 ∨ c.toNat = 52 ∨
        c.toNat = 53 ∨ c.toNat = 54 ∨ c.toNat = 55 ∨ c.toNat = 56 ∨ c.toNat = 57 := by omega
    unfold JS.isWhiteSpace
    rcases h1 with h | h | h | h | h | h | h | h | h | h <;> rw [h] <;> rfl
  have hminus : JS.isWhiteSpace '-' = false := by decide
  have hsign : JS.splitSign (c :: t) = (false, c :: t) := by
    unfold JS.splitSign
    split
    · rename_i heq; simp only [List.cons.injEq] at heq; rw [heq.1] at hc; simp at hc
    · rename_i heq; simp only [List.cons.injEq] at heq; rw [heq.1] at hc; simp at hc
    · rfl
  have hhex : JS.splitHex (c :: t) = (10, c :: t) := by
    unfold JS.splitHex
    split
    · rename_i heq
      simp only [List.cons.injEq] at heq
      have := (isRadixDigit_ten_iff 'x').1 (hall 'x' (by rw [heq.2]; simp))
      simp at this
    · rename_i heq
      simp only [List.cons.injEq] at heq
      have := (isRadixDigit_ten_iff 'X').1 (hall 'X' (by rw [heq.2]; simp))
      simp at this
    · rfl
  have htake : List.takeWhile (JS.isRadixDigit 10) (c :: t) = c :: t := by
    rw [List.takeWhile_eq_self_iff]; exact hall
  constructor
  · simp [JS.parseInt, hws, hsign, hhex, htake]
  · simp [JS.parseInt, hminus, JS.splitSign, hhex, htake]

/-- `parseInt` reads the decimal numeral of an integer as that integer. -/
theorem parseInt_toString (n : Int) : JS.parseInt (toString n) = some n := by
  cases n with
  | ofNat m =>
    obtain ⟨h1, h2, h3⟩ := toDigitsCore_spec (m + 1) m (Nat.lt_succ_self m)
    have := (parseInt_decimal _ h2 h1).1
    rw [h3] at this
    exact this
  | negSucc m =>
    obtain ⟨h1, h2, h3⟩ := toDigitsCore_spec (m + 1 + 1) (m + 1) (Nat.lt_succ_self _)
    have := (parseInt_decimal _ h2 h1).2
    rw [h3] at this
    exact this

/-! ## Validation in `shortenUrl` -/

/-- A URL that does not parse is answered with the URL error. -/
theorem shortenUrl_invalid_url (env : Env) (reg : List UrlRecord) (fuel : Nat) (t : Tick)
    (e : UrlInput) (hurl : env.validUrl e.url = false) :
    Shortener.shortenUrl env reg fuel t e
      = some (.returned (.failure "Invalid URL format"), t) := by
  simp [Shortener.shortenUrl, hurl]

/-- A validity that fails `validateValidity` is answered with the validity
error when the URL parses. -/
theorem shortenUrl_invalid_validity (env : Env) (reg : List UrlRecord) (fuel : Nat) (t : Tick)
    (e : UrlInput) (hurl : env.validUrl e.url = true)
    (hval : Shortener.validateValidity e.validity = false) :
    Shortener.shortenUrl env reg fuel t e
      = some (.returned (.failure "Validity must be between 1 and 525,600 minutes"), t) := by
  simp [Shortener.shortenUrl, hurl, hval]

/-- Building the record never yields a failure value. -/
theorem buildRecord_ne_failure (env : Env) (t : Tick) (e : UrlInput) (code error : String) :
    (Shortener.buildRecord env t e code).1 ≠ .returned (.failure error) := by
  unfold Shortener.buildRecord
  cases Shortener.expiryDate (env.clock t.c) e.validity <;> simp

/-- A validity that passes `validateValidity` is never answered with the
validity error. -/
theorem shortenUrl_valid_validity (env : Env) (reg : List UrlRecord) (fuel : Nat) (t t' : Tick)
    (e : UrlInput) (hval : Shortener.validateValidity e.validity = true) :
    Shortener.shortenUrl env reg fuel t e
      ≠ some (.returned (.failure "Validity must be between 1 and 525,600 minutes"), t') := by
  intro h
  unfold Shortener.shortenUrl at h
  simp only [hval, Bool.not_true] at h
  split_ifs at h with h1 h2 h3 h4 h5
  · simp at h
  · simp at h2
  · simp at h
  · simp at h
  · simp only [Option.some.injEq] at h
    exact buildRecord_ne_failure env t e _ _ (by rw [h])
  · split at h
    · simp at h
    · simp only [Option.some.injEq] at h
      exact buildRecord_ne_failure env _ e _ _ (by rw [h])

/-- After the three validations, a row with a custom code is answered by the
uniqueness check alone. -/
theorem shortenUrl_custom (env : Env) (reg : List UrlRecord) (fuel : Nat) (t : Tick)
    (e : UrlInput) (hurl : env.validUrl e.url = true)
    (hval : Shortener.validateValidity e.validity = true) (hne : e.customCode ≠ "")
    (hcode : Shortener.validateCustomCode e.customCode = true) :
    Shortener.shortenUrl env reg fuel t e
      = if Shortener.isShortCodeUnique reg e.customCode = true then
          some (Shortener.buildRecord env t e e.customCode)
        else some (.returned (.failure "Custom code is already in use"), t) := by
  unfold Shortener.shortenUrl
  by_cases hu : Shortener.isShortCodeUnique reg e.customCode = true <;>
    simp [hurl, hval, hne, hcode, hu]

/-- After the validations, a row without custom code is answered by the
generation loop. -/
theorem shortenUrl_generated (env : Env) (reg : List UrlRecord) (fuel : Nat) (t : Tick)
    (e : UrlInput) (hurl : env.validUrl e.url = true)
    (hval : Shortener.validateValidity e.validity = true) (hempty : e.customCode = "") :
    Shortener.shortenUrl env reg fuel t e
      = match Shortener.generateUnique env.rand reg fuel t.r with
        | none => none
        | some (shortCode, r) => some (Shortener.buildRecord env ⟨r, t.c⟩ e shortCode) := by
  unfold Shortener.shortenUrl
  simp [hurl, hval, hempty]

/-- On the decimal numeral of an integer `n`, `validateValidity` holds
exactly when `1 ≤ n ≤ 525600`; for a row with a valid URL and that validity,
`shortenUrl` is not answered with the validity error when `n` is in the range
(so for `525600`), and is answered with it when `n` is not (so for `525601`
and for `0`). -/
theorem validateValidity_integer_range (n : Int) (env : Env) (reg : List UrlRecord) (fuel : Nat)
    (t : Tick) (e : UrlInput) (hurl : env.validUrl e.url = true)
    (hv : e.validity = toString n) :
    (Shortener.validateValidity (toString n) = true ↔ 1 ≤ n ∧ n ≤ 525600) ∧
      (1 ≤ n ∧ n ≤ 525600 → ∀ t',
        Shortener.shortenUrl env reg fuel t e
          ≠ some (.returned (.failure "Validity must be between 1 and 525,600 minutes"), t')) ∧
      (¬(1 ≤ n ∧ n ≤ 525600) →
        Shortener.shortenUrl env reg fuel t e
          = some (.returned (.failure "Validity must be between 1 and 525,600 minutes"), t)) := by
  have hiff : Shortener.validateValidity (toString n) = true ↔ 1 ≤ n ∧ n ≤ 525600 := by
    simp only [Shortener.validateValidity, parseInt_toString]
    simp
    omega
  refine ⟨hiff, ?_, ?_⟩
  · intro hr t'
    exact shortenUrl_valid_validity env reg fuel t t' e (by rw [hv]; exact hiff.2 hr)
  · intro hr
    apply shortenUrl_invalid_validity env reg fuel t e hurl
    rw [hv]
    cases h : Shortener.validateValidity (toString n)
    · rfl
    · exact absurd (hiff.1 h) hr

/-- The validities `525600`, `525601` and `0`, as decimal numerals, on the row
`https://a.com` against the empty registry. -/
theorem validateValidity_integer_range_examples :
    Shortener.validateValidity "525600" = true ∧
      Shortener.shortenUrl Demo.env [] 1 ⟨0, 0⟩ (Demo.row 1 "https://a.com" "525601" "")
        = some (.returned (.failure "Validity must be between 1 and 525,600 minutes"), ⟨0, 0⟩) ∧
      Shortener.shortenUrl Demo.env [] 1 ⟨0, 0⟩ (Demo.row 1 "https://a.com" "0" "")
        = some (.returned (.failure "Validity must be between 1 and 525,600 minutes"), ⟨0, 0⟩) :=
  ⟨(validateValidity_integer_range 525600 Demo.env [] 1 ⟨0, 0⟩
      (Demo.row 1 "https://a.com" "525600" "") (by decide) (by decide)).1.2 (by decide),
    (validateValidity_integer_range 525601 Demo.env [] 1 ⟨0, 0⟩
      (Demo.row 1 "https://a.com" "525601" "") (by decide) (by decide)).2.2 (by decide),
    (validateValidity_integer_range 0 Demo.env [] 1 ⟨0, 0⟩
      (Demo.row 1 "https://a.com" "0" "") (by decide) (by decide)).2.2 (by decide)⟩

/-- C8 on the code: `validateValidity` judges the integer `parseInt` reads
from the front of the text, so the integer 1 000 000 written `1e6` (a text
the number field accepts) is read as 1 and accepted, and so are 525 601
written `5.25601e5` and the number `1e21`, whose text is `1e+21`; for the row
`https://a.com` with validity `1e6`, `shortenUrl` does not answer with the
validity error but returns a record that expires 1 000 000 minutes after the
clock reading, beyond the 525 600 minutes of the range. -/
theorem validateValidity_accepts_exponent_text :
    JS.parseInt "1e6" = some 1 ∧
      JS.toNumber "1e6" = .fin ((1000000 * JS.one : Nat) : Int) ∧
      Shortener.validateValidity "1e6" = true ∧
      Shortener.validateValidity "5.25601e5" = true ∧
      JS.toNumber "5.25601e5" = .fin ((525601 * JS.one : Nat) : Int) ∧
      Shortener.validateValidity "1e+21" = true ∧
      Shortener.shortenUrl Demo.env [] 1 ⟨0, 0⟩ (Demo.row 1 "https://a.com" "1e6" "my-link")
        = some (.returned (.success
            { id := "17000000000010"
              originalUrl := "https://a.com"
              shortenedUrl := "http://localhost:5174/s/my-link"
              shortCode := "my-link"
              validity := "1e6"
              createdAt := 1700000000002
              expiresAt := 1760000000000
              clicks := 0
              isActive := true }), ⟨1, 3⟩) ∧
      (1760000000000 : Int) = 1700000000000 + 1000000 * 60000 ∧
      (1700000000000 : Int) + 525600 * 60000 < 1760000000000 := by
  decide

/-! ## The custom-code format -/

/-- The character class of the expression is: ASCII letter, ASCII digit, `-`
or `_`. -/
theorem isCodeChar_iff (c : Char) :
    Shortener.isCodeChar c = true ↔ (c.isAlphanum = true ∨ c = '-' ∨ c = '_') := by
  have e1 : ∀ k : UInt32, (k ≤ c.val) = (k.toNat ≤ c.val.toNat) := fun k => rfl
  have e2 : ∀ k : UInt32, (c.val ≤ k) = (c.val.toNat ≤ k.toNat) := fun k => rfl
  simp only [Shortener.isCodeChar, Char.isAlphanum, Char.isAlpha, Char.isUpper, Char.isLower,
    Char.isDigit, Bool.or_eq_true, Bool.and_eq_true, decide_eq_true_eq, Char.toNat,
    ge_iff_le, e1, e2]
  have h65 : (65 : UInt32).toNat = 65 := rfl
  have h90 : (90 : UInt32).toNat = 90 := rfl
  have h97 : (97 : UInt32).toNat = 97 := rfl
  have h122 : (122 : UInt32).toNat = 122 := rfl
  have h48 : (48 : UInt32).toNat = 48 := rfl
  have h57 : (57 : UInt32).toNat = 57 := rfl
  rw [h65, h90, h97, h122, h48, h57]
  tauto

/-- A string over the code alphabet has as many code units as characters. -/
theorem length_of_codeChars (c : String) (h : c.toList.all Shortener.isCodeChar = true) :
    JS.length c = c.length := by
  have key : ∀ l : List Char, l.all Shortener.isCodeChar = true →
      (l.map (fun ch => if ch.toNat < 0x10000 then 1 else 2)).sum = l.length := by
    intro l
    induction l with
    | nil => intro _; rfl
    | cons a l ih =>
      intro hl
      simp only [List.all_cons, Bool.and_eq_true] at hl
      have ha : a.toNat < 0x10000 := by
        have := hl.1
        simp only [Shortener.isCodeChar, Bool.or_eq_true, Bool.and_eq_true,
          decide_eq_true_eq] at this
        rcases this with (((h | h) | h) | h) | h
        · omega
        · omega
        · omega
        · rw [h]; decide
        · rw [h]; decide
      simp only [List.map_cons, List.sum_cons, List.length_cons, ha, if_true, ih hl.2]
      omega
  exact key c.toList h

/-- A custom code that passes `validateCustomCode` is never answered with the
custom-code error. -/
theorem shortenUrl_valid_code (env : Env) (reg : List UrlRecord) (fuel : Nat) (t t' : Tick)
    (e : UrlInput) (hcode : Shortener.validateCustomCode e.customCode = true) :
    Shortener.shortenUrl env reg fuel t e
      ≠ some (.returned (.failure
          "Custom code must be 3-20 characters (alphanumeric, hyphens, underscores only)"),
        t') := by
  intro h
  unfold Shortener.shortenUrl at h
  simp only [hcode, Bool.not_true, Bool.and_false] at h
  split_ifs at h with h1 h2 h3 h4 h5
  · simp at h
  · simp at h
  · simp at h3
  · simp at h
  · simp only [Option.some.injEq] at h
    exact buildRecord_ne_failure env t e _ _ (by rw [h])
  · split at h
    · simp at h
    · simp only [Option.some.injEq] at h
      exact buildRecord_ne_failure env _ e _ _ (by rw [h])

/-- A non-empty custom code that fails `validateCustomCode` is answered with
the custom-code error when URL and validity are valid. -/
theorem shortenUrl_invalid_code (env : Env) (reg : List UrlRecord) (fuel : Nat) (t : Tick)
    (e : UrlInput) (hurl : env.validUrl e.url = true)
    (hval : Shortener.validateValidity e.validity = true) (hne : e.customCode ≠ "")
    (hcode : Shortener.validateCustomCode e.customCode = false) :
    Shortener.shortenUrl env reg fuel t e
      = some (.returned (.failure
          "Custom code must be 3-20 characters (alphanumeric, hyphens, underscores only)"),
        t) := by
  simp [Shortener.shortenUrl, hurl, hval, hne, hcode]

/-- C10: a non-empty custom code passes `validateCustomCode` exactly when it
has 3 to 20 characters, each an ASCII letter, an ASCII digit, `-` or `_`; a
row with valid URL and validity is answered with the custom-code error when
its code is shorter than 3 or longer than 20 (so of length 2 or 21), and is
not answered with it when the code has 3 to 20 characters of the alphabet (so
of length 3 or 20). -/
theorem validateCustomCode_format (c : String) (hc : c ≠ "") (env : Env)
    (reg : List UrlRecord) (fuel : Nat) (t : Tick) (e : UrlInput)
    (hurl : env.validUrl e.url = true) (hval : Shortener.validateValidity e.validity = true)
    (he : e.customCode = c) :
    (Shortener.validateCustomCode c = true ↔
        3 ≤ c.length ∧ c.length ≤ 20 ∧
          ∀ ch ∈ c.toList, ch.isAlphanum = true ∨ ch = '-' ∨ ch = '_') ∧
      (c.length < 3 ∨ 20 < c.length →
        Shortener.shortenUrl env reg fuel t e
          = some (.returned (.failure
              "Custom code must be 3-20 characters (alphanumeric, hyphens, underscores only)"),
            t)) ∧
      (3 ≤ c.length ∧ c.length ≤ 20 ∧
          (∀ ch ∈ c.toList, ch.isAlphanum = true ∨ ch = '-' ∨ ch = '_') →
        ∀ t', Shortener.shortenUrl env reg fuel t e
          ≠ some (.returned (.failure
              "Custom code must be 3-20 characters (alphanumeric, hyphens, underscores only)"),
            t')) := by
  have hiff : Shortener.validateCustomCode c = true ↔
      3 ≤ c.length ∧ c.length ≤ 20 ∧
        ∀ ch ∈ c.toList, ch.isAlphanum = true ∨ ch = '-' ∨ ch = '_' := by
    have hne : c.toList ≠ [] := by
      intro h
      apply hc
      cases c
      simp only [String.toList] at h
      rw [h]
    unfold Shortener.validateCustomCode Shortener.codeRegexTest
    simp only [hc, if_false, Bool.and_eq_true, decide_eq_true_eq, Bool.not_eq_true',
      List.isEmpty_eq_false_iff_exists_mem, List.all_eq_true]
    constructor
    · rintro ⟨⟨⟨_, hall⟩, h3⟩, h20⟩
      have hlen := length_of_codeChars c (by rw [List.all_eq_true]; exact hall)
      rw [hlen] at h3 h20
      exact ⟨h3, h20, fun ch hch => (isCodeChar_iff ch).1 (hall ch hch)⟩
    · rintro ⟨h3, h20, hall⟩
      have hall' : ∀ ch ∈ c.toList, Shortener.isCodeChar ch = true :=
        fun ch hch => (isCodeChar_iff ch).2 (hall ch hch)
      have hlen := length_of_codeChars c (by rw [List.all_eq_true]; exact hall')
      rw [hlen]
      exact ⟨⟨⟨List.exists_mem_of_ne_nil _ hne, hall'⟩, h3⟩, h20⟩
  refine ⟨hiff, ?_, ?_⟩
  · intro hlen
    apply shortenUrl_invalid_code env reg fuel t e hurl hval (by rw [he]; exact hc)
    rw [he]
    cases h : Shortener.validateCustomCode c
    · rfl
    · have := hiff.1 h
      omega
  · intro h t'
    exact shortenUrl_valid_code env reg fuel t t' e (by rw [he]; exact hiff.2 h)

/-- Witness of C10: the codes `ab` (length 2) and `abc` (length 3) on the row
`https://a.com` against the empty registry. -/
theorem validateCustomCode_format_witness :
    Shortener.shortenUrl Demo.env [] 1 ⟨0, 0⟩ (Demo.row 1 "https://a.com" "30" "ab")
        = some (.returned (.failure
            "Custom code must be 3-20 characters (alphanumeric, hyphens, underscores only)"),
          ⟨0, 0⟩) ∧
      Shortener.validateCustomCode "abc" = true ∧
      Shortener.validateCustomCode "abcdefghij0123456789" = true ∧
      Shortener.validateCustomCode "abcdefghij0123456789x" = false :=
  ⟨(validateCustomCode_format "ab" (by decide) Demo.env [] 1 ⟨0, 0⟩
      (Demo.row 1 "https://a.com" "30" "ab") (by decide) (by decide) rfl).2.1
      (Or.inl (by decide)),
    (validateCustomCode_format "abc" (by decide) Demo.env [] 1 ⟨0, 0⟩
      (Demo.row 1 "https://a.com" "30" "abc") (by decide) (by decide) rfl).1.2 (by decide),
    by decide, by decide⟩

/-! ## Validities that are not integers -/

/-- A text that does not start, after white space and an optional sign, with
a decimal digit is not a number for `parseInt`. -/
theorem parseInt_no_leading_digit (v : String)
    (hv : ∀ c ∈ (JS.splitSign (v.toList.dropWhile JS.isWhiteSpace)).2.head?,
      JS.isDecDigit c = false) :
    JS.parseInt v = none := by
  unfold JS.parseInt
  rcases hp : JS.splitSign (v.toList.dropWhile JS.isWhiteSpace) with ⟨neg, s2⟩
  rw [hp] at hv
  simp only at hv ⊢
  have h0 : JS.isDecDigit '0' = true := by decide
  have hhex : JS.splitHex s2 = (10, s2) := by
    unfold JS.splitHex
    split
    · have := hv '0' (by simp)
      rw [h0] at this
      cases this
    · have := hv '0' (by simp)
      rw [h0] at this
      cases this
    · rfl
  have htake : List.takeWhile (JS.isRadixDigit 10) s2 = [] := by
    cases s2 with
    | nil => rfl
    | cons a l =>
      have := hv a (by simp)
      simp only [JS.isDecDigit] at this
      simp [List.takeWhile, this]
  rw [hp]
  simp only []
  rw [hhex]
  simp [htake]

/-- C9, as stated, fails: the fractional validity `1.5` and the text `12abc`
pass `validateValidity`, and a row with validity `1.5` is shortened, with an
expiry 90 000 ms after the clock reading. -/
theorem validateValidity_accepts_non_integer :
    Shortener.validateValidity "1.5" = true ∧ Shortener.validateValidity "12abc" = true ∧
      Shortener.shortenUrl Demo.env [] 1 ⟨0, 0⟩ (Demo.row 1 "https://a.com" "1.5" "my-link")
        = some (.returned (.success
            { id := "17000000000010"
              originalUrl := "https://a.com"
              shortenedUrl := "http://localhost:5174/s/my-link"
              shortCode := "my-link"
              validity := "1.5"
              createdAt := 1700000000002
              expiresAt := 1700000090000
              clicks := 0
              isActive := true }), ⟨1, 3⟩) := by
  decide

/-- C9, amended: `validateValidity` holds exactly when `parseInt` reads an
integer in `1 .. 525600` from the front of the value; a value that does not
start, after white space and an optional sign, with a decimal digit fails it
and the row (with a valid URL) is answered with the validity error, while
`1.5` and `12abc`, which start with an integer of the range, pass it. -/
theorem validateValidity_leading_integer (env : Env) (reg : List UrlRecord) (fuel : Nat)
    (t : Tick) (e : UrlInput) (hurl : env.validUrl e.url = true)
    (hv : ∀ c ∈ (JS.splitSign (e.validity.toList.dropWhile JS.isWhiteSpace)).2.head?,
      JS.isDecDigit c = false) :
    (∀ v : String, Shortener.validateValidity v = true ↔
        ∃ n : Int, JS.parseInt v = some n ∧ 1 ≤ n ∧ n ≤ 525600) ∧
      Shortener.validateValidity e.validity = false ∧
      Shortener.shortenUrl env reg fuel t e
        = some (.returned (.failure "Validity must be between 1 and 525,600 minutes"), t) ∧
      Shortener.validateValidity "1.5" = true ∧ Shortener.validateValidity "12abc" = true := by
  have hfalse : Shortener.validateValidity e.validity = false := by
    simp [Shortener.validateValidity, parseInt_no_leading_digit e.validity hv]
  refine ⟨?_, hfalse, shortenUrl_invalid_validity env reg fuel t e hurl hfalse,
    by decide, by decide⟩
  intro v
  unfold Shortener.validateValidity
  cases h : JS.parseInt v with
  | none => simp
  | some n =>
    simp only [Bool.and_eq_true, decide_eq_true_eq, Option.some.injEq, exists_eq_left']
    omega

/-- Witness of the amended C9: the validity `abc` on the row
`https://a.com`. -/
theorem validateValidity_leading_integer_witness :
    Demo.env.validUrl "https://a.com" = true ∧
      Shortener.validateValidity "abc" = false ∧
      Shortener.shortenUrl Demo.env [] 1 ⟨0, 0⟩ (Demo.row 1 "https://a.com" "abc" "")
        = some (.returned (.failure "Validity must be between 1 and 525,600 minutes"),
          ⟨0, 0⟩) :=
  ⟨by decide,
    (validateValidity_leading_integer Demo.env [] 1 ⟨0, 0⟩
      (Demo.row 1 "https://a.com" "abc" "") (by decide) (by decide)).2.1,
    (validateValidity_leading_integer Demo.env [] 1 ⟨0, 0⟩
      (Demo.row 1 "https://a.com" "abc" "") (by decide) (by decide)).2.2.1⟩

/-! ## The short code of a new record -/

/-- The uniqueness check holds exactly when no record carries the code. -/
theorem isShortCodeUnique_iff (reg : List UrlRecord) (code : String) :
    Shortener.isShortCodeUnique reg code = true ↔ ∀ r ∈ reg, r.shortCode ≠ code := by
  simp [Shortener.isShortCodeUnique]

/-- The short code of the record that `buildRecord` returns is the code it
was given, and it returns such a record whenever the expiry date is valid. -/
theorem buildRecord_shortCode (env : Env) (t : Tick) (e : UrlInput) (code : String) :
    (∀ res t', Shortener.buildRecord env t e code = (.returned res, t') →
        ∃ data, res = .success data ∧ data.shortCode = code) ∧
      (∀ expiresAt, Shortener.expiryDate (env.clock t.c) e.validity = some expiresAt →
        ∃ data, Shortener.buildRecord env t e code
            = (.returned (.success data), ⟨t.r + 1, t.c + 3⟩) ∧
          data.shortCode = code ∧ data.expiresAt = expiresAt) := by
  unfold Shortener.buildRecord
  constructor
  · intro res t' h
    cases hx : Shortener.expiryDate (env.clock t.c) e.validity with
    | none => rw [hx] at h; simp at h
    | some x =>
      rw [hx] at h
      simp only [Prod.mk.injEq, Completion.returned.injEq] at h
      exact ⟨_, h.1.symm, rfl⟩
  · intro expiresAt hx
    rw [hx]
    exact ⟨_, rfl, rfl, rfl⟩

/-- With valid URL, validity and custom code, `shortenUrl` answers `Custom
code is already in use` exactly when a record of the registry carries the
code; when none does and the expiry date is valid, it returns a record whose
short code is the custom code. -/
theorem shortenUrl_custom_code_taken_iff (env : Env) (reg : List UrlRecord) (fuel : Nat)
    (t : Tick) (e : UrlInput) (hurl : env.validUrl e.url = true)
    (hval : Shortener.validateValidity e.validity = true) (hne : e.customCode ≠ "")
    (hcode : Shortener.validateCustomCode e.customCode = true) :
    (Shortener.shortenUrl env reg fuel t e
          = some (.returned (.failure "Custom code is already in use"), t)
        ↔ ∃ r ∈ reg, r.shortCode = e.customCode) ∧
      ((∀ r ∈ reg, r.shortCode ≠ e.customCode) → ∀ expiresAt,
        Shortener.expiryDate (env.clock t.c) e.validity = some expiresAt →
        ∃ data, Shortener.shortenUrl env reg fuel t e
            = some (.returned (.success data), ⟨t.r + 1, t.c + 3⟩) ∧
          data.shortCode = e.customCode) := by
  rw [shortenUrl_custom env reg fuel t e hurl hval hne hcode]
  by_cases hu : Shortener.isShortCodeUnique reg e.customCode = true
  · have hu' := (isShortCodeUnique_iff reg e.customCode).1 hu
    simp only [hu, if_true]
    constructor
    · constructor
      · intro h
        simp only [Option.some.injEq] at h
        exact absurd (congrArg Prod.fst h) (buildRecord_ne_failure env t e _ _)
      · rintro ⟨r, hr, hrc⟩
        exact absurd hrc (hu' r hr)
    · intro _ expiresAt hx
      obtain ⟨data, h1, h2, _⟩ := (buildRecord_shortCode env t e e.customCode).2 expiresAt hx
      exact ⟨data, by rw [h1], h2⟩
  · have hex : ∃ r ∈ reg, r.shortCode = e.customCode := by
      by_contra hcon
      apply hu
      rw [isShortCodeUnique_iff]
      intro r hr hrc
      exact hcon ⟨r, hr, hrc⟩
    rw [if_neg hu]
    refine ⟨⟨fun _ => hex, fun _ => rfl⟩, ?_⟩
    intro hall
    exact absurd ((isShortCodeUnique_iff reg e.customCode).2 hall) hu

/-- C6 on the code: the row `https://a.com` with validity `9e15` and custom
code `my-link` passes the three validations and its code is free in the empty
registry, yet `shortenUrl` does not return a record: `toISOString` throws on
the expiry date. -/
theorem shortenUrl_valid_entry_throws :
    Demo.env.validUrl "https://a.com" = true ∧ Shortener.validateValidity "9e15" = true ∧
      Shortener.validateCustomCode "my-link" = true ∧
      Shortener.isShortCodeUnique [] "my-link" = true ∧
      Shortener.shortenUrl Demo.env [] 1 ⟨0, 0⟩ (Demo.row 1 "https://a.com" "9e15" "my-link")
        = some (.threw "Invalid time value", ⟨1, 3⟩) := by
  decide

/-- The loop exits only on a code that passes the uniqueness check, drawn in
one of its rounds. -/
theorem generateUnique_some (rand : Nat → JS.Draw) (reg : List UrlRecord) (fuel : Nat) :
    ∀ (r : Nat) (code : String) (r' : Nat),
      Shortener.generateUnique rand reg fuel r = some (code, r') →
        Shortener.isShortCodeUnique reg code = true ∧
          ∃ k, k < fuel ∧ code = Shortener.generateShortCode rand (r + 6 * k) := by
  induction fuel with
  | zero => intro r code r' h; simp [Shortener.generateUnique] at h
  | succ fuel ih =>
    intro r code r' h
    simp only [Shortener.generateUnique] at h
    split_ifs at h with hu
    · simp only [Option.some.injEq, Prod.mk.injEq] at h
      rw [← h.1]
      exact ⟨hu, 0, by omega, rfl⟩
    · obtain ⟨h1, k, hk, hcode⟩ := ih (r + 6) code r' h
      refine ⟨h1, k + 1, by omega, ?_⟩
      rw [hcode]
      congr 1
      omega

/-- The loop exits when one of the rounds the fuel allows draws a code that
passes the uniqueness check. -/
theorem generateUnique_isSome (rand : Nat → JS.Draw) (reg : List UrlRecord) (fuel : Nat) :
    ∀ (r k : Nat), k < fuel →
      Shortener.isShortCodeUnique reg (Shortener.generateShortCode rand (r + 6 * k)) = true →
        ∃ code r', Shortener.generateUnique rand reg fuel r = some (code, r') := by
  induction fuel with
  | zero => intro r k hk; omega
  | succ fuel ih =>
    intro r k hk hu
    simp only [Shortener.generateUnique]
    split_ifs with h0
    · exact ⟨_, _, rfl⟩
    · cases k with
      | zero => simp only [Nat.mul_zero, Nat.add_zero] at hu; exact absurd hu h0
      | succ k =>
        apply ih (r + 6) k (by omega)
        have : r + 6 + 6 * k = r + 6 * (k + 1) := by omega
        rw [this]
        exact hu

/-- C7: for a row that passes validation and has no custom code, whenever
`shortenUrl` returns, it returns a success whose short code is carried by no
record of the registry and is an output of `generateShortCode` (on the six
draws of one round of the loop); and it does return such a success when one
of the rounds the fuel allows draws a code that is free and the expiry date
is valid. -/
theorem shortenUrl_generated_code_unique (env : Env) (reg : List UrlRecord) (fuel : Nat)
    (t : Tick) (e : UrlInput) (hurl : env.validUrl e.url = true)
    (hval : Shortener.validateValidity e.validity = true) (hempty : e.customCode = "") :
    (∀ res t', Shortener.shortenUrl env reg fuel t e = some (.returned res, t') →
        ∃ data, res = .success data ∧ (∀ r ∈ reg, r.shortCode ≠ data.shortCode) ∧
          ∃ k, data.shortCode = Shortener.generateShortCode env.rand (t.r + 6 * k)) ∧
      (∀ k, k < fuel →
        (∀ r ∈ reg, r.shortCode ≠ Shortener.generateShortCode env.rand (t.r + 6 * k)) →
        ∀ expiresAt, Shortener.expiryDate (env.clock t.c) e.validity = some expiresAt →
        ∃ data t', Shortener.shortenUrl env reg fuel t e
          = some (.returned (.success data), t')) := by
  rw [shortenUrl_generated env reg fuel t e hurl hval hempty]
  constructor
  · intro res t' h
    cases hg : Shortener.generateUnique env.rand reg fuel t.r with
    | none => rw [hg] at h; simp at h
    | some p =>
      obtain ⟨code, r'⟩ := p
      rw [hg] at h
      simp only [Option.some.injEq] at h
      obtain ⟨hu, k, _, hcode⟩ := generateUnique_some env.rand reg fuel t.r code r' hg
      obtain ⟨data, hres, hsc⟩ := (buildRecord_shortCode env ⟨r', t.c⟩ e code).1 res t' h
      refine ⟨data, hres, ?_, k, by rw [hsc, hcode]⟩
      rw [hsc]
      exact (isShortCodeUnique_iff reg code).1 hu
  · intro k hk hfree expiresAt hx
    obtain ⟨code, r', hg⟩ := generateUnique_isSome env.rand reg fuel t.r k hk
      ((isShortCodeUnique_iff reg _).2 hfree)
    rw [hg]
    obtain ⟨data, hb, _⟩ := (buildRecord_shortCode env ⟨r', t.c⟩ e code).2 expiresAt hx
    exact ⟨data, ⟨r' + 1, t.c + 3⟩, by simp only [hb]⟩

/-- Witness of C7: the first code drawn, `AIRajs`, is taken, and the second
round of the loop yields the free code `1AIRaj`. -/
theorem shortenUrl_generated_code_unique_witness :
    Demo.env.validUrl "https://a.com" = true ∧ Shortener.validateValidity "30" = true ∧
      Shortener.generateShortCode Demo.env.rand 0 = "AIRajs" ∧
      Shortener.generateShortCode Demo.env.rand 6 = "1AIRaj" ∧
      ∃ data t', Shortener.shortenUrl Demo.env [Demo.link "a" "AIRajs" 0] 2 ⟨0, 0⟩
        (Demo.row 1 "https://a.com" "30" "") = some (.returned (.success data), t') :=
  ⟨by decide, by decide, by decide, by decide,
    (shortenUrl_generated_code_unique Demo.env [Demo.link "a" "AIRajs" 0] 2 ⟨0, 0⟩
      (Demo.row 1 "https://a.com" "30" "") (by decide) (by decide) rfl).2 1 (by decide)
      (by decide) 1700001800000 (by decide)⟩

/-! ## Rounding to binary64 -/

/-- The number 1 is `2 ^ 1074` units. -/
theorem one_eq : JS.one = 2 ^ 1074 := by
  exact Nat.one_shiftLeft 1074

/-- Zero has no binary digit. -/
theorem bitLength_zero (fuel : Nat) : JS.bitLength fuel 0 = 0 := by
  cases fuel <;> simp [JS.bitLength]

/-- With enough fuel, `bitLength` is the number of binary digits: a positive
`n` lies between `2 ^ b` and `2 ^ (b + 1)` for `b + 1` digits. -/
theorem bitLength_spec (fuel : Nat) :
    ∀ n, n ≤ fuel → n ≠ 0 →
      ∃ b, JS.bitLength fuel n = b + 1 ∧ 2 ^ b ≤ n ∧ n < 2 ^ (b + 1) := by
  induction fuel with
  | zero => intro n h h0; omega
  | succ fuel ih =>
    intro n hn h0
    unfold JS.bitLength
    rw [if_neg h0]
    split_ifs with h1
    · by_cases h2 : n / 2 = 0
      · refine ⟨0, by rw [h2, bitLength_zero], ?_, ?_⟩ <;> omega
      · obtain ⟨b, hb, hlo, hhi⟩ := ih (n / 2) (by omega) h2
        refine ⟨b + 1, by rw [hb], ?_, ?_⟩
        · rw [pow_succ]; omega
        · rw [pow_succ]; omega
    · have hpos : 0 < 2 ^ 64 := by positivity
      have hge : 2 ^ 64 ≤ n := by omega
      have h2 : n / 2 ^ 64 ≠ 0 := by
        have := (Nat.le_div_iff_mul_le hpos).2 (by simpa using hge : 1 * 2 ^ 64 ≤ n)
        omega
      have hle : n / 2 ^ 64 ≤ fuel := by
        have : n / 2 ^ 64 < n := Nat.div_lt_self (by omega) (by norm_num)
        omega
      obtain ⟨b, hb, hlo, hhi⟩ := ih (n / 2 ^ 64) hle h2
      refine ⟨b + 64, by rw [hb], ?_, ?_⟩
      · rw [pow_add]
        exact (Nat.le_div_iff_mul_le hpos).1 hlo
      · rw [show b + 64 + 1 = b + 1 + 64 by omega, pow_add]
        exact (Nat.div_lt_iff_lt_mul hpos).1 hhi

/-- A number below `2 ^ k` has at most `k` binary digits. -/
theorem bitLength_le (n k : Nat) (h : n < 2 ^ k) : JS.bitLength n n ≤ k := by
  by_cases h0 : n = 0
  · rw [h0, bitLength_zero]; omega
  · obtain ⟨b, hb, hlo, _⟩ := bitLength_spec n n le_rfl h0
    rw [hb]
    have : 2 ^ b < 2 ^ k := lt_of_le_of_lt hlo h
    have := (Nat.pow_lt_pow_iff_right (by norm_num : 1 < 2)).1 this
    omega

/-- The rounding of a whole number of units, with the last kept digit at
`2 ^ j` for `j + 53` binary digits. -/
theorem roundNearest_one (P : Nat) :
    JS.roundNearest P 1
      = if 2 * (P % 2 ^ (JS.bitLength P P - 53)) < 2 ^ (JS.bitLength P P - 53) ∨
            (2 * (P % 2 ^ (JS.bitLength P P - 53)) = 2 ^ (JS.bitLength P P - 53) ∧
              P / 2 ^ (JS.bitLength P P - 53) % 2 = 0) then
          P / 2 ^ (JS.bitLength P P - 53) * 2 ^ (JS.bitLength P P - 53)
        else (P / 2 ^ (JS.bitLength P P - 53) + 1) * 2 ^ (JS.bitLength P P - 53) := by
  simp only [JS.roundNearest, Nat.div_one, Nat.shiftLeft_eq, one_mul]

/-- A value that fits 53 binary digits above `2 ^ j0` and is a multiple of
`2 ^ j0` is not changed by rounding. -/
theorem roundNearest_exact (P j0 : Nat) (h1 : P < 2 ^ (53 + j0)) (h2 : 2 ^ j0 ∣ P) :
    JS.roundNearest P 1 = P := by
  rw [roundNearest_one]
  have hj : JS.bitLength P P - 53 ≤ j0 := by
    have := bitLength_le P _ h1
    omega
  have hdvd : 2 ^ (JS.bitLength P P - 53) ∣ P := (pow_dvd_pow 2 hj).trans h2
  have hmod : P % 2 ^ (JS.bitLength P P - 53) = 0 := Nat.mod_eq_zero_of_dvd hdvd
  have hpos : 0 < 2 ^ (JS.bitLength P P - 53) := by positivity
  rw [hmod, if_pos (Or.inl (by omega))]
  exact Nat.div_mul_cancel hdvd

/-- Rounding moves a value up by at most half of the last kept digit. -/
theorem roundNearest_le (P : Nat) :
    2 * JS.roundNearest P 1 ≤ 2 * P + 2 ^ (JS.bitLength P P - 53) := by
  rw [roundNearest_one]
  have hpos : 0 < 2 ^ (JS.bitLength P P - 53) := by positivity
  have hdm := Nat.div_add_mod P (2 ^ (JS.bitLength P P - 53))
  generalize 2 ^ (JS.bitLength P P - 53) = d at *
  generalize hq : P / d = q at *
  generalize hr : P % d = r at *
  have hqd : q * d = d * q := Nat.mul_comm _ _
  split_ifs with hc
  · omega
  · have : ¬ 2 * r < d := fun h => hc (Or.inl h)
    rw [Nat.add_mul, one_mul]
    omega

/-- Rounding does not move a value below a power of two it has reached. -/
theorem roundNearest_ge_pow (P k : Nat) (h : 2 ^ k ≤ P) : 2 ^ k ≤ JS.roundNearest P 1 := by
  have h0 : P ≠ 0 := by
    have : 0 < 2 ^ k := by positivity
    omega
  obtain ⟨b, hb, hlo, hhi⟩ := bitLength_spec P P le_rfl h0
  have hkb : k ≤ b := by
    have : 2 ^ k < 2 ^ (b + 1) := lt_of_le_of_lt h hhi
    have := (Nat.pow_lt_pow_iff_right (by norm_num : 1 < 2)).1 this
    omega
  have hdown : P / 2 ^ (JS.bitLength P P - 53) * 2 ^ (JS.bitLength P P - 53)
      ≤ JS.roundNearest P 1 := by
    rw [roundNearest_one]
    split_ifs
    · exact le_rfl
    · exact Nat.mul_le_mul_right _ (Nat.le_succ _)
  refine le_trans ?_ hdown
  rw [hb]
  have hpos : 0 < 2 ^ (b + 1 - 53) := by positivity
  have hjb : b + 1 - 53 ≤ b := by omega
  have hq : 2 ^ (b - (b + 1 - 53)) ≤ P / 2 ^ (b + 1 - 53) := by
    rw [Nat.le_div_iff_mul_le hpos, ← pow_add, Nat.sub_add_cancel hjb]
    exact hlo
  calc 2 ^ k ≤ 2 ^ b := Nat.pow_le_pow_right (by norm_num) hkb
    _ = 2 ^ (b - (b + 1 - 53)) * 2 ^ (b + 1 - 53) := by
        rw [← pow_add, Nat.sub_add_cancel hjb]
    _ ≤ P / 2 ^ (b + 1 - 53) * 2 ^ (b + 1 - 53) := Nat.mul_le_mul_right _ hq

/-- A natural number below `2 ^ 53`, counted in units, is not changed by
rounding. -/
theorem roundNearest_nat (n : Nat) (h : n < 2 ^ 53) :
    JS.roundNearest (n * JS.one) 1 = n * JS.one := by
  apply roundNearest_exact _ 1074
  · rw [one_eq, pow_add]
    exact Nat.mul_lt_mul_of_pos_right h (by positivity)
  · rw [one_eq]
    exact Dvd.intro_left n rfl

/-- A natural number below `2 ^ 53` is a number value. -/
theorem round_nat (n : Nat) (h : n < 2 ^ 53) :
    JS.Number.round false (n * JS.one) 1 = .fin ((n * JS.one : Nat) : Int) := by
  have hlt : n * JS.one < 1 <<< 2098 := by
    rw [Nat.one_shiftLeft, one_eq]
    calc n * 2 ^ 1074 < 2 ^ 53 * 2 ^ 1074 := Nat.mul_lt_mul_of_pos_right h (by positivity)
      _ = 2 ^ (53 + 1074) := by rw [pow_add]
      _ ≤ 2 ^ 2098 := Nat.pow_le_pow_right (by norm_num) (by norm_num)
  simp only [JS.Number.round, roundNearest_nat n h, hlt, if_true]
  rfl

/-- From `2 ^ 53` on, a rounded value is an infinity or a finite value of at
least `2 ^ 53`. -/
theorem round_big (P : Nat) (h : 2 ^ 53 * JS.one ≤ P) :
    JS.Number.round false P 1 = .posInf ∨
      ∃ u : Nat, JS.Number.round false P 1 = .fin (u : Int) ∧ 2 ^ 53 * JS.one ≤ u := by
  have hk : 2 ^ 53 * JS.one ≤ JS.roundNearest P 1 := by
    rw [one_eq, ← pow_add] at h ⊢
    exact roundNearest_ge_pow P _ h
  unfold JS.Number.round
  by_cases hlt : JS.roundNearest P 1 < 1 <<< 2098
  · right
    exact ⟨JS.roundNearest P 1, by simp only [hlt, if_true]; rfl, hk⟩
  · left
    simp only [hlt, if_false]
    rfl

/-- The product of a natural number and a constant is the rounded product. -/
theorem scale_nat (n k : Nat) :
    (JS.Number.fin ((n * JS.one : Nat) : Int)).scale k
      = JS.Number.round false (n * k * JS.one) 1 := by
  have h1 : decide (((n * JS.one : Nat) : Int) < 0) = false := by
    simp only [decide_eq_false_iff_not, not_lt]
    exact Int.ofNat_nonneg _
  simp only [JS.Number.scale, h1, Int.natAbs_ofNat]
  rw [show n * JS.one * k = n * k * JS.one by ring]

/-- The sum of two natural numbers is the rounded sum. -/
theorem addNat_nat (now m : Nat) :
    (JS.Number.fin ((m * JS.one : Nat) : Int)).addNat now
      = JS.Number.round false ((now + m) * JS.one) 1 := by
  have h0 : ((now * JS.one : Nat) : Int) + ((m * JS.one : Nat) : Int)
      = (((now + m) * JS.one : Nat) : Int) := by
    push_cast; ring
  have h1 : decide ((((now + m) * JS.one : Nat) : Int) < 0) = false := by
    simp only [decide_eq_false_iff_not, not_lt]
    exact Int.ofNat_nonneg _
  simp only [JS.Number.addNat, h0, h1, Int.natAbs_ofNat]

/-- A product with a value of at least `2 ^ 53` is again such a value. -/
theorem scale_big (k : Nat) (hk : 0 < k) (x : JS.Number)
    (hx : x = .posInf ∨ ∃ u : Nat, x = .fin (u : Int) ∧ 2 ^ 53 * JS.one ≤ u) :
    x.scale k = .posInf ∨
      ∃ u : Nat, x.scale k = .fin (u : Int) ∧ 2 ^ 53 * JS.one ≤ u := by
  rcases hx with rfl | ⟨u, rfl, hu⟩
  · left; rfl
  · have h1 : decide ((u : Int) < 0) = false := by
      simp only [decide_eq_false_iff_not, not_lt]
      exact Int.ofNat_nonneg _
    simp only [JS.Number.scale, h1, Int.natAbs_ofNat]
    apply round_big
    calc 2 ^ 53 * JS.one ≤ u := hu
      _ = u * 1 := (Nat.mul_one u).symm
      _ ≤ u * k := Nat.mul_le_mul_left u hk

/-- A sum of a clock reading and a value of at least `2 ^ 53` is again such a
value. -/
theorem addNat_big (now : Nat) (x : JS.Number)
    (hx : x = .posInf ∨ ∃ u : Nat, x = .fin (u : Int) ∧ 2 ^ 53 * JS.one ≤ u) :
    x.addNat now = .posInf ∨
      ∃ u : Nat, x.addNat now = .fin (u : Int) ∧ 2 ^ 53 * JS.one ≤ u := by
  rcases hx with rfl | ⟨u, rfl, hu⟩
  · left; rfl
  · have h0 : ((now * JS.one : Nat) : Int) + (u : Int) = ((now * JS.one + u : Nat) : Int) := by
      push_cast; ring
    have h1 : decide (((now * JS.one + u : Nat) : Int) < 0) = false := by
      simp only [decide_eq_false_iff_not, not_lt]
      exact Int.ofNat_nonneg _
    simp only [JS.Number.addNat, h0, h1, Int.natAbs_ofNat]
    apply round_big
    omega

/-- A value of at least `2 ^ 53` is no valid date. -/
theorem timeClip_big (x : JS.Number)
    (hx : x = .posInf ∨ ∃ u : Nat, x = .fin (u : Int) ∧ 2 ^ 53 * JS.one ≤ u) :
    JS.timeClip x = none := by
  rcases hx with rfl | ⟨u, rfl, hu⟩
  · rfl
  · have hone : 0 < JS.one := by rw [one_eq]; positivity
    have hlt : 8640000000000000 * JS.one < 2 ^ 53 * JS.one :=
      Nat.mul_lt_mul_of_pos_right (by norm_num) hone
    simp only [JS.timeClip, Int.natAbs_ofNat]
    rw [if_neg (by omega)]

/-- The date at a natural number of milliseconds. -/
theorem timeClip_nat (m : Nat) :
    JS.timeClip (.fin ((m * JS.one : Nat) : Int))
      = if m ≤ 8640000000000000 then some (m : Int) else none := by
  have hone : 0 < JS.one := by rw [one_eq]; positivity
  simp only [JS.timeClip, Int.natAbs_ofNat]
  by_cases h : m ≤ 8640000000000000
  · rw [if_pos (Nat.mul_le_mul_right _ h), if_pos h]
    congr 1
    rw [← Int.ofNat_tdiv, Nat.mul_div_cancel _ hone]
  · rw [if_neg h, if_neg]
    intro hle
    exact h (Nat.le_of_mul_le_mul_right hle hone)

/-- The rounded value of a natural number: the number itself below `2 ^ 53`,
and a value of at least `2 ^ 53` from there on. -/
theorem round_nat_cases (m : Nat) :
    (m < 2 ^ 53 ∧ JS.Number.round false (m * JS.one) 1 = .fin ((m * JS.one : Nat) : Int)) ∨
      (2 ^ 53 ≤ m ∧ (JS.Number.round false (m * JS.one) 1 = .posInf ∨
        ∃ u : Nat, JS.Number.round false (m * JS.one) 1 = .fin (u : Int) ∧
          2 ^ 53 * JS.one ≤ u)) := by
  by_cases h : m < 2 ^ 53
  · exact Or.inl ⟨h, round_nat m h⟩
  · exact Or.inr ⟨by omega, round_big _ (Nat.mul_le_mul_right _ (by omega))⟩

/-- The expiry date for a validity whose numeric value is the whole number
`n`: exactly `n * 60 000` ms after the clock reading when that instant is in
the range of `Date`, and the invalid date otherwise. -/
theorem expiryDate_whole (now n : Nat) (validity : String)
    (hv : JS.toNumber validity = .fin ((n * JS.one : Nat) : Int)) :
    Shortener.expiryDate now validity
      = if now + n * 60000 ≤ 8640000000000000 then some ((now + n * 60000 : Nat) : Int)
        else none := by
  unfold Shortener.expiryDate
  rw [hv, scale_nat]
  rcases round_nat_cases (n * 60) with ⟨h1, e1⟩ | ⟨h1, b1⟩
  · rw [e1, scale_nat]
    rcases round_nat_cases (n * 60 * 1000) with ⟨h2, e2⟩ | ⟨h2, b2⟩
    · rw [e2, addNat_nat]
      rcases round_nat_cases (now + n * 60 * 1000) with ⟨h3, e3⟩ | ⟨h3, b3⟩
      · rw [e3, timeClip_nat, show n * 60 * 1000 = n * 60000 by ring]
      · rw [timeClip_big _ b3, if_neg (by omega)]
    · rw [timeClip_big _ (addNat_big now _ b2), if_neg (by omega)]
  · rw [timeClip_big _ (addNat_big now _ (scale_big 1000 (by norm_num) _ b1)),
      if_neg (by omega)]

/-! ## Generated codes -/

/-- The alphabet has 62 code units. -/
theorem length_chars : JS.length Shortener.chars = 62 := by decide

/-- Every index below 62 selects one character of the alphabet, a letter or a
digit. -/
theorem charAt_chars (k : Nat) (hk : k < 62) :
    (JS.charAt Shortener.chars k).length = 1 ∧
      ∀ c ∈ (JS.charAt Shortener.chars k).toList,
        c ∈ Shortener.chars.toList ∧ c.isAlphanum = true := by
  revert k
  decide

/-- A draw in `[0, 1)` scaled by a positive `n` and floored is an index below
`n`, also after the rounding of the product: the product stays more than half
a last digit below `n`. -/
theorem floorMul_lt (r : JS.Draw) (n : Nat) (hn : 0 < n) (h : r.inRange = true) :
    r.floorMul n < n := by
  simp only [JS.Draw.inRange, Bool.and_eq_true, decide_eq_true_eq] at h
  obtain ⟨⟨hsig, hexp⟩, hlt⟩ := h
  have hone : JS.one = 2 ^ r.exp * 2 ^ (1074 - r.exp) := by
    rw [one_eq, ← pow_add, Nat.add_sub_cancel' hexp]
  have hW : 0 < 2 ^ (1074 - r.exp) := by positivity
  unfold JS.Draw.floorMul
  rw [Nat.div_lt_iff_lt_mul (by rw [hone]; positivity), Nat.shiftLeft_eq, hone]
  have hle := roundNearest_le (r.sig * n * 2 ^ (1074 - r.exp))
  -- the product is at least `n` last digits of the draw below `n`
  have hP : r.sig * n * 2 ^ (1074 - r.exp) + n * 2 ^ (1074 - r.exp)
      ≤ n * (2 ^ r.exp * 2 ^ (1074 - r.exp)) := by
    have : (r.sig + 1) * (n * 2 ^ (1074 - r.exp)) ≤ 2 ^ r.exp * (n * 2 ^ (1074 - r.exp)) :=
      Nat.mul_le_mul_right _ hlt
    calc r.sig * n * 2 ^ (1074 - r.exp) + n * 2 ^ (1074 - r.exp)
        = (r.sig + 1) * (n * 2 ^ (1074 - r.exp)) := by ring
      _ ≤ 2 ^ r.exp * (n * 2 ^ (1074 - r.exp)) := this
      _ = n * (2 ^ r.exp * 2 ^ (1074 - r.exp)) := by ring
  -- the last kept digit is below two such digits
  have hd : 2 ^ (JS.bitLength (r.sig * n * 2 ^ (1074 - r.exp))
      (r.sig * n * 2 ^ (1074 - r.exp)) - 53) < 2 * (n * 2 ^ (1074 - r.exp)) := by
    have hnW : 0 < n * 2 ^ (1074 - r.exp) := Nat.mul_pos hn hW
    by_cases h0 : r.sig * n * 2 ^ (1074 - r.exp) = 0
    · rw [h0, bitLength_zero]
      simp only [Nat.zero_sub, pow_zero]
      omega
    · obtain ⟨b, hb, hlo, _⟩ := bitLength_spec _ _ le_rfl h0
      rw [hb]
      by_cases hb53 : b + 1 ≤ 53
      · rw [Nat.sub_eq_zero_of_le hb53, pow_zero]
        omega
      · have hbe : b = (b + 1 - 53) + 52 := by omega
        have h1 : 2 ^ (b + 1 - 53) * 2 ^ 52 ≤ r.sig * n * 2 ^ (1074 - r.exp) := by
          rw [← pow_add, ← hbe]; exact hlo
        have h2 : r.sig * n * 2 ^ (1074 - r.exp) < 2 ^ 53 * (n * 2 ^ (1074 - r.exp)) := by
          rw [Nat.mul_assoc]
          exact Nat.mul_lt_mul_of_pos_right hsig hnW
        have h3 : 2 ^ (b + 1 - 53) * 2 ^ 52 < 2 * (n * 2 ^ (1074 - r.exp)) * 2 ^ 52 := by
          calc 2 ^ (b + 1 - 53) * 2 ^ 52 ≤ r.sig * n * 2 ^ (1074 - r.exp) := h1
            _ < 2 ^ 53 * (n * 2 ^ (1074 - r.exp)) := h2
            _ = 2 * (n * 2 ^ (1074 - r.exp)) * 2 ^ 52 := by ring
        exact Nat.lt_of_mul_lt_mul_right h3
  omega

/-- The product of a draw and 62 is rounded before it is floored: for the
draw `0.25806451612903225` the exact product lies below 16 and the rounded
one is 16, so the index is 16. -/
theorem floorMul_rounds_product :
    (⟨4648877034705028, 54⟩ : JS.Draw).inRange = true ∧
      (⟨4648877034705028, 54⟩ : JS.Draw).floorMul 62 = 16 ∧
      4648877034705028 * 62 / 2 ^ 54 = 15 := by
  decide

/-- C11: on six draws in `[0, 1)`, `generateShortCode` returns a string of
exactly six characters, each a character of the 62-character alphabet (an
ASCII letter or digit): every index `floor(r * 62)`, the product rounded to
binary64, is below 62, so `charAt` never yields the empty string. -/
theorem generateShortCode_format (rand : Nat → JS.Draw) (r : Nat)
    (h : ∀ i, i < 6 → (rand (r + i)).inRange = true) :
    (Shortener.generateShortCode rand r).length = 6 ∧
      JS.length (Shortener.generateShortCode rand r) = 6 ∧
      (∀ c ∈ (Shortener.generateShortCode rand r).toList,
        c ∈ Shortener.chars.toList ∧ c.isAlphanum = true) ∧
      ∀ i, i < 6 →
        (rand (r + i)).floorMul (JS.length Shortener.chars) < 62 ∧
          JS.charAt Shortener.chars ((rand (r + i)).floorMul (JS.length Shortener.chars))
            ≠ "" := by
  have hidx : ∀ i, i < 6 → (rand (r + i)).floorMul (JS.length Shortener.chars) < 62 := by
    intro i hi
    rw [length_chars]
    exact floorMul_lt _ 62 (by norm_num) (h i hi)
  have hc := fun i hi => charAt_chars _ (hidx i hi)
  have hcode : Shortener.generateShortCode rand r
      = "" ++ JS.charAt Shortener.chars ((rand (r + 0)).floorMul (JS.length Shortener.chars))
        ++ JS.charAt Shortener.chars ((rand (r + 1)).floorMul (JS.length Shortener.chars))
        ++ JS.charAt Shortener.chars ((rand (r + 2)).floorMul (JS.length Shortener.chars))
        ++ JS.charAt Shortener.chars ((rand (r + 3)).floorMul (JS.length Shortener.chars))
        ++ JS.charAt Shortener.chars ((rand (r + 4)).floorMul (JS.length Shortener.chars))
        ++ JS.charAt Shortener.chars ((rand (r + 5)).floorMul (JS.length Shortener.chars)) := by
    rfl
  have hlen : (Shortener.generateShortCode rand r).length = 6 := by
    rw [hcode]
    simp only [String.length_append, (hc 0 (by omega)).1, (hc 1 (by omega)).1,
      (hc 2 (by omega)).1, (hc 3 (by omega)).1, (hc 4 (by omega)).1, (hc 5 (by omega)).1]
    rfl
  have hall : ∀ c ∈ (Shortener.generateShortCode rand r).toList,
      c ∈ Shortener.chars.toList ∧ c.isAlphanum = true := by
    intro c hcm
    rw [hcode] at hcm
    simp only [String.toList, String.data_append, List.mem_append] at hcm
    rcases hcm with (((((hcm | hcm) | hcm) | hcm) | hcm) | hcm) | hcm
    · simp at hcm
    · exact (hc 0 (by omega)).2 c hcm
    · exact (hc 1 (by omega)).2 c hcm
    · exact (hc 2 (by omega)).2 c hcm
    · exact (hc 3 (by omega)).2 c hcm
    · exact (hc 4 (by omega)).2 c hcm
    · exact (hc 5 (by omega)).2 c hcm
  refine ⟨hlen, ?_, hall, ?_⟩
  · have hlist : (Shortener.generateShortCode rand r).toList.all
        (fun c => decide (c.toNat < 0x10000)) = true := by
      rw [List.all_eq_true]
      intro c hcm
      have hmem := (hall c hcm).1
      have : ∀ d ∈ Shortener.chars.toList, decide (d.toNat < 0x10000) = true := by decide
      exact this c hmem
    have key : ∀ l : List Char, l.all (fun c => decide (c.toNat < 0x10000)) = true →
        (l.map (fun c => if c.toNat < 0x10000 then 1 else 2)).sum = l.length := by
      intro l
      induction l with
      | nil => intro _; rfl
      | cons a l ih =>
        intro hl
        simp only [List.all_cons, Bool.and_eq_true, decide_eq_true_eq] at hl
        simp only [List.map_cons, List.sum_cons, List.length_cons, hl.1, if_true]
        rw [ih (by simpa using hl.2)]
        omega
    unfold JS.length
    rw [key _ hlist]
    exact hlen
  · intro i hi
    refine ⟨hidx i hi, ?_⟩
    intro hempty
    have := (hc i hi).1
    rw [hempty] at this
    simp at this

/-- Witness of C11: the six draws next above `0/7 .. 5/7` give the code
`AIRajs`. -/
theorem generateShortCode_format_witness :
    (∀ i, i < 6 → (Demo.env.rand (0 + i)).inRange = true) ∧
      Shortener.generateShortCode Demo.env.rand 0 = "AIRajs" ∧
      (Shortener.generateShortCode Demo.env.rand 0).length = 6 :=
  ⟨by decide, by decide,
    (generateShortCode_format Demo.env.rand 0 (by decide)).1⟩

/-! ## The expiry of a new record -/

/-- A decimal digit is no white space. -/
theorem isWhiteSpace_of_decimal (c : Char) (h : JS.isRadixDigit 10 c = true) :
    JS.isWhiteSpace c = false := by
  have hc := (isRadixDigit_ten_iff c).1 h
  have h1 : c.toNat = 48 ∨ c.toNat = 49 ∨ c.toNat = 50 ∨ c.toNat = 51 ∨ c.toNat = 52 ∨
      c.toNat = 53 ∨ c.toNat = 54 ∨ c.toNat = 55 ∨ c.toNat = 56 ∨ c.toNat = 57 := by omega
  unfold JS.isWhiteSpace
  rcases h1 with h | h | h | h | h | h | h | h | h | h <;> rw [h] <;> rfl

/-- Trimming leaves a non-empty run of decimal digits as it is. -/
theorem trimChars_decimal (ds : List Char) (hall : ∀ c ∈ ds, JS.isRadixDigit 10 c = true) :
    JS.trimChars ds = ds := by
  have hdrop : ∀ l : List Char, (∀ c ∈ l, JS.isRadixDigit 10 c = true) →
      l.dropWhile JS.isWhiteSpace = l := by
    intro l hl
    cases l with
    | nil => rfl
    | cons a t => simp [List.dropWhile, isWhiteSpace_of_decimal a (hl a (by simp))]
  unfold JS.trimChars
  rw [hdrop ds hall, hdrop ds.reverse (fun c hc => hall c (List.mem_reverse.1 hc))]
  simp

/-- The string-to-number conversion reads a non-empty run of decimal digits
as the number value nearest to its value. -/
theorem toNumber_decimal (ds : List Char) (hne : ds ≠ [])
    (hall : ∀ c ∈ ds, JS.isRadixDigit 10 c = true) :
    JS.toNumber (String.mk ds) = JS.Number.ofDecimal (JS.digitsValue 10 ds) 0 := by
  obtain ⟨c, t, rfl⟩ := List.exists_cons_of_ne_nil hne
  have hc := (isRadixDigit_ten_iff c).1 (hall c (by simp))
  have hnot : ∀ x : Char, ¬(48 ≤ x.toNat ∧ x.toNat ≤ 57) → x ∉ c :: t := by
    intro x hx hmem
    exact hx ((isRadixDigit_ten_iff x).1 (hall x hmem))
  have hnon : JS.nonDecimal (c :: t) = none := by
    unfold JS.nonDecimal
    split
    · rename_i heq; simp only [List.cons.injEq] at heq
      exact absurd (by rw [heq.2]; simp) (hnot 'x' (by decide))
    · rename_i heq; simp only [List.cons.injEq] at heq
      exact absurd (by rw [heq.2]; simp) (hnot 'X' (by decide))
    · rename_i heq; simp only [List.cons.injEq] at heq
      exact absurd (by rw [heq.2]; simp) (hnot 'o' (by decide))
    · rename_i heq; simp only [List.cons.injEq] at heq
      exact absurd (by rw [heq.2]; simp) (hnot 'O' (by decide))
    · rename_i heq; simp only [List.cons.injEq] at heq
      exact absurd (by rw [heq.2]; simp) (hnot 'b' (by decide))
    · rename_i heq; simp only [List.cons.injEq] at heq
      exact absurd (by rw [heq.2]; simp) (hnot 'B' (by decide))
    · rfl
  have htake : List.takeWhile JS.isDecDigit (c :: t) = c :: t := by
    rw [List.takeWhile_eq_self_iff]; exact hall
  have hdropd : List.dropWhile JS.isDecDigit (c :: t) = [] := by
    rw [List.dropWhile_eq_nil_iff]; exact hall
  have huns : JS.unsignedDecimal (c :: t)
      = JS.Number.ofDecimal (JS.digitsValue 10 (c :: t)) 0 := by
    unfold JS.unsignedDecimal
    have hinf : c :: t ≠ "Infinity".toList := by
      intro h
      exact hnot 'I' (by decide) (by rw [h]; decide)
    have hcI : c ≠ 'I' := by
      intro h
      rw [h] at hc
      simp at hc
    simp [hcI, htake, hdropd, JS.exponentPart]
  unfold JS.toNumber
  simp only [String.toList, trimChars_decimal (c :: t) hall, List.isEmpty_cons, hnon]
  rw [if_neg (by simp)]
  split
  · rename_i heq; simp only [List.cons.injEq] at heq
    rw [heq.1] at hc; simp at hc
  · rename_i heq; simp only [List.cons.injEq] at heq
    rw [heq.1] at hc; simp at hc
  · exact huns

/-- The string-to-number conversion reads the decimal numeral of a natural
number below `2 ^ 53` as that number. -/
theorem toNumber_toString (n : Nat) (hn : n < 2 ^ 53) :
    JS.toNumber (toString n) = .fin ((n * JS.one : Nat) : Int) := by
  obtain ⟨h1, h2, h3⟩ := toDigitsCore_spec (n + 1) n (Nat.lt_succ_self n)
  have := toNumber_decimal _ h2 h1
  rw [h3] at this
  have hdec : JS.Number.ofDecimal n 0 = JS.Number.round false (n * JS.one) 1 := by
    simp only [JS.Number.ofDecimal, le_refl, if_true, Int.toNat_zero, pow_zero, mul_one]
  rw [hdec, round_nat n hn] at this
  exact this

/-- The expiry date is computed in binary64: for the validity `1.0000166666`
the exact sum `1700000060000.99...` is rounded to `1700000060001` before it
is truncated. -/
theorem expiryDate_rounds_sum :
    Shortener.expiryDate 1700000000000 "1.0000166666" = some 1700000060001 ∧
      (1700000000000 * 10 ^ 10 + 10000166666 * 60000) / 10 ^ 10 = 1700000060000 := by
  decide

/-- A success of `shortenUrl` is the answer to a row whose validity passed
`validateValidity`. -/
theorem shortenUrl_success_validity (env : Env) (reg : List UrlRecord) (fuel : Nat)
    (t t' : Tick) (e : UrlInput) (data : UrlRecord)
    (h : Shortener.shortenUrl env reg fuel t e = some (.returned (.success data), t')) :
    Shortener.validateValidity e.validity = true := by
  unfold Shortener.shortenUrl at h
  split_ifs at h with h1 h2 h3 h4 h5
  · simp at h
  · simp at h
  · simp at h
  · simp at h
  · simpa using h2
  · simpa using h2

/-- A success of `shortenUrl` is the record `buildRecord` made for some short
code, at the clock cursor of the call. -/
theorem shortenUrl_success_build (env : Env) (reg : List UrlRecord) (fuel : Nat) (t t' : Tick)
    (e : UrlInput) (data : UrlRecord)
    (h : Shortener.shortenUrl env reg fuel t e = some (.returned (.success data), t')) :
    ∃ r code, Shortener.buildRecord env ⟨r, t.c⟩ e code = (.returned (.success data), t') := by
  unfold Shortener.shortenUrl at h
  split_ifs at h with h1 h2 h3 h4 h5
  · simp at h
  · simp at h
  · simp at h
  · simp at h
  · simp only [Option.some.injEq] at h
    exact ⟨t.r, _, h⟩
  · split at h
    · simp at h
    · simp only [Option.some.injEq] at h
      exact ⟨_, _, h⟩

/-- The fields `buildRecord` gives a record: no click, `createdAt` from the
third clock reading, `expiresAt` from the expiry date of the first. -/
theorem buildRecord_fields (env : Env) (t t' : Tick) (e : UrlInput) (code : String)
    (data : UrlRecord)
    (h : Shortener.buildRecord env t e code = (.returned (.success data), t')) :
    data.clicks = 0 ∧ data.createdAt = env.clock (t.c + 2) ∧
      Shortener.expiryDate (env.clock t.c) e.validity = some data.expiresAt := by
  unfold Shortener.buildRecord at h
  cases hx : Shortener.expiryDate (env.clock t.c) e.validity with
  | none => rw [hx] at h; simp at h
  | some x =>
    rw [hx] at h
    simp only [Prod.mk.injEq, Completion.returned.injEq, Result.success.injEq] at h
    rw [← h.1]
    exact ⟨rfl, rfl, rfl⟩

/-- C12, as stated, fails: with a clock that advances between the reading for
the expiry date and the reading for `createdAt`, the record returned for a
validity of 30 minutes expires 2 ms less than 30 minutes after its
`createdAt`. -/
theorem shortenUrl_expiry_not_from_createdAt :
    Shortener.shortenUrl Demo.env [] 1 ⟨0, 0⟩ (Demo.row 1 "https://a.com" "30" "my-link")
        = some (.returned (.success
            { id := "17000000000010"
              originalUrl := "https://a.com"
              shortenedUrl := "http://localhost:5174/s/my-link"
              shortCode := "my-link"
              validity := "30"
              createdAt := 1700000000002
              expiresAt := 1700001800000
              clicks := 0
              isActive := true }), ⟨1, 3⟩) ∧
      (1700001800000 : Int) ≠ 1700000000002 + 30 * 60000 := by
  decide

/-- C12, amended: the record of a successful `shortenUrl` call has no click;
its `expiresAt` is the expiry date computed from the clock reading taken for
it, `new Date(reading + validity * 60 * 1000)` in binary64 arithmetic
truncated to whole milliseconds, which is exactly that reading plus
`n * 60 000` ms whenever the numeric value of the validity is a whole number
`n` (so for the decimal numeral of `n`); its `createdAt` is a later, separate
reading of the clock, so `expiresAt` is `createdAt` plus `n * 60 000` ms when
the two readings are the same millisecond. -/
theorem shortenUrl_success_expiry (env : Env) (reg : List UrlRecord) (fuel : Nat) (t t' : Tick)
    (e : UrlInput) (data : UrlRecord)
    (h : Shortener.shortenUrl env reg fuel t e = some (.returned (.success data), t')) :
    data.clicks = 0 ∧ data.createdAt = env.clock (t.c + 2) ∧
      Shortener.expiryDate (env.clock t.c) e.validity = some data.expiresAt ∧
      (∀ n : Nat, JS.toNumber e.validity = .fin ((n * JS.one : Nat) : Int) →
        data.expiresAt = (env.clock t.c : Int) + (n : Int) * 60000 ∧
          (env.clock (t.c + 2) = env.clock t.c →
            data.expiresAt = data.createdAt + (n : Int) * 60000)) ∧
      ∀ n : Nat, e.validity = toString n →
        data.expiresAt = (env.clock t.c : Int) + (n : Int) * 60000 ∧
          (env.clock (t.c + 2) = env.clock t.c →
            data.expiresAt = data.createdAt + (n : Int) * 60000) := by
  obtain ⟨r, code, hb⟩ := shortenUrl_success_build env reg fuel t t' e data h
  obtain ⟨h1, h2, h3⟩ := buildRecord_fields env ⟨r, t.c⟩ t' e code data hb
  have hwhole : ∀ n : Nat, JS.toNumber e.validity = .fin ((n * JS.one : Nat) : Int) →
      data.expiresAt = (env.clock t.c : Int) + (n : Int) * 60000 ∧
        (env.clock (t.c + 2) = env.clock t.c →
          data.expiresAt = data.createdAt + (n : Int) * 60000) := by
    intro n hn
    have hx := expiryDate_whole (env.clock t.c) n e.validity hn
    simp only at h3
    rw [h3] at hx
    have hexp : data.expiresAt = (env.clock t.c : Int) + (n : Int) * 60000 := by
      split_ifs at hx with hr
      simp only [Option.some.injEq] at hx
      rw [hx]
      push_cast
      ring
    refine ⟨hexp, ?_⟩
    intro hsame
    rw [hexp, h2]
    simp only at hsame ⊢
    rw [hsame]
  refine ⟨h1, h2, h3, hwhole, ?_⟩
  intro n hn
  apply hwhole n
  have hval := shortenUrl_success_validity env reg fuel t t' e data h
  rw [hn] at hval ⊢
  have hpi := parseInt_toString (n : Int)
  have hts : toString (n : Int) = toString n := rfl
  rw [hts] at hpi
  simp only [Shortener.validateValidity, hpi, Bool.and_eq_true, decide_eq_true_eq] at hval
  exact toNumber_toString n (by
    have : n ≤ 525600 := by exact_mod_cast hval.2
    omega)

/-- Witness of the amended C12: with a clock that stands still, the record
for a validity of 30 minutes expires 30 minutes after its `createdAt`. -/
theorem shortenUrl_success_expiry_witness :
    Shortener.shortenUrl Demo.frozen [] 1 ⟨0, 0⟩
        (Demo.row 1 "https://example.com" "30" "my-link")
        = some (.returned (.success (Demo.link "17000000000000" "my-link" 0)), ⟨1, 3⟩) ∧
      (Demo.link "17000000000000" "my-link" 0).expiresAt
        = (Demo.link "17000000000000" "my-link" 0).createdAt + ((30 : Nat) : Int) * 60000 :=
  ⟨by decide,
    ((shortenUrl_success_expiry Demo.frozen [] 1 ⟨0, 0⟩ ⟨1, 3⟩
      (Demo.row 1 "https://example.com" "30" "my-link")
      (Demo.link "17000000000000" "my-link" 0) (by decide)).2.2.2.2 30 (by decide)).2
      (by decide)⟩

/-! ## Errors thrown by `shortenUrl` -/

/-- The only error `shortenUrl` throws is the one of `toISOString`: the row
passed the three validations and its expiry date is invalid. -/
theorem shortenUrl_threw (env : Env) (reg : List UrlRecord) (fuel : Nat) (t t' : Tick)
    (e : UrlInput) (message : String)
    (h : Shortener.shortenUrl env reg fuel t e = some (.threw message, t')) :
    message = env.invalidTime ∧ env.validUrl e.url = true ∧
      Shortener.validateValidity e.validity = true ∧
      Shortener.expiryDate (env.clock t.c) e.validity = none := by
  have hb : ∀ (r : Nat) (code : String),
      Shortener.buildRecord env ⟨r, t.c⟩ e code = (.threw message, t') →
        message = env.invalidTime ∧
          Shortener.expiryDate (env.clock t.c) e.validity = none := by
    intro r code hbuild
    unfold Shortener.buildRecord at hbuild
    simp only at hbuild
    cases hx : Shortener.expiryDate (env.clock t.c) e.validity with
    | none =>
      rw [hx] at hbuild
      simp only [Prod.mk.injEq, Completion.threw.injEq] at hbuild
      exact ⟨hbuild.1.symm, rfl⟩
    | some x => rw [hx] at hbuild; simp at hbuild
  unfold Shortener.shortenUrl at h
  split_ifs at h with h1 h2 h3 h4 h5
  · simp at h
  · simp at h
  · simp at h
  · simp at h
  · simp only [Option.some.injEq] at h
    obtain ⟨hm, hx⟩ := hb t.r _ h
    exact ⟨hm, by simpa using h1, by simpa using h2, hx⟩
  · split at h
    · simp at h
    · simp only [Option.some.injEq] at h
      obtain ⟨hm, hx⟩ := hb _ _ h
      exact ⟨hm, by simpa using h1, by simpa using h2, hx⟩

/-- C14 on the code: the validities `9e15` (a text the number field accepts)
and `12abc` pass `validateValidity`, and `shortenUrl` then throws the error of
`toISOString` instead of returning a result value; `handleShortenAll` reports
the row as failed with the message of that error. -/
theorem shortenUrl_throws_after_validation :
    Shortener.validateValidity "9e15" = true ∧ Shortener.validateValidity "12abc" = true ∧
      Shortener.shortenUrl Demo.env [] 1 ⟨0, 0⟩ (Demo.row 1 "https://a.com" "9e15" "")
        = some (.threw "Invalid time value", ⟨7, 3⟩) ∧
      Shortener.shortenUrl Demo.env [] 1 ⟨0, 0⟩ (Demo.row 1 "https://a.com" "12abc" "")
        = some (.threw "Invalid time value", ⟨7, 3⟩) ∧
      (Shortener.handleShortenAll Demo.env 1 ⟨0, 0⟩
          (Demo.shortener [Demo.row 1 "https://a.com" "9e15" ""] [])).map
        (fun p => (p.1.urls.map (fun url => url.error), p.1.shortenedUrls))
        = some (["Invalid time value"], []) := by
  decide

/-! ## The outcomes of a batch -/

/-- When from every draw position some round within the fuel draws a free
code, `shortenUrl` completes. -/
theorem shortenUrl_completes (env : Env) (reg : List UrlRecord) (fuel : Nat)
    (hfuel : ∀ r, ∃ k, k < fuel ∧
      Shortener.isShortCodeUnique reg (Shortener.generateShortCode env.rand (r + 6 * k)) = true)
    (t : Tick) (e : UrlInput) :
    ∃ completion t', Shortener.shortenUrl env reg fuel t e = some (completion, t') := by
  unfold Shortener.shortenUrl
  split_ifs
  · exact ⟨_, _, rfl⟩
  · exact ⟨_, _, rfl⟩
  · exact ⟨_, _, rfl⟩
  · exact ⟨_, _, rfl⟩
  · exact ⟨_, _, rfl⟩
  · obtain ⟨k, hk, hu⟩ := hfuel t.r
    obtain ⟨code, r', hg⟩ := generateUnique_isSome env.rand reg fuel t.r k hk hu
    rw [hg]
    exact ⟨_, _, rfl⟩

/-- The outcomes of `shortenEach`, when it completes, are one per row, in the
order of the rows: each carries the id of its row and the outcome of a
`shortenUrl` call on that row against the registry. -/
theorem shortenEach_outcomes (env : Env) (reg : List UrlRecord) (fuel : Nat) :
    ∀ (rows : List UrlInput) (t t1 : Tick) (results : List (Nat × Result)),
      Shortener.shortenEach env reg fuel t rows = some (results, t1) →
        List.Forall₂
          (fun (url : UrlInput) (p : Nat × Result) => p.1 = url.id ∧
            ∃ tk completion tk', Shortener.shortenUrl env reg fuel tk url
              = some (completion, tk') ∧ p.2 = Shortener.outcome completion)
          rows results := by
  intro rows
  induction rows with
  | nil =>
    intro t t1 results h
    simp only [Shortener.shortenEach, Option.some.injEq, Prod.mk.injEq] at h
    rw [← h.1]
    exact List.Forall₂.nil
  | cons url rest ih =>
    intro t t1 results h
    simp only [Shortener.shortenEach] at h
    cases hs : Shortener.shortenUrl env reg fuel t url with
    | none => rw [hs] at h; simp at h
    | some p =>
      obtain ⟨completion, t2⟩ := p
      rw [hs] at h
      simp only at h
      cases hr : Shortener.shortenEach env reg fuel t2 rest with
      | none => rw [hr] at h; simp at h
      | some q =>
        obtain ⟨results', t3⟩ := q
        rw [hr] at h
        simp only [Option.some.injEq, Prod.mk.injEq] at h
        rw [← h.1]
        exact List.Forall₂.cons ⟨rfl, t, completion, t2, hs, rfl⟩ (ih t2 t3 results' hr)

/-- When from every draw position some round within the fuel draws a free
code, `shortenEach` completes on every list of rows. -/
theorem shortenEach_completes (env : Env) (reg : List UrlRecord) (fuel : Nat)
    (hfuel : ∀ r, ∃ k, k < fuel ∧
      Shortener.isShortCodeUnique reg (Shortener.generateShortCode env.rand (r + 6 * k)) = true) :
    ∀ (rows : List UrlInput) (t : Tick),
      ∃ results t1, Shortener.shortenEach env reg fuel t rows = some (results, t1) := by
  intro rows
  induction rows with
  | nil => intro t; exact ⟨[], t, rfl⟩
  | cons url rest ih =>
    intro t
    obtain ⟨completion, t2, hs⟩ := shortenUrl_completes env reg fuel hfuel t url
    obtain ⟨results, t3, hr⟩ := ih t2
    refine ⟨(url.id, Shortener.outcome completion) :: results, t3, ?_⟩
    simp only [Shortener.shortenEach, hs, hr]

/-- The ids of the outcomes are the ids of the rows, in order. -/
theorem forall₂_ids (rows : List UrlInput) (results : List (Nat × Result))
    (R : UrlInput → Nat × Result → Prop) (hR : ∀ url p, R url p → p.1 = url.id)
    (h : List.Forall₂ R rows results) :
    results.map Prod.fst = rows.map (fun url => url.id) := by
  induction h with
  | nil => rfl
  | cons hab _ ih => simp only [List.map_cons, ih, hR _ _ hab]

/-- What `updateRows` returns, in terms of the outcome each row finds under
its id: every row is rewritten by the outcome it finds and kept as it is when
it finds none, the success count is the number of records found, and the
records pushed are the records found, in the order of the rows. -/
theorem updateRows_spec (results : List (Nat × Result)) :
    ∀ urls : List UrlInput,
      List.Forall₂
        (fun (old new : UrlInput) =>
          (results.find? (fun r => r.1 == old.id) = none → new = old) ∧
            (∀ id data, results.find? (fun r => r.1 == old.id) = some (id, .success data) →
              new = { old with loading := false, url := "", customCode := "", error := "" }) ∧
            (∀ id error, results.find? (fun r => r.1 == old.id) = some (id, .failure error) →
              new = { old with loading := false, error := error }))
        urls (Shortener.updateRows results urls).1 ∧
      (Shortener.updateRows results urls).2.2
        = (urls.filterMap (fun url => results.find? (fun r => r.1 == url.id))).filterMap
            (fun p => p.2.data?) ∧
      (Shortener.updateRows results urls).2.1
        = (Shortener.updateRows results urls).2.2.length := by
  intro urls
  induction urls with
  | nil => exact ⟨List.Forall₂.nil, rfl, rfl⟩
  | cons url rest ih =>
    obtain ⟨ih1, ih2, ih3⟩ := ih
    simp only [Shortener.updateRows]
    cases hf : results.find? (fun r => r.1 == url.id) with
    | none =>
      simp only [List.filterMap_cons, hf]
      exact ⟨List.Forall₂.cons ⟨fun _ => rfl, fun _ _ h => (by rw [hf] at h; cases h),
        fun _ _ h => (by rw [hf] at h; cases h)⟩ ih1, ih2, ih3⟩
    | some p =>
      obtain ⟨id, result⟩ := p
      cases result with
      | success data =>
        simp only [List.filterMap_cons, hf, Result.data?]
        refine ⟨List.Forall₂.cons ⟨fun h => (by rw [hf] at h; cases h), fun _ _ _ => rfl,
          fun _ _ h => (by rw [hf] at h; cases h)⟩ ih1, ?_, ?_⟩
        · rw [ih2]; rfl
        · rw [List.length_cons, ih3]
      | failure error =>
        simp only [List.filterMap_cons, hf, Result.data?]
        refine ⟨List.Forall₂.cons ⟨fun h => (by rw [hf] at h; cases h),
          fun _ _ h => (by rw [hf] at h; cases h), fun _ _ h => ?_⟩ ih1, ih2, ih3⟩
        rw [hf] at h
        simp only [Option.some.injEq, Prod.mk.injEq, Result.failure.injEq] at h
        rw [h.2]

/-- Among outcomes with pairwise distinct ids, looking an outcome up by its id
finds that outcome. -/
theorem find?_of_nodup_ids :
    ∀ results : List (Nat × Result), (results.map Prod.fst).Nodup →
      ∀ p ∈ results, results.find? (fun r => r.1 == p.1) = some p := by
  intro results
  induction results with
  | nil => intro _ p hp; cases hp
  | cons q rest ih =>
    intro hnd p hp
    simp only [List.map_cons, List.nodup_cons] at hnd
    by_cases hq : q.1 = p.1
    · have hpq : p = q := by
        rcases List.mem_cons.1 hp with h | h
        · exact h
        · exact absurd (List.mem_map.2 ⟨p, h, hq.symm⟩) hnd.1
      simp [List.find?, hpq]
    · have hp' : p ∈ rest := by
        rcases List.mem_cons.1 hp with h | h
        · exact absurd (by rw [h]) hq
        · exact h
      have hb : (q.1 == p.1) = false := by simpa using hq
      simp only [List.find?, hb]
      exact ih hnd.2 p hp'

/-- A `filterMap` skips the elements a filter drops when they map to
nothing. -/
theorem filterMap_filter_of_none {α β : Type} (f : α → Option β) (p : α → Bool) :
    ∀ l : List α, (∀ x ∈ l, p x = false → f x = none) →
      l.filterMap f = (l.filter p).filterMap f := by
  intro l
  induction l with
  | nil => intro _; rfl
  | cons a l ih =>
    intro h
    have ih' := ih (fun x hx => h x (List.mem_cons_of_mem a hx))
    cases hp : p a with
    | true => simp only [List.filter_cons, hp, if_true, List.filterMap_cons, ih']
    | false =>
      simp only [List.filter_cons, hp, List.filterMap_cons, h a (List.mem_cons_self a l) hp,
        ih']
      simp

/-- When the rows have pairwise distinct ids and the outcomes are those of the
non-empty rows, in order, the outcomes the rows find under their ids are
exactly the outcomes, each once. -/
theorem found_eq_results (urls : List UrlInput) (results : List (Nat × Result))
    (p : UrlInput → Bool) (hids : (urls.map (fun url => url.id)).Nodup)
    (hkeys : results.map Prod.fst = (urls.filter p).map (fun url => url.id)) :
    urls.filterMap (fun url => results.find? (fun r => r.1 == url.id)) = results := by
  have hsub : ((urls.filter p).map (fun url => url.id)).Nodup :=
    hids.sublist ((List.filter_sublist urls).map _)
  have hnd : (results.map Prod.fst).Nodup := by rw [hkeys]; exact hsub
  have hskip : ∀ x ∈ urls, p x = false →
      results.find? (fun r => r.1 == x.id) = none := by
    intro x hx hpx
    rw [List.find?_eq_none]
    intro r hr hrx
    simp only [beq_iff_eq] at hrx
    have hmem : r.1 ∈ (urls.filter p).map (fun url => url.id) := by
      rw [← hkeys]; exact List.mem_map.2 ⟨r, hr, rfl⟩
    obtain ⟨v, hv, hvid⟩ := List.mem_map.1 hmem
    have hv' := List.mem_filter.1 hv
    have : v = x := List.inj_on_of_nodup_map hids hv'.1 hx (by rw [hvid, hrx])
    rw [this, hpx] at hv'
    exact absurd hv'.2 (by simp)
  rw [filterMap_filter_of_none _ p urls hskip]
  have hmap : (urls.filter p).map (fun url => results.find? (fun r => r.1 == url.id))
      = results.map some := by
    have h1 : (urls.filter p).map (fun url => results.find? (fun r => r.1 == url.id))
        = ((urls.filter p).map (fun url => url.id)).map
            (fun id => results.find? (fun r => r.1 == id)) := by
      rw [List.map_map]; rfl
    rw [h1, ← hkeys, List.map_map]
    apply List.map_congr_left
    intro q hq
    exact find?_of_nodup_ids results hnd q hq
  have hfm : ∀ (l : List UrlInput) (g : UrlInput → Option (Nat × Result))
      (out : List (Nat × Result)), l.map g = out.map some → l.filterMap g = out := by
    intro l g
    induction l with
    | nil =>
      intro out h
      cases out with
      | nil => rfl
      | cons a out => simp at h
    | cons a l ih =>
      intro out h
      cases out with
      | nil => simp at h
      | cons b out =>
        simp only [List.map_cons, List.cons.injEq] at h
        simp only [List.filterMap_cons, h.1, ih out h.2]
  exact hfm _ _ _ hmap

/-- C13, as stated, fails: a skipped row (empty URL) that carries the id of a
non-empty row is not left unchanged; it takes the outcome found under its id
and loses its custom code. -/
theorem handleShortenAll_changes_skipped_row :
    JS.trim (Demo.row 5 "" "30" "keep").url = "" ∧
      (Shortener.handleShortenAll Demo.env 1 ⟨0, 0⟩
          (Demo.shortener [Demo.row 5 "https://a.com" "30" "", Demo.row 5 "" "30" "keep"]
            [])).map (fun p => p.1.urls)
        = some [Demo.row 5 "" "30" "", Demo.row 5 "" "30" ""] := by
  decide

/-- A pointwise relation can be changed on the pairs of members of the two
lists. -/
theorem forall₂_imp_mem {α β : Type} (R S : α → β → Prop) :
    ∀ (l₁ : List α) (l₂ : List β), List.Forall₂ R l₁ l₂ →
      (∀ a b, a ∈ l₁ → b ∈ l₂ → R a b → S a b) → List.Forall₂ S l₁ l₂ := by
  intro l₁ l₂ h
  induction h with
  | nil => intro _; exact List.Forall₂.nil
  | cons hab _ ih =>
    intro himp
    exact List.Forall₂.cons (himp _ _ (List.mem_cons_self _ _) (List.mem_cons_self _ _) hab)
      (ih (fun a b ha hb => himp a b (List.mem_cons_of_mem _ ha) (List.mem_cons_of_mem _ hb)))

/-- C13, amended: when the generation loop exits within its fuel,
`handleShortenAll` produces exactly one outcome for each row whose URL is not
empty or white space, in the order of those rows, each the outcome of a
`shortenUrl` call on that row, and none for the other rows.  The state it
leaves records them: every row is rewritten by the first outcome that carries
its id (cleared on a success, given the error on a failure) and left as it is
when no outcome carries its id; a non-empty row does find an outcome, its own
when the ids of the rows are pairwise distinct; a skipped row is left
unchanged when no non-empty row carries its id; and the records of the
successes the rows find are appended to the registry. -/
theorem handleShortenAll_outcomes (env : Env) (fuel : Nat) (t : Tick) (s : Shortener.State)
    (hfuel : ∀ r, ∃ k, k < fuel ∧
      Shortener.isShortCodeUnique s.shortenedUrls
        (Shortener.generateShortCode env.rand (r + 6 * k)) = true) :
    ∃ results t1 s',
      Shortener.shortenEach env s.shortenedUrls fuel t
          (s.urls.filter (fun url => JS.trim url.url ≠ "")) = some (results, t1) ∧
        results.length = (s.urls.filter (fun url => JS.trim url.url ≠ "")).length ∧
        List.Forall₂
          (fun (url : UrlInput) (p : Nat × Result) => p.1 = url.id ∧
            ∃ tk completion tk', Shortener.shortenUrl env s.shortenedUrls fuel tk url
              = some (completion, tk') ∧ p.2 = Shortener.outcome completion)
          (s.urls.filter (fun url => JS.trim url.url ≠ "")) results ∧
        Shortener.handleShortenAll env fuel t s = some (s', t1) ∧
        List.Forall₂
          (fun (old new : UrlInput) =>
            (JS.trim old.url = "" →
              (∀ v ∈ s.urls, JS.trim v.url ≠ "" → v.id ≠ old.id) → new = old) ∧
            (JS.trim old.url ≠ "" →
              ∃ p ∈ results, results.find? (fun r => r.1 == old.id) = some p) ∧
            (results.find? (fun r => r.1 == old.id) = none → new = old) ∧
            (∀ id data, results.find? (fun r => r.1 == old.id) = some (id, .success data) →
              new = { old with loading := false, url := "", customCode := "", error := "" }) ∧
            (∀ id error, results.find? (fun r => r.1 == old.id) = some (id, .failure error) →
              new = { old with loading := false, error := error }))
          s.urls s'.urls ∧
        s'.shortenedUrls
          = s.shortenedUrls
            ++ (s.urls.filterMap (fun url => results.find? (fun r => r.1 == url.id))).filterMap
                (fun p => p.2.data?) ∧
        ((s.urls.map (fun url => url.id)).Nodup →
          List.Forall₂
            (fun (url : UrlInput) (p : Nat × Result) =>
              results.find? (fun r => r.1 == url.id) = some p)
            (s.urls.filter (fun url => JS.trim url.url ≠ "")) results) := by
  obtain ⟨results, t1, hse⟩ := shortenEach_completes env s.shortenedUrls fuel hfuel
    (s.urls.filter (fun url => JS.trim url.url ≠ "")) t
  have hout := shortenEach_outcomes env s.shortenedUrls fuel _ t t1 results hse
  have hkeys := forall₂_ids _ _ _ (fun _ _ h => h.1) hout
  obtain ⟨hspec1, hspec2, _⟩ := updateRows_spec results s.urls
  have hrows : List.Forall₂
      (fun (old new : UrlInput) =>
        (JS.trim old.url = "" →
          (∀ v ∈ s.urls, JS.trim v.url ≠ "" → v.id ≠ old.id) → new = old) ∧
        (JS.trim old.url ≠ "" →
          ∃ p ∈ results, results.find? (fun r => r.1 == old.id) = some p) ∧
        (results.find? (fun r => r.1 == old.id) = none → new = old) ∧
        (∀ id data, results.find? (fun r => r.1 == old.id) = some (id, .success data) →
          new = { old with loading := false, url := "", customCode := "", error := "" }) ∧
        (∀ id error, results.find? (fun r => r.1 == old.id) = some (id, .failure error) →
          new = { old with loading := false, error := error }))
      s.urls (Shortener.updateRows results s.urls).1 := by
    refine forall₂_imp_mem _ _ _ _ hspec1 ?_
    intro old new hold _ h
    refine ⟨?_, ?_, h.1, h.2.1, h.2.2⟩
    · intro _ hfree
      apply h.1
      rw [List.find?_eq_none]
      intro r hr hrx
      simp only [beq_iff_eq] at hrx
      have hmem : r.1 ∈ (s.urls.filter (fun url => JS.trim url.url ≠ "")).map
          (fun url => url.id) := by
        rw [← hkeys]; exact List.mem_map.2 ⟨r, hr, rfl⟩
      obtain ⟨v, hv, hvid⟩ := List.mem_map.1 hmem
      have hv' := List.mem_filter.1 hv
      exact hfree v hv'.1 (by simpa using hv'.2) (by rw [hvid, hrx])
    · intro hne
      have hmem : old.id ∈ results.map Prod.fst := by
        rw [hkeys]
        exact List.mem_map.2 ⟨old, List.mem_filter.2 ⟨hold, by simpa using hne⟩, rfl⟩
      obtain ⟨q, hq, hqid⟩ := List.mem_map.1 hmem
      cases hf : results.find? (fun r => r.1 == old.id) with
      | none =>
        rw [List.find?_eq_none] at hf
        exact absurd (by simpa using hqid) (hf q hq)
      | some p => exact ⟨p, List.mem_of_find?_eq_some hf, rfl⟩
  have hown : (s.urls.map (fun url => url.id)).Nodup →
      List.Forall₂
        (fun (url : UrlInput) (p : Nat × Result) =>
          results.find? (fun r => r.1 == url.id) = some p)
        (s.urls.filter (fun url => JS.trim url.url ≠ "")) results := by
    intro hids
    have hnd : (results.map Prod.fst).Nodup := by
      rw [hkeys]
      exact hids.sublist ((List.filter_sublist s.urls).map _)
    refine forall₂_imp_mem _ _ _ _ hout ?_
    intro url p _ hp h
    rw [← h.1]
    exact find?_of_nodup_ids results hnd p hp
  by_cases hlen : (s.urls.filter (fun url => JS.trim url.url ≠ "")).length = 0
  · have hnil : s.urls.filter (fun url => JS.trim url.url ≠ "") = [] :=
      List.length_eq_zero.1 hlen
    have hse' := hse
    rw [hnil] at hse'
    simp only [Shortener.shortenEach, Option.some.injEq, Prod.mk.injEq] at hse'
    have hsame : (Shortener.updateRows results s.urls).1 = s.urls := by
      rw [← hse'.1]
      generalize s.urls = urls
      induction urls with
      | nil => rfl
      | cons url rest ih =>
        simp only [Shortener.updateRows, List.find?_nil]
        rw [ih]
    rw [hsame] at hrows
    refine ⟨results, t1, { s with successMessage := "" }, hse, hout.length_eq.symm, hout, ?_,
      hrows, ?_, hown⟩
    · simp only [Shortener.handleShortenAll, hlen, if_true, hse'.2]
    · rw [← hse'.1]
      simp
  · rcases hu : Shortener.updateRows results s.urls with ⟨rows, successCount, newUrls⟩
    rw [hu] at hrows hspec2
    simp only at hrows hspec2
    by_cases hnew : newUrls.length > 0
    · refine ⟨results, t1,
        { urls := rows
          shortenedUrls := s.shortenedUrls ++ newUrls
          successMessage := "Successfully shortened " ++ toString successCount ++ " URL(s)"
          storage := Shortener.persist (s.shortenedUrls ++ newUrls) s.storage },
        hse, hout.length_eq.symm, hout, ?_, hrows, ?_, hown⟩
      · simp only [Shortener.handleShortenAll, hlen, if_false, hse, hu, hnew, if_true]
      · simp only [hspec2]
    · refine ⟨results, t1, { s with urls := rows }, hse, hout.length_eq.symm, hout, ?_, hrows,
        ?_, hown⟩
      · simp only [Shortener.handleShortenAll, hlen, if_false, hse, hu, hnew]
      · have hz : newUrls = [] := by
          cases newUrls with
          | nil => rfl
          | cons a l => simp at hnew
        rw [← hspec2, hz]
        simp

/-- Witness of the amended C13: the batch `https://a.com`, empty, `https://b.com`
gives exactly two outcomes, and the state left has the two non-empty rows
cleared, the empty row as it was, and two records in the registry. -/
theorem handleShortenAll_outcomes_witness :
    (∀ r, ∃ k, k < 1 ∧
        Shortener.isShortCodeUnique
          (Demo.shortener
            [Demo.row 1 "https://a.com" "30" "", Demo.row 2 "" "30" "",
              Demo.row 3 "https://b.com" "30" ""] []).shortenedUrls
          (Shortener.generateShortCode Demo.env.rand (r + 6 * k)) = true) ∧
      (Shortener.handleShortenAll Demo.env 1 ⟨0, 0⟩
          (Demo.shortener
            [Demo.row 1 "https://a.com" "30" "", Demo.row 2 "" "30" "",
              Demo.row 3 "https://b.com" "30" ""] [])).map
        (fun p => (p.1.urls, p.1.shortenedUrls.map (fun r => r.originalUrl)))
        = some ([Demo.row 1 "" "30" "", Demo.row 2 "" "30" "", Demo.row 3 "" "30" ""],
            ["https://a.com", "https://b.com"]) ∧
      ∃ results t1 s',
        Shortener.shortenEach Demo.env [] 1 ⟨0, 0⟩
            [Demo.row 1 "https://a.com" "30" "", Demo.row 3 "https://b.com" "30" ""]
          = some (results, t1) ∧ results.length = 2 ∧
          Shortener.handleShortenAll Demo.env 1 ⟨0, 0⟩
            (Demo.shortener
              [Demo.row 1 "https://a.com" "30" "", Demo.row 2 "" "30" "",
                Demo.row 3 "https://b.com" "30" ""] []) = some (s', t1) :=
  ⟨fun _ => ⟨0, by decide, rfl⟩, by decide,
    match handleShortenAll_outcomes Demo.env 1 ⟨0, 0⟩
      (Demo.shortener
        [Demo.row 1 "https://a.com" "30" "", Demo.row 2 "" "30" "",
          Demo.row 3 "https://b.com" "30" ""] []) (fun _ => ⟨0, by decide, rfl⟩) with
    | ⟨results, t1, s', h1, h2, _, h4, _⟩ => ⟨results, t1, s', h1, h2, h4⟩⟩

/-- C17, as stated, fails: when two non-empty rows carry the same id, both
take the first outcome of that id, so the record of the first row is appended
twice and the record of the second row is not appended. -/
theorem handleShortenAll_appends_twice :
    (Shortener.shortenEach Demo.env [] 1 ⟨0, 0⟩
          [Demo.row 5 "https://a.com" "30" "", Demo.row 5 "https://b.com" "30" ""]).map
        (fun p => (p.1.filterMap (fun q => q.2.data?)).map (fun r => r.originalUrl))
        = some ["https://a.com", "https://b.com"] ∧
      (Shortener.handleShortenAll Demo.env 1 ⟨0, 0⟩
          (Demo.shortener
            [Demo.row 5 "https://a.com" "30" "", Demo.row 5 "https://b.com" "30" ""] [])).map
        (fun p => p.1.shortenedUrls.map (fun r => r.originalUrl))
        = some ["https://a.com", "https://a.com"] := by
  decide

/-- C17, amended: when the rows have pairwise distinct ids (and the generation
loop exits within its fuel), the success count of `handleShortenAll` is the
number of outcomes of non-empty rows that are a success, the records appended
to the registry are exactly the records of those outcomes, each once and in
their order, and a positive count is the one reported in the success
message. -/
theorem handleShortenAll_appends_successes (env : Env) (fuel : Nat) (t : Tick)
    (s : Shortener.State) (hids : (s.urls.map (fun url => url.id)).Nodup)
    (hfuel : ∀ r, ∃ k, k < fuel ∧
      Shortener.isShortCodeUnique s.shortenedUrls
        (Shortener.generateShortCode env.rand (r + 6 * k)) = true) :
    ∃ results t1 s',
      Shortener.shortenEach env s.shortenedUrls fuel t
          (s.urls.filter (fun url => JS.trim url.url ≠ "")) = some (results, t1) ∧
        Shortener.handleShortenAll env fuel t s = some (s', t1) ∧
        (Shortener.updateRows results s.urls).2.1
          = (results.filterMap (fun p => p.2.data?)).length ∧
        (Shortener.updateRows results s.urls).2.2 = results.filterMap (fun p => p.2.data?) ∧
        s'.shortenedUrls = s.shortenedUrls ++ results.filterMap (fun p => p.2.data?) ∧
        (0 < (results.filterMap (fun p => p.2.data?)).length →
          s'.successMessage
            = "Successfully shortened "
              ++ toString (results.filterMap (fun p => p.2.data?)).length ++ " URL(s)") := by
  obtain ⟨results, t1, hse⟩ := shortenEach_completes env s.shortenedUrls fuel hfuel
    (s.urls.filter (fun url => JS.trim url.url ≠ "")) t
  have hout := shortenEach_outcomes env s.shortenedUrls fuel _ t t1 results hse
  have hkeys := forall₂_ids _ _ _ (fun _ _ h => h.1) hout
  have hfound := found_eq_results s.urls results _ hids hkeys
  obtain ⟨_, hnew, hcount⟩ := updateRows_spec results s.urls
  rw [hfound] at hnew
  rw [hnew] at hcount
  by_cases hlen : (s.urls.filter (fun url => JS.trim url.url ≠ "")).length = 0
  · have hnil : s.urls.filter (fun url => JS.trim url.url ≠ "") = [] :=
      List.length_eq_zero.1 hlen
    have hse' := hse
    rw [hnil] at hse'
    simp only [Shortener.shortenEach, Option.some.injEq, Prod.mk.injEq] at hse'
    refine ⟨results, t1, { s with successMessage := "" }, hse, ?_, hcount, hnew, ?_, ?_⟩
    · simp only [Shortener.handleShortenAll, hlen, if_true, hse'.2]
    · rw [← hse'.1]; simp
    · rw [← hse'.1]; simp
  · have hcount0 := hcount
    have hnew0 := hnew
    rcases hu : Shortener.updateRows results s.urls with ⟨rows, successCount, newUrls⟩
    rw [hu] at hnew hcount
    simp only at hnew hcount
    by_cases hpos : newUrls.length > 0
    · refine ⟨results, t1,
        { urls := rows
          shortenedUrls := s.shortenedUrls ++ newUrls
          successMessage := "Successfully shortened " ++ toString successCount ++ " URL(s)"
          storage := Shortener.persist (s.shortenedUrls ++ newUrls) s.storage },
        hse, ?_, hcount0, hnew0, ?_, ?_⟩
      · simp only [Shortener.handleShortenAll, hlen, if_false, hse, hu, hpos, if_true]
      · simp only [hnew]
      · intro _
        simp only [hcount]
    · refine ⟨results, t1, { s with urls := rows }, hse, ?_, hcount0, hnew0, ?_, ?_⟩
      · simp only [Shortener.handleShortenAll, hlen, if_false, hse, hu, hpos]
      · have hz : newUrls = [] := by
          cases newUrls with
          | nil => rfl
          | cons a l => simp at hpos
        rw [← hnew, hz]; simp
      · intro h
        rw [← hnew] at h
        exact absurd h hpos

/-- Witness of the amended C17: a batch of three rows with the ids 1, 2 and 3,
of which the first and the third are shortened. -/
theorem handleShortenAll_appends_successes_witness :
    ((Demo.shortener
          [Demo.row 1 "https://a.com" "30" "", Demo.row 2 "" "30" "",
            Demo.row 3 "https://b.com" "30" ""] []).urls.map (fun url => url.id)).Nodup ∧
      (Shortener.handleShortenAll Demo.env 1 ⟨0, 0⟩
          (Demo.shortener
            [Demo.row 1 "https://a.com" "30" "", Demo.row 2 "" "30" "",
              Demo.row 3 "https://b.com" "30" ""] [])).map
        (fun p => (p.1.shortenedUrls.map (fun r => r.originalUrl), p.1.successMessage))
        = some (["https://a.com", "https://b.com"], "Successfully shortened 2 URL(s)") ∧
      ∃ results t1 s',
        Shortener.shortenEach Demo.env [] 1 ⟨0, 0⟩
            [Demo.row 1 "https://a.com" "30" "", Demo.row 3 "https://b.com" "30" ""]
          = some (results, t1) ∧
          Shortener.handleShortenAll Demo.env 1 ⟨0, 0⟩
            (Demo.shortener
              [Demo.row 1 "https://a.com" "30" "", Demo.row 2 "" "30" "",
                Demo.row 3 "https://b.com" "30" ""] []) = some (s', t1) ∧
          s'.shortenedUrls = [] ++ results.filterMap (fun p => p.2.data?) :=
  ⟨by decide, by decide,
    match handleShortenAll_appends_successes Demo.env 1 ⟨0, 0⟩
      (Demo.shortener
        [Demo.row 1 "https://a.com" "30" "", Demo.row 2 "" "30" "",
          Demo.row 3 "https://b.com" "30" ""] []) (by decide)
      (fun _ => ⟨0, by decide, rfl⟩) with
    | ⟨results, t1, s', h1, h2, _, _, h5, _⟩ => ⟨results, t1, s', h1, h2, h5⟩⟩

/-! ## Expiry, deletion twice, and the most clicked link -/

/-- C15, as stated, fails: at the very instant `expiresAt` a record is not
expired, and it is counted among the active URLs. -/
theorem active_at_expiry_instant :
    ¬((1700001800000 : Int) < (Demo.link "a" "abc123" 0).expiresAt) ∧
      Statistics.isExpired 1700001800000 (Demo.link "a" "abc123" 0).expiresAt = false ∧
      Shortener.isExpired 1700001800000 (Demo.link "a" "abc123" 0).expiresAt = false ∧
      Statistics.getActiveUrls { Demo.env with clock := fun _ => 1700001800000 } ⟨0, 0⟩
        (Demo.statistics [Demo.link "a" "abc123" 0]) = 1 := by
  decide

/-- With a clock that reads `now` throughout, the active records are those
with `now ≤ expiresAt`. -/
theorem activeUrls_constant_clock (clock : Nat → Nat) (now : Nat) (h : ∀ i, clock i = now) :
    ∀ (l : List UrlRecord) (c : Nat),
      Statistics.activeUrls clock c l = l.filter (fun r => decide ((now : Int) ≤ r.expiresAt)) := by
  intro l
  induction l with
  | nil => intro c; rfl
  | cons a l ih =>
    intro c
    simp only [Statistics.activeUrls, Statistics.isExpired, h c, ih (c + 1), List.filter_cons]
    by_cases ha : (now : Int) ≤ a.expiresAt
    · simp [ha, not_lt.2 ha]
    · simp [ha, not_le.1 ha]

/-- C15, amended: a record is active (`isExpired` is false on either page)
exactly when `now ≤ expiresAt`, so it is still active at `now = expiresAt`
and expired from the next millisecond on; `getActiveUrls` counts the records
with `now ≤ expiresAt`, each against the clock reading taken for it. -/
theorem active_iff_not_after_expiry (env : Env) (t : Tick) (s : Statistics.State) (now : Nat)
    (expiresAt : Int) :
    (Statistics.isExpired now expiresAt = false ↔ (now : Int) ≤ expiresAt) ∧
      (Shortener.isExpired now expiresAt = false ↔ (now : Int) ≤ expiresAt) ∧
      ((expiresAt : Int) = now → Statistics.isExpired now expiresAt = false) ∧
      (∀ r : UrlRecord,
        Statistics.getActiveUrls env t { s with shortenedUrls := [r] }
          = if (env.clock t.c : Int) ≤ r.expiresAt then 1 else 0) ∧
      ((∀ i, env.clock i = now) →
        Statistics.getActiveUrls env t s
          = s.shortenedUrls.countP (fun r => decide ((now : Int) ≤ r.expiresAt))) := by
  refine ⟨by simp [Statistics.isExpired], by simp [Shortener.isExpired], ?_, ?_, ?_⟩
  · intro h
    simp [Statistics.isExpired, h]
  · intro r
    simp only [Statistics.getActiveUrls, Statistics.activeUrls, Statistics.isExpired]
    by_cases hr : (env.clock t.c : Int) ≤ r.expiresAt
    · simp [hr, not_lt.2 hr]
    · simp [hr, not_le.1 hr]
  · intro h
    simp only [Statistics.getActiveUrls, activeUrls_constant_clock env.clock now h,
      List.countP_eq_length_filter]

/-- C16: deleting is idempotent on both pages: a second `deleteUrl(id)` gives
the state the first one gave (registry, click list, selection and storage),
whether or not a record of that id was listed; the functions are total, so no
error is raised. -/
theorem deleteUrl_idempotent (s : Statistics.State) (p : Shortener.State) (urlId : String) :
    Statistics.deleteUrl (Statistics.deleteUrl s urlId) urlId = Statistics.deleteUrl s urlId ∧
      Shortener.deleteUrl (Shortener.deleteUrl p urlId) urlId = Shortener.deleteUrl p urlId ∧
      (Statistics.deleteUrl (Statistics.deleteUrl s urlId) urlId).shortenedUrls
        = (Statistics.deleteUrl s urlId).shortenedUrls ∧
      (Statistics.deleteUrl (Statistics.deleteUrl s urlId) urlId).clickData
        = (Statistics.deleteUrl s urlId).clickData ∧
      (Shortener.deleteUrl (Shortener.deleteUrl p urlId) urlId).storage.urlClickData
        = p.storage.urlClickData := by
  have h1 : Statistics.deleteUrl (Statistics.deleteUrl s urlId) urlId
      = Statistics.deleteUrl s urlId := by
    unfold Statistics.deleteUrl
    simp only [List.filter_filter, Bool.and_self]
    cases hs : s.selectedUrl with
    | none => rfl
    | some sel =>
      by_cases hid : sel.id = urlId <;> simp [hid]
  have h2 : Shortener.deleteUrl (Shortener.deleteUrl p urlId) urlId
      = Shortener.deleteUrl p urlId := by
    unfold Shortener.deleteUrl
    simp only [List.filter_filter, Bool.and_self]
  exact ⟨h1, h2, by rw [h1], by rw [h1], rfl⟩

/-- The `reduce` of `getMostClickedUrl` keeps a record that no earlier record
reaches and no later record exceeds. -/
theorem mostClicked_fold :
    ∀ (l pre mid : List UrlRecord) (m : UrlRecord),
      (∀ r ∈ pre, r.clicks < m.clicks) → (∀ r ∈ mid, r.clicks ≤ m.clicks) →
        ∃ pre' post',
          pre ++ m :: mid ++ l
              = pre' ++ l.foldl (fun max url => if url.clicks > max.clicks then url else max) m
                :: post' ∧
            (∀ r ∈ pre',
              r.clicks
                < (l.foldl (fun max url => if url.clicks > max.clicks then url else max)
                    m).clicks) ∧
            ∀ r ∈ post',
              r.clicks
                ≤ (l.foldl (fun max url => if url.clicks > max.clicks then url else max)
                    m).clicks := by
  intro l
  induction l with
  | nil =>
    intro pre mid m hpre hmid
    exact ⟨pre, mid, by simp, hpre, hmid⟩
  | cons x l ih =>
    intro pre mid m hpre hmid
    simp only [List.foldl_cons]
    by_cases hx : x.clicks > m.clicks
    · simp only [hx, if_true]
      obtain ⟨pre', post', heq, h1, h2⟩ := ih (pre ++ m :: mid) [] x
        (by
          intro r hr
          rcases List.mem_append.1 hr with h | h
          · exact lt_trans (hpre r h) hx
          · rcases List.mem_cons.1 h with h | h
            · rw [h]; exact hx
            · exact lt_of_le_of_lt (hmid r h) hx)
        (by intro r hr; cases hr)
      exact ⟨pre', post', by rw [← heq]; simp, h1, h2⟩
    · simp only [hx, if_false]
      obtain ⟨pre', post', heq, h1, h2⟩ := ih pre (mid ++ [x]) m hpre
        (by
          intro r hr
          rcases List.mem_append.1 hr with h | h
          · exact hmid r h
          · simp only [List.mem_singleton] at h
            rw [h]; exact not_lt.1 hx)
      exact ⟨pre', post', by rw [← heq]; simp, h1, h2⟩

/-- C18: `getMostClickedUrl` is `null` on the empty registry; on a non-empty
registry it returns a record of the registry with at least the clicks of
every record, and the first such record in the order of the array: every
record before it has strictly fewer clicks. -/
theorem getMostClickedUrl_first_maximum (s : Statistics.State) :
    (s.shortenedUrls = [] → Statistics.getMostClickedUrl s = none) ∧
      (s.shortenedUrls ≠ [] →
        ∃ best pre post, Statistics.getMostClickedUrl s = some best ∧
          s.shortenedUrls = pre ++ best :: post ∧ best ∈ s.shortenedUrls ∧
          (∀ r ∈ s.shortenedUrls, r.clicks ≤ best.clicks) ∧
          (∀ r ∈ pre, r.clicks < best.clicks)) := by
  constructor
  · intro h
    simp [Statistics.getMostClickedUrl, h]
  · intro h
    obtain ⟨first, rest, hl⟩ := List.exists_cons_of_ne_nil h
    obtain ⟨pre, post, heq, h1, h2⟩ := mostClicked_fold rest [] [] first
      (by intro r hr; cases hr) (by intro r hr; cases hr)
    simp only [List.nil_append, List.cons_append] at heq
    refine ⟨_, pre, post, by simp only [Statistics.getMostClickedUrl, hl], ?_, ?_, ?_, h1⟩
    · rw [hl]; exact heq
    · rw [hl, heq]; simp
    · intro r hr
      rw [hl, heq] at hr
      rcases List.mem_append.1 hr with hr | hr
      · exact le_of_lt (h1 r hr)
      · rcases List.mem_cons.1 hr with hr | hr
        · rw [hr]
        · exact h2 r hr

/-! ## The logger -/

/-- The requests of a run of `Log`, and its completion: one request with the
formatted values when the three checks pass, none otherwise, and no error in
either case. -/
theorem log_run (p : Logger.Platform) (stack level message pkg : String) :
    (Logger.Log p stack level message pkg).raised = none ∧
      (Logger.Log p stack level message pkg).sent
        = if Logger.allowedStacks.contains (p.toLowerCase stack) = true ∧
            Logger.allowedLevels.contains (p.toLowerCase level) = true ∧
            Logger.allowedPackages.contains (p.toLowerCase pkg) = true then
            [{ stack := p.toLowerCase stack, level := p.toLowerCase level,
               message := JS.trim message, package := p.toLowerCase pkg }]
          else [] := by
  cases e1 : Logger.allowedStacks.contains (p.toLowerCase stack) <;>
    cases e2 : Logger.allowedLevels.contains (p.toLowerCase level) <;>
    cases e3 : Logger.allowedPackages.contains (p.toLowerCase pkg)
  all_goals
    simp only [Logger.Log, e1, e2, e3, Bool.not_true, Bool.not_false, Bool.false_eq_true,
      if_false, if_true, false_and, and_false, and_self]
  all_goals
    first
      | exact ⟨rfl, rfl⟩
      | (cases Logger.request p
            { stack := p.toLowerCase stack, level := p.toLowerCase level,
              message := JS.trim message, package := p.toLowerCase pkg } <;>
          exact ⟨rfl, rfl⟩)

/-- C20: on string arguments `Log` sends at most one request, and sends it
exactly when the lower-cased stack, level and package are all allowed values;
the payload sent carries these three values (so a stack of `frontend` or
`backend`, one of the five levels and one of the ten packages) and the trimmed
message; when one of the three is not allowed nothing is sent; and in every
case, also when the request fails, the body does not parse, the body is
`null` or the response is not OK, `Log` completes without raising. -/
theorem log_sends_only_allowed (p : Logger.Platform) (stack level message pkg : String) :
    ((Logger.Log p stack level message pkg).sent
        = [{ stack := p.toLowerCase stack, level := p.toLowerCase level,
             message := JS.trim message, package := p.toLowerCase pkg }] ↔
        (p.toLowerCase stack ∈ Logger.allowedStacks ∧
          p.toLowerCase level ∈ Logger.allowedLevels ∧
          p.toLowerCase pkg ∈ Logger.allowedPackages)) ∧
      (¬(p.toLowerCase stack ∈ Logger.allowedStacks ∧
          p.toLowerCase level ∈ Logger.allowedLevels ∧
          p.toLowerCase pkg ∈ Logger.allowedPackages) →
        (Logger.Log p stack level message pkg).sent = []) ∧
      (∀ payload ∈ (Logger.Log p stack level message pkg).sent,
        payload.stack ∈ ["frontend", "backend"] ∧
          payload.level ∈ ["debug", "info", "warn", "error", "fatal"] ∧
          payload.package ∈ ["api", "component", "hook", "page", "state", "style", "auth",
            "config", "middleware", "utils"]) ∧
      (Logger.Log p stack level message pkg).sent.length ≤ 1 ∧
      (Logger.Log p stack level message pkg).raised = none := by
  obtain ⟨hraised, hsent⟩ := log_run p stack level message pkg
  have hiff : (Logger.allowedStacks.contains (p.toLowerCase stack) = true ∧
      Logger.allowedLevels.contains (p.toLowerCase level) = true ∧
      Logger.allowedPackages.contains (p.toLowerCase pkg) = true) ↔
      (p.toLowerCase stack ∈ Logger.allowedStacks ∧
        p.toLowerCase level ∈ Logger.allowedLevels ∧
        p.toLowerCase pkg ∈ Logger.allowedPackages) := by
    simp
  by_cases h : p.toLowerCase stack ∈ Logger.allowedStacks ∧
      p.toLowerCase level ∈ Logger.allowedLevels ∧
      p.toLowerCase pkg ∈ Logger.allowedPackages
  · rw [if_pos (hiff.2 h)] at hsent
    refine ⟨⟨fun _ => h, fun _ => hsent⟩, fun hn => absurd h hn, ?_, ?_, hraised⟩
    · intro payload hp
      rw [hsent, List.mem_singleton] at hp
      rw [hp]
      exact h
    · rw [hsent]; simp
  · rw [if_neg (fun hc => h (hiff.1 hc))] at hsent
    refine ⟨⟨fun hs => ?_, fun hc => absurd hc h⟩, fun _ => hsent, ?_, ?_, hraised⟩
    · rw [hsent] at hs
      cases hs
    · intro payload hp
      rw [hsent] at hp
      cases hp
    · rw [hsent]; simp

/-! ## The location histogram -/

/-- Counting under a key the object does not own creates the key last, with
the count 1. -/
theorem increment_of_not_mem :
    ∀ (obj : List (String × Nat)) (key : String), key ∉ obj.map Prod.fst →
      JS.increment obj key = obj ++ [(key, 1)] := by
  intro obj
  induction obj with
  | nil => intro key _; rfl
  | cons p obj ih =>
    intro key h
    obtain ⟨k, n⟩ := p
    simp only [List.map_cons, List.mem_cons, not_or] at h
    have hk : ¬k = key := fun e => h.1 e.symm
    simp only [JS.increment, hk, if_false, ih key h.2, List.cons_append]

/-- Counting under a key the object owns raises that count by one in place,
when the keys of the object are pairwise distinct. -/
theorem increment_of_mem :
    ∀ (obj : List (String × Nat)) (key : String), (obj.map Prod.fst).Nodup →
      key ∈ obj.map Prod.fst →
      JS.increment obj key = obj.map (fun p => if p.1 = key then (p.1, p.2 + 1) else p) := by
  intro obj
  induction obj with
  | nil => intro key _ h; cases h
  | cons p obj ih =>
    intro key hnd h
    obtain ⟨k, n⟩ := p
    simp only [List.map_cons, List.nodup_cons] at hnd
    by_cases hk : k = key
    · simp only [JS.increment, hk, if_true, List.map_cons, List.cons.injEq, true_and]
      symm
      conv_rhs => rw [← List.map_id obj]
      apply List.map_congr_left
      intro q hq
      have : q.1 ≠ key := by
        intro e
        apply hnd.1
        rw [hk, ← e]
        exact List.mem_map.2 ⟨q, hq, rfl⟩
      simp [this]
    · have hmem : key ∈ obj.map Prod.fst := by
        simp only [List.map_cons, List.mem_cons] at h
        rcases h with h | h
        · exact absurd h.symm hk
        · exact h
      simp only [JS.increment, hk, if_false, List.map_cons, ih key hnd.2 hmem]

/-- The object built by `forEach` from the keys of the clicks: its keys are
the distinct keys, in the order of their first occurrence, and the value
under a key is the number of its occurrences. -/
theorem tally_spec (keys : List String) :
    ((keys.foldl JS.increment []).map Prod.fst).Nodup ∧
      (∀ loc, loc ∈ (keys.foldl JS.increment []).map Prod.fst ↔ loc ∈ keys) ∧
      (∀ p ∈ keys.foldl JS.increment [], p.2 = keys.count p.1) ∧
      (keys.foldl JS.increment []).Pairwise
        (fun a b => keys.indexOf a.1 < keys.indexOf b.1) := by
  induction keys using List.reverseRecOn with
  | nil => simp
  | append_singleton ks k ih =>
    obtain ⟨h1, h2, h3, h4⟩ := ih
    rw [List.foldl_append, List.foldl_cons, List.foldl_nil]
    by_cases hk : k ∈ ks
    · have hk' : k ∈ (ks.foldl JS.increment []).map Prod.fst := (h2 k).2 hk
      rw [increment_of_mem _ k h1 hk']
      have hfst : ((ks.foldl JS.increment []).map
          (fun p => if p.1 = k then (p.1, p.2 + 1) else p)).map Prod.fst
          = (ks.foldl JS.increment []).map Prod.fst := by
        rw [List.map_map]
        apply List.map_congr_left
        intro q _
        by_cases hq : q.1 = k <;> simp [hq]
      refine ⟨by rw [hfst]; exact h1, ?_, ?_, ?_⟩
      · intro loc
        rw [hfst, h2 loc]
        simp only [List.mem_append, List.mem_singleton]
        constructor
        · exact Or.inl
        · rintro (h | h)
          · exact h
          · rw [h]; exact hk
      · intro p hp
        obtain ⟨q, hq, hqp⟩ := List.mem_map.1 hp
        have hq3 := h3 q hq
        by_cases hqk : q.1 = k
        · simp only [hqk, if_true] at hqp
          rw [← hqp]
          simp only [List.count_append, List.count_singleton_self]
          rw [hq3, hqk]
        · simp only [hqk, if_false] at hqp
          rw [← hqp, hq3]
          simp only [List.count_append, List.count_singleton, beq_iff_eq]
          simp [Ne.symm hqk]
      · rw [List.pairwise_map]
        refine h4.imp_of_mem ?_
        intro a b ha hb hab
        have ha' : a.1 ∈ ks := (h2 a.1).1 (List.mem_map.2 ⟨a, ha, rfl⟩)
        have hb' : b.1 ∈ ks := (h2 b.1).1 (List.mem_map.2 ⟨b, hb, rfl⟩)
        have e1 : (if a.1 = k then (a.1, a.2 + 1) else a).1 = a.1 := by
          by_cases h : a.1 = k <;> simp [h]
        have e2 : (if b.1 = k then (b.1, b.2 + 1) else b).1 = b.1 := by
          by_cases h : b.1 = k <;> simp [h]
        rw [e1, e2, List.indexOf_append_of_mem ha', List.indexOf_append_of_mem hb']
        exact hab
    · have hk' : k ∉ (ks.foldl JS.increment []).map Prod.fst := fun h => hk ((h2 k).1 h)
      rw [increment_of_not_mem _ k hk']
      refine ⟨?_, ?_, ?_, ?_⟩
      · rw [List.map_append, List.nodup_append]
        refine ⟨h1, by simp, ?_⟩
        intro a ha hb
        simp only [List.map_cons, List.map_nil, List.mem_singleton] at hb
        exact hk' (hb ▸ ha)
      · intro loc
        simp only [List.map_append, List.mem_append, List.map_cons, List.map_nil,
          List.mem_singleton, h2 loc]
      · intro p hp
        rcases List.mem_append.1 hp with hp | hp
        · have hne : p.1 ≠ k := by
            intro e
            exact hk' (e ▸ List.mem_map.2 ⟨p, hp, rfl⟩)
          rw [h3 p hp]
          simp only [List.count_append, List.count_singleton, beq_iff_eq]
          simp [Ne.symm hne]
        · simp only [List.mem_singleton] at hp
          rw [hp]
          simp only [List.count_append, List.count_singleton_self]
          rw [List.count_eq_zero_of_not_mem hk]
      · rw [List.pairwise_append]
        refine ⟨?_, by simp, ?_⟩
        · refine h4.imp_of_mem ?_
          intro a b ha hb hab
          have ha' : a.1 ∈ ks := (h2 a.1).1 (List.mem_map.2 ⟨a, ha, rfl⟩)
          have hb' : b.1 ∈ ks := (h2 b.1).1 (List.mem_map.2 ⟨b, hb, rfl⟩)
          rw [List.indexOf_append_of_mem ha', List.indexOf_append_of_mem hb']
          exact hab
        · intro a ha b hb
          simp only [List.mem_singleton] at hb
          have ha' : a.1 ∈ ks := (h2 a.1).1 (List.mem_map.2 ⟨a, ha, rfl⟩)
          rw [hb, List.indexOf_append_of_mem ha', List.indexOf_append_of_not_mem hk]
          have := List.indexOf_lt_length.2 ha'
          simp only [List.indexOf_cons_self, Nat.add_zero]
          exact this

/-- An object none of whose keys is an array index lists its entries in
creation order. -/
theorem entries_of_no_index (obj : List (String × Nat))
    (h : ∀ p ∈ obj, JS.isArrayIndex p.1 = false) : JS.entries obj = obj := by
  unfold JS.entries
  have h1 : obj.filter (fun p => JS.isArrayIndex p.1) = [] := by
    rw [List.filter_eq_nil_iff]
    intro p hp
    simp [h p hp]
  have h2 : obj.filter (fun p => !JS.isArrayIndex p.1) = obj := by
    rw [List.filter_eq_self]
    intro p hp
    simp [h p hp]
  rw [h1, h2]
  rfl

/-- Inserting into a list sorted by descending count an entry that precedes
all its entries in the order `Q` keeps entries of equal count in the order
`Q`. -/
theorem orderedInsert_ties (Q : String × Nat → String × Nat → Prop) (x : String × Nat) :
    ∀ l : List (String × Nat), (∀ b ∈ l, Q x b) →
      l.Pairwise (fun a b => a.2 = b.2 → Q a b) →
      (l.orderedInsert (fun a b => a.2 ≥ b.2) x).Pairwise (fun a b => a.2 = b.2 → Q a b) := by
  intro l
  induction l with
  | nil => intro _ _; simp
  | cons b l ih =>
    intro hx hl
    rw [List.pairwise_cons] at hl
    simp only [List.orderedInsert]
    split_ifs with hr
    · rw [List.pairwise_cons]
      refine ⟨fun c hc _ => hx c hc, ?_⟩
      rw [List.pairwise_cons]
      exact hl
    · rw [List.pairwise_cons]
      refine ⟨?_, ih (fun c hc => hx c (List.mem_cons_of_mem b hc)) hl.2⟩
      intro c hc htie
      rcases (List.mem_orderedInsert _).1 hc with hc | hc
      · rw [hc] at htie
        exact absurd (le_of_eq htie) hr
      · exact hl.1 c hc htie

/-- The stable sort by descending count keeps entries of equal count in the
order they had. -/
theorem insertionSort_ties (Q : String × Nat → String × Nat → Prop) :
    ∀ l : List (String × Nat), l.Pairwise Q →
      (l.insertionSort (fun a b => a.2 ≥ b.2)).Pairwise (fun a b => a.2 = b.2 → Q a b) := by
  intro l
  induction l with
  | nil => intro _; simp
  | cons x l ih =>
    intro h
    rw [List.pairwise_cons] at h
    simp only [List.insertionSort]
    apply orderedInsert_ties Q x _ _ (ih h.2)
    intro b hb
    exact h.1 b ((List.mem_insertionSort _).1 hb)

/-- The stable sort by descending count yields a list in non-increasing order
of count. -/
theorem insertionSort_descending (l : List (String × Nat)) :
    (l.insertionSort (fun a b => a.2 ≥ b.2)).Sorted (fun a b => a.2 ≥ b.2) := by
  haveI : IsTotal (String × Nat) (fun a b => a.2 ≥ b.2) := ⟨fun a b => le_total b.2 a.2⟩
  haveI : IsTrans (String × Nat) (fun a b => a.2 ≥ b.2) :=
    ⟨fun _ _ _ hab hbc => le_trans hbc hab⟩
  exact List.sorted_insertionSort _ l

/-- C19, as stated, fails: a location that is an array-index key (`7`) is
listed before a location of equal count that occurred earlier in the click
list. -/
theorem getLocationStats_index_key_first :
    Statistics.getLocationStats
        (Demo.ledger [Demo.click "1" "a" "Pune, India", Demo.click "2" "a" "7"])
        = some [("7", 1), ("Pune, India", 1)] ∧
      ((Demo.ledger [Demo.click "1" "a" "Pune, India", Demo.click "2" "a" "7"]).clickData.map
          Statistics.locationKey).indexOf "Pune, India"
        < ((Demo.ledger [Demo.click "1" "a" "Pune, India", Demo.click "2" "a" "7"]).clickData.map
          Statistics.locationKey).indexOf "7" := by
  decide

/-- C19, amended: for a click list none of whose locations is an array-index
key or a name inherited from `Object.prototype` (so for the city names the
pages generate), `getLocationStats` returns the first five entries (all if
fewer) of a list that has one pair per distinct location, with the number of
events of that location as count, in non-increasing order of count, pairs of
equal count in the order in which their locations first occur in the click
list. -/
theorem getLocationStats_histogram (s : Statistics.State)
    (h : ∀ click ∈ s.clickData,
      JS.isArrayIndex (Statistics.locationKey click) = false ∧
        Statistics.locationKey click ∉ JS.objectPrototypeNames) :
    ∃ full : List (String × Nat),
      Statistics.getLocationStats s = some (full.take 5) ∧
        (full.map Prod.fst).Nodup ∧
        (∀ loc, loc ∈ full.map Prod.fst ↔ ∃ click ∈ s.clickData,
          Statistics.locationKey click = loc) ∧
        (∀ p ∈ full,
          p.2 = (s.clickData.filter (fun click => Statistics.locationKey click = p.1)).length) ∧
        full.Sorted (fun a b => a.2 ≥ b.2) ∧
        full.Pairwise (fun a b => a.2 = b.2 →
          (s.clickData.map Statistics.locationKey).indexOf a.1
            < (s.clickData.map Statistics.locationKey).indexOf b.1) := by
  obtain ⟨h1, h2, h3, h4⟩ := tally_spec (s.clickData.map Statistics.locationKey)
  have hperm := List.perm_insertionSort (fun a b : String × Nat => a.2 ≥ b.2)
    ((s.clickData.map Statistics.locationKey).foldl JS.increment [])
  have hnoidx : ∀ p ∈ (s.clickData.map Statistics.locationKey).foldl JS.increment [],
      JS.isArrayIndex p.1 = false := by
    intro p hp
    obtain ⟨click, hc, hcp⟩ := List.mem_map.1 ((h2 p.1).1 (List.mem_map.2 ⟨p, hp, rfl⟩))
    rw [← hcp]
    exact (h click hc).1
  have hany : (s.clickData.map Statistics.locationKey).any
      (fun k => JS.objectPrototypeNames.contains k) = false := by
    rw [List.any_eq_false]
    intro k hk
    obtain ⟨click, hc, hck⟩ := List.mem_map.1 hk
    rw [← hck]
    simpa using (h click hc).2
  refine ⟨((s.clickData.map Statistics.locationKey).foldl JS.increment []).insertionSort
    (fun a b => a.2 ≥ b.2), ?_, ?_, ?_, ?_, insertionSort_descending _,
    insertionSort_ties _ _ h4⟩
  · simp only [Statistics.getLocationStats, hany, Bool.false_eq_true, if_false,
      entries_of_no_index _ hnoidx]
  · exact ((hperm.map Prod.fst).nodup_iff).2 h1
  · intro loc
    rw [(hperm.map Prod.fst).mem_iff, h2 loc, List.mem_map]
  · intro p hp
    rw [h3 p (hperm.mem_iff.1 hp), List.count, List.countP_map, List.countP_eq_length_filter]
    congr 1

/-- Witness of the amended C19: three clicks from Pune and Mumbai. -/
theorem getLocationStats_histogram_witness :
    (∀ click ∈ (Demo.ledger
          [Demo.click "1" "a" "Pune, India", Demo.click "2" "a" "Mumbai, India",
            Demo.click "3" "a" "Mumbai, India"]).clickData,
        JS.isArrayIndex (Statistics.locationKey click) = false ∧
          Statistics.locationKey click ∉ JS.objectPrototypeNames) ∧
      Statistics.getLocationStats
        (Demo.ledger
          [Demo.click "1" "a" "Pune, India", Demo.click "2" "a" "Mumbai, India",
            Demo.click "3" "a" "Mumbai, India"])
        = some [("Mumbai, India", 2), ("Pune, India", 1)] ∧
      ∃ full : List (String × Nat),
        Statistics.getLocationStats
          (Demo.ledger
            [Demo.click "1" "a" "Pune, India", Demo.click "2" "a" "Mumbai, India",
              Demo.click "3" "a" "Mumbai, India"]) = some (full.take 5) ∧
          (full.map Prod.fst).Nodup :=
  ⟨by decide, by decide,
    match getLocationStats_histogram
      (Demo.ledger
        [Demo.click "1" "a" "Pune, India", Demo.click "2" "a" "Mumbai, India",
          Demo.click "3" "a" "Mumbai, India"]) (by decide) with
    | ⟨full, h1, h2, _⟩ => ⟨full, h1, h2⟩⟩

/-! ## Click counts and click events across the application -/

/-- What a completed `handleShortenAll` does to the registry and to
`localStorage`: the records pushed by `updateRows` are appended to the
registry, the stored click collection is untouched, and the stored registry
is either untouched (nothing appended) or the new registry. -/
theorem handleShortenAll_registry (env : Env) (fuel : Nat) (t t' : Tick)
    (s s' : Shortener.State)
    (h : Shortener.handleShortenAll env fuel t s = some (s', t')) :
    ∃ results t1,
      Shortener.shortenEach env s.shortenedUrls fuel t
          (s.urls.filter (fun url => JS.trim url.url ≠ "")) = some (results, t1) ∧
        s'.shortenedUrls = s.shortenedUrls ++ (Shortener.updateRows results s.urls).2.2 ∧
        s'.storage.urlClickData = s.storage.urlClickData ∧
        ((s'.storage.shortenedUrls = s.storage.shortenedUrls ∧
            (Shortener.updateRows results s.urls).2.2 = []) ∨
          s'.storage.shortenedUrls = some s'.shortenedUrls) := by
  unfold Shortener.handleShortenAll at h
  by_cases hlen : (s.urls.filter (fun url => JS.trim url.url ≠ "")).length = 0
  · simp only [hlen, if_true, Option.some.injEq, Prod.mk.injEq] at h
    have hnil : s.urls.filter (fun url => JS.trim url.url ≠ "") = [] :=
      List.length_eq_zero.1 hlen
    refine ⟨[], t, by rw [hnil]; rfl, ?_, ?_, ?_⟩
    · rw [← h.1]
      have : (Shortener.updateRows [] s.urls).2.2 = [] := by
        rw [(updateRows_spec [] s.urls).2.1]
        simp
      rw [this]; simp
    · rw [← h.1]
    · left
      refine ⟨by rw [← h.1], ?_⟩
      rw [(updateRows_spec [] s.urls).2.1]
      simp
  · simp only [hlen, if_false] at h
    cases hse : Shortener.shortenEach env s.shortenedUrls fuel t
        (s.urls.filter (fun url => JS.trim url.url ≠ "")) with
    | none => rw [hse] at h; simp at h
    | some p =>
      obtain ⟨results, t1⟩ := p
      rw [hse] at h
      simp only at h
      rcases hu : Shortener.updateRows results s.urls with ⟨rows, successCount, newUrls⟩
      rw [hu] at h
      simp only at h
      have hn : (Shortener.updateRows results s.urls).2.2 = newUrls := by rw [hu]
      refine ⟨results, t1, rfl, ?_⟩
      rw [hn]
      by_cases hnew : newUrls.length > 0
      · simp only [hnew, if_true, Option.some.injEq, Prod.mk.injEq] at h
        rw [← h.1]
        refine ⟨rfl, ?_, Or.inr ?_⟩
        · simp only [Shortener.persist]
          split_ifs <;> rfl
        · have hpos : (s.shortenedUrls ++ newUrls).length > 0 := by
            rw [List.length_append]; omega
          simp only [Shortener.persist, hpos, if_true]
      · simp only [hnew, if_false, Option.some.injEq, Prod.mk.injEq] at h
        have hz : newUrls = [] := by
          cases newUrls with
          | nil => rfl
          | cons a l => simp at hnew
        rw [← h.1]
        exact ⟨by simp [hz], rfl, Or.inl ⟨rfl, hz⟩⟩

/-- Every element on the right of a pointwise relation has a partner on the
left. -/
theorem forall₂_mem_right {α β : Type} (R : α → β → Prop) :
    ∀ (l₁ : List α) (l₂ : List β), List.Forall₂ R l₁ l₂ →
      ∀ b ∈ l₂, ∃ a, a ∈ l₁ ∧ R a b := by
  intro l₁ l₂ h
  induction h with
  | nil => intro b hb; cases hb
  | cons hab _ ih =>
    intro b hb
    rcases List.mem_cons.1 hb with hb | hb
    · exact ⟨_, List.mem_cons_self _ _, hb ▸ hab⟩
    · obtain ⟨a, ha, hr⟩ := ih b hb
      exact ⟨a, List.mem_cons_of_mem _ ha, hr⟩

/-- The records a batch appends have no click yet. -/
theorem created_no_click (env : Env) (reg : List UrlRecord) (fuel : Nat) (t t1 : Tick)
    (rows urls : List UrlInput) (results : List (Nat × Result))
    (h : Shortener.shortenEach env reg fuel t rows = some (results, t1)) :
    ∀ r ∈ (Shortener.updateRows results urls).2.2, r.clicks = 0 := by
  intro r hr
  rw [(updateRows_spec results urls).2.1] at hr
  obtain ⟨p, hp, hpr⟩ := List.mem_filterMap.1 hr
  obtain ⟨url, _, hfind⟩ := List.mem_filterMap.1 hp
  have hmem : p ∈ results := List.mem_of_find?_eq_some hfind
  have hout := shortenEach_outcomes env reg fuel rows t t1 results h
  obtain ⟨url', _, _, tk, completion, tk', hs, hq⟩ := forall₂_mem_right _ _ _ hout p hmem
  cases completion with
  | threw message =>
    rw [hq] at hpr
    simp [Shortener.outcome, Result.data?] at hpr
  | returned result =>
    cases result with
    | failure error =>
      rw [hq] at hpr
      simp [Shortener.outcome, Result.data?] at hpr
    | success data =>
      rw [hq] at hpr
      simp only [Shortener.outcome, Result.data?, Option.some.injEq] at hpr
      rw [← hpr]
      exact (shortenUrl_success_expiry env reg fuel tk tk' url' data hs).1

/-- Rewriting the records of one id to one more click, together with one more
event of that id, keeps click counts and click events in step. -/
theorem consistent_click (reg : List UrlRecord) (events events' : List ClickEvent)
    (e : ClickEvent) (urlId : String) (he : e.urlId = urlId)
    (hperm : events'.Perm (events ++ [e]))
    (h : ∀ r ∈ reg, r.clicks = (events.filter (fun c => c.urlId = r.id)).length) :
    ∀ r ∈ reg.map (fun u => if u.id = urlId then { u with clicks := u.clicks + 1 } else u),
      r.clicks = (events'.filter (fun c => c.urlId = r.id)).length := by
  intro r hr
  obtain ⟨u, hu, hur⟩ := List.mem_map.1 hr
  rw [(hperm.filter _).length_eq, List.filter_append, List.length_append]
  by_cases hid : u.id = urlId
  · simp only [hid, if_true] at hur
    rw [← hur]
    simp only [h u hu, hid, he, List.filter_cons, decide_True, if_true, List.filter_nil,
      List.length_singleton]
  · simp only [hid, if_false] at hur
    rw [← hur, h u hu]
    have : decide (e.urlId = u.id) = false := by
      rw [he]; simpa using Ne.symm hid
    simp [List.filter_cons, this]

/-- One action keeps click counts and click events in step, and the page in
step with `localStorage`, provided the records it appends carry ids that no
stored click event carries. -/
theorem step_consistent (env : Env) (fuel : Nat) (a : App.Action) (x y : App.State)
    (t t' : Tick) (hstep : App.step env fuel a (x, t) = some (y, t'))
    (hc : App.consistent x) (hs : App.synced x)
    (hfresh : ∀ r ∈ App.created env fuel a (x, t), ∀ e ∈ App.clicks x, e.urlId ≠ r.id) :
    App.consistent y ∧ App.synced y := by
  cases x with
  | shortener s =>
    cases a with
    | shortenAll urls =>
      simp only [App.step, Option.map_eq_some', Prod.mk.injEq, Prod.exists] at hstep
      obtain ⟨s', t'', hh, hy, _⟩ := hstep
      obtain ⟨results, t1, hse, hreg, hclk, hsto⟩ :=
        handleShortenAll_registry env fuel t t'' { s with urls := urls } s' hh
      simp only at hse hreg hclk hsto
      have hcreated : App.created env fuel (.shortenAll urls) (.shortener s, t)
          = (Shortener.updateRows results urls).2.2 := by
        simp only [App.created, hse]
      rw [hcreated] at hfresh
      have hzero := created_no_click env s.shortenedUrls fuel t t1 _ urls results hse
      have hclicks : App.clicks y = App.clicks (.shortener s) := by
        rw [← hy]; simp only [App.clicks, App.storage, hclk]
      rw [← hy]
      constructor
      · intro r hr
        simp only [App.registry, hreg, List.mem_append] at hr
        have hcl : App.clicks (.shortener s') = App.clicks (.shortener s) := by
          simp only [App.clicks, App.storage, hclk]
        rw [hcl]
        rcases hr with hr | hr
        · exact hc r hr
        · rw [hzero r hr]
          symm
          rw [List.length_eq_zero, List.filter_eq_nil_iff]
          intro e he
          simpa using hfresh r hr e he
      · constructor
        · simp only [App.storage, App.registry]
          rcases hsto with ⟨h1, h2⟩ | h1
          · rw [h1, hreg, h2, List.append_nil]
            exact hs.1
          · rw [h1]
            exact List.Perm.refl _
        · exact List.Perm.refl _
    | redirect url =>
      simp only [App.step] at hstep
      split_ifs at hstep with hmem
      simp only [Option.some.injEq, Prod.mk.injEq] at hstep
      rw [← hstep.1]
      unfold Shortener.handleRedirect
      split_ifs with hexp
      · exact ⟨hc, hs⟩
      · constructor
        · simp only [App.consistent, App.registry, App.clicks, App.storage, Option.getD_some]
          exact consistent_click s.shortenedUrls _ _ _ url.id rfl (List.Perm.refl _) hc
        · exact ⟨List.Perm.refl _, List.Perm.refl _⟩
    | deleteOnShortener urlId =>
      simp only [App.step, Option.some.injEq, Prod.mk.injEq] at hstep
      rw [← hstep.1]
      constructor
      · intro r hr
        simp only [App.registry, Shortener.deleteUrl, List.mem_filter] at hr
        exact hc r hr.1
      · exact ⟨List.Perm.refl _, List.Perm.refl _⟩
    | simulateClick urlId => simp [App.step] at hstep
    | deleteOnStatistics urlId => simp [App.step] at hstep
    | openShortener =>
      simp only [App.step, Option.some.injEq, Prod.mk.injEq] at hstep
      rw [← hstep.1]
      exact ⟨hc, hs⟩
    | openStatistics =>
      simp only [App.step, Option.some.injEq, Prod.mk.injEq] at hstep
      rw [← hstep.1]
      constructor
      · intro r hr
        simp only [App.registry, Statistics.mount] at hr
        exact hc r (hs.1.mem_iff.1 hr)
      · exact ⟨List.Perm.refl _, List.Perm.refl _⟩
    | render =>
      simp only [App.step, Option.some.injEq, Prod.mk.injEq] at hstep
      rw [← hstep.1]
      constructor
      · intro r hr
        simp only [App.registry, Shortener.render] at hr
        exact hc r ((List.perm_insertionSort _ _).mem_iff.1 hr)
      · exact ⟨hs.1.trans (List.perm_insertionSort _ _).symm, List.Perm.refl _⟩
  | statistics s =>
    cases a with
    | shortenAll urls => simp [App.step] at hstep
    | redirect url => simp [App.step] at hstep
    | deleteOnShortener urlId => simp [App.step] at hstep
    | simulateClick urlId =>
      simp only [App.step, Option.some.injEq, Prod.mk.injEq] at hstep
      rw [← hstep.1]
      constructor
      · simp only [App.consistent, App.registry, App.clicks, App.storage,
          Statistics.simulateClick, Option.getD_some]
        refine consistent_click s.shortenedUrls (App.clicks (.statistics s)) _
          (Statistics.newClick env t urlId) urlId rfl ?_ hc
        exact (hs.2.symm.append_right _)
      · exact ⟨List.Perm.refl _, List.Perm.refl _⟩
    | deleteOnStatistics urlId =>
      simp only [App.step, Option.some.injEq, Prod.mk.injEq] at hstep
      rw [← hstep.1]
      constructor
      · intro r hr
        simp only [App.registry, Statistics.deleteUrl, List.mem_filter] at hr
        have hne : r.id ≠ urlId := by simpa using hr.2
        simp only [App.clicks, App.storage, Statistics.deleteUrl, Option.getD_some,
          List.filter_filter]
        rw [hc r hr.1, (hs.2.filter _).length_eq]
        congr 1
        apply List.filter_congr
        intro e _
        by_cases he : e.urlId = r.id
        · simp [he, hne]
        · simp [he]
      · exact ⟨List.Perm.refl _, List.Perm.refl _⟩
    | openShortener =>
      simp only [App.step, Option.some.injEq, Prod.mk.injEq] at hstep
      rw [← hstep.1]
      constructor
      · intro r hr
        simp only [App.registry, Shortener.mount] at hr
        exact hc r (hs.1.mem_iff.1 hr)
      · exact ⟨List.Perm.refl _, List.Perm.refl _⟩
    | openStatistics =>
      simp only [App.step, Option.some.injEq, Prod.mk.injEq] at hstep
      rw [← hstep.1]
      exact ⟨hc, hs⟩
    | render =>
      simp only [App.step, Option.some.injEq, Prod.mk.injEq] at hstep
      rw [← hstep.1]
      constructor
      · intro r hr
        simp only [App.registry, Statistics.render] at hr
        exact hc r ((List.perm_insertionSort _ _).mem_iff.1 hr)
      · exact ⟨hs.1.trans (List.perm_insertionSort _ _).symm,
          hs.2.trans (List.perm_insertionSort _ _).symm⟩

/-- A sequence of actions keeps click counts and click events in step, and the
page in step with `localStorage`, provided every record a batch appends
carries an id that no click event stored at that moment carries. -/
theorem run_consistent (env : Env) (fuel : Nat) :
    ∀ (actions : List App.Action) (x : App.State) (t : Tick),
      App.consistent x → App.synced x → App.freshIds env fuel actions (x, t) = true →
        ∀ y t', App.run env fuel actions (x, t) = some (y, t') →
          App.consistent y ∧ App.synced y := by
  intro actions
  induction actions with
  | nil =>
    intro x t hc hs _ y t' hrun
    simp only [App.run, Option.some.injEq, Prod.mk.injEq] at hrun
    rw [← hrun.1]
    exact ⟨hc, hs⟩
  | cons a rest ih =>
    intro x t hc hs hfresh y t' hrun
    simp only [App.run] at hrun
    simp only [App.freshIds, Bool.and_eq_true, List.all_eq_true, bne_iff_ne, ne_eq] at hfresh
    cases hstep : App.step env fuel a (x, t) with
    | none => rw [hstep] at hrun; simp at hrun
    | some z =>
      obtain ⟨z, tz⟩ := z
      rw [hstep] at hrun
      have hrest := hfresh.2
      rw [hstep] at hrest
      obtain ⟨hcz, hsz⟩ := step_consistent env fuel a x z t tz hstep hc hs
        (fun r hr e he => hfresh.1 r hr e he)
      exact ih z tz hcz hsz hrest y t' hrun

/-- C21, as stated, fails: a click simulated for an id that no record carries
leaves an event behind, and the link created afterwards with that id is
listed with 0 clicks against 1 stored event of its id. -/
theorem orphan_event_uncounted :
    (App.run Demo.env 1 Demo.orphanSession (App.initial, ⟨0, 0⟩)).map
        (fun p => ((App.registry p.1).map (fun r => (r.id, r.clicks)),
          (App.clicks p.1).map (fun e => e.urlId)))
      = some ([("17000000000033", 0)], ["17000000000033"]) := by
  decide

/-- C21, amended: in every state reached from the empty registry and the
empty click list by batch creations, click recordings (`simulateClick` with
any id, `handleRedirect` on a listed link), deletions on either page, page
switches and renders, in which every record a batch appended carried an id
that no click event stored at that moment carried, the clicks of every listed
record are the number of stored click events of its id, and on the statistics
page the number of events `getClicksForUrl` returns for it. -/
theorem clicks_match_events (env : Env) (fuel : Nat) (t : Tick) (actions : List App.Action)
    (hfresh : App.freshIds env fuel actions (App.initial, t) = true) :
    ∀ x t', App.run env fuel actions (App.initial, t) = some (x, t') →
      (∀ r ∈ App.registry x,
        r.clicks = ((App.clicks x).filter (fun e => e.urlId = r.id)).length) ∧
        ∀ s, x = .statistics s → ∀ r ∈ s.shortenedUrls,
          r.clicks = (Statistics.getClicksForUrl s r.id).length := by
  intro x t' hrun
  have hc0 : App.consistent App.initial := by
    intro r hr
    simp [App.initial, App.registry, Shortener.mount] at hr
  have hs0 : App.synced App.initial := ⟨List.Perm.refl _, List.Perm.refl _⟩
  obtain ⟨hc, hs⟩ := run_consistent env fuel actions App.initial t hc0 hs0 hfresh x t' hrun
  refine ⟨hc, ?_⟩
  intro s hx r hr
  rw [hx] at hc hs
  rw [hc r hr]
  exact (hs.2.filter _).length_eq

/-- Witness of the amended C21: a link is created, followed once and clicked
once on the statistics page, and a click is simulated for an unknown id; the
link is listed with 2 clicks and 2 of the 3 stored events carry its id. -/
theorem clicks_match_events_witness :
    App.freshIds Demo.frozen 1 Demo.session (App.initial, ⟨0, 0⟩) = true ∧
      (App.run Demo.frozen 1 Demo.session (App.initial, ⟨0, 0⟩)).map
          (fun p => ((App.registry p.1).map (fun r => (r.id, r.clicks)),
            (App.clicks p.1).map (fun e => e.urlId)))
        = some ([("17000000000000", 2)], ["17000000000000", "17000000000000", "ghost"]) ∧
      ∀ x t', App.run Demo.frozen 1 Demo.session (App.initial, ⟨0, 0⟩) = some (x, t') →
        ∀ r ∈ App.registry x,
          r.clicks = ((App.clicks x).filter (fun e => e.urlId = r.id)).length :=
  ⟨by decide, by decide,
    fun x t' h =>
      (clicks_match_events Demo.frozen 1 ⟨0, 0⟩ Demo.session (by decide) x t' h).1⟩
